import Mathlib

/-!
# procps-ng: cgroup memory accounting (library/cgmeminfo.c)

A shallow embedding of the cgroup memory-accounting code of `library/cgmeminfo.c`
and proofs of properties of its stat parser, metric reader, cgroup discovery (mount
locator, path parser, membership walker) and meminfo rewriter.

Conventions of the embedding:
* a C buffer is a `List Char`; a C string is the part of it before the first NUL (`cstr`);
* `unsigned long` values are `Nat`s kept below `2 ^ 64`, wrap-around is written out with
  `% 2 ^ 64`;
* `while` loops over a buffer are modelled with a fuel argument that is shown to suffice;
* what the discovery does to the system (mount lookups, membership tests, metric reads) is
  returned as a list of events next to the result.
-/

namespace Procps

/-! ## C library helpers -/

/-- Number of values of an `unsigned long`. -/
def ULONG_SIZE : Nat := 2 ^ 64

/-- Largest `unsigned long` (`ULONG_MAX`, equal to `ULLONG_MAX` on LP64). -/
def ULONG_MAX : Nat := 2 ^ 64 - 1

/-- The NUL character. -/
def NUL : Char := Char.ofNat 0

/-- The part of a buffer that C string functions see: everything before the first NUL. -/
def cstr (buf : List Char) : List Char := buf.takeWhile (fun c => c != NUL)

/-- C `isspace` in the "C" locale: space, `\t`, `\n`, `\v`, `\f`, `\r`. -/
def isspace (c : Char) : Bool :=
  c == ' ' || c == '\t' || c == '\n' || c == Char.ofNat 11 || c == Char.ofNat 12 || c == '\r'

/-- C `isdigit`. -/
def isdigit (c : Char) : Bool := decide (48 ≤ c.toNat) && decide (c.toNat ≤ 57)

/-- Decimal value of a run of digits, most significant first. -/
def digitsVal (ds : List Char) : Nat := ds.foldl (fun a c => a * 10 + (c.toNat - 48)) 0

/-- The conversion `%lu` of `sscanf` (glibc: collect sign and digits, then `strtoul`):
skip white space, accept an optional sign, require at least one digit; a value above
`ULONG_MAX` saturates, a leading `-` negates modulo `2 ^ 64`.  Returns the converted
value and the unread rest of the input, or `none` on a matching failure. -/
def scan_lu (s : List Char) : Option (Nat × List Char) :=
  let s1 := s.dropWhile isspace
  let neg := s1.head? == some '-'
  let s2 := if s1.head? == some '-' || s1.head? == some '+' then s1.tail else s1
  let ds := s2.takeWhile isdigit
  if ds.isEmpty then none
  else
    let v := digitsVal ds
    let r := if ULONG_MAX < v then ULONG_MAX else if neg then (ULONG_SIZE - v) % ULONG_SIZE else v
    some (r, s2.dropWhile isdigit)

/-- The call `sscanf(line, "%63s %lu", stat_key, &stat_value)`; `some (key, value)` stands
for the return value 2.  `%63s` skips white space and reads at most 63 non-space characters
(failing at end of input), the blank in the format skips white space, `%lu` is `scan_lu`. -/
def sscanf_key_value (line : List Char) : Option (List Char × Nat) :=
  let s := line.dropWhile isspace
  if s.isEmpty then none
  else
    let stat_key := (s.takeWhile (fun c => !isspace c)).take 63
    match scan_lu (s.drop stat_key.length) with
    | none => none
    | some (stat_value, _) => some (stat_key, stat_value)

/-! ## Data model -/

/-- Cgroup version types. -/
def CGROUP_TYPE_UNKNOWN : Nat := 0
def CGROUP_TYPE_LEGACY : Nat := 1
def CGROUP_TYPE_UNIFIED : Nat := 2
def CGROUP_TYPE_HYBRID : Nat := 3

/-- The test `version & CGROUP_TYPE_LEGACY`. -/
def isLegacy (version : Nat) : Bool := Nat.land version CGROUP_TYPE_LEGACY != 0

/-- Conversion constant. -/
def BYTES_TO_KB : Nat := 1024

/-- Mirror of `struct memory_stat`. -/
structure memory_stat where
  total_cache : Nat
  total_rss : Nat
  total_rss_huge : Nat
  total_shmem : Nat
  total_mapped_file : Nat
  total_dirty : Nat
  total_writeback : Nat
  total_inactive_anon : Nat
  total_active_anon : Nat
  total_inactive_file : Nat
  total_active_file : Nat
  total_unevictable : Nat
  slab_reclaimable : Nat
  slab_unreclaimable : Nat
  slab : Nat
  deriving DecidableEq, Repr

/-- The result of `memset(stat, 0, sizeof(struct memory_stat))`. -/
def memory_stat.zero : memory_stat :=
  ⟨0, 0, 0, 0, 0, 0, 0, 0, 0, 0, 0, 0, 0, 0, 0⟩

/-- The members of `struct memory_stat` that `stat_mappings` points to (`sTv(f)`). -/
inductive StatField where
  | total_cache | total_rss_huge | total_shmem | total_mapped_file | total_dirty
  | total_writeback | total_inactive_anon | total_active_anon | total_inactive_file
  | total_active_file | total_unevictable | slab_reclaimable | slab_unreclaimable | slab
  deriving DecidableEq, Repr

/-- Reading through a field pointer. -/
def memory_stat.get (s : memory_stat) : StatField → Nat
  | .total_cache => s.total_cache
  | .total_rss_huge => s.total_rss_huge
  | .total_shmem => s.total_shmem
  | .total_mapped_file => s.total_mapped_file
  | .total_dirty => s.total_dirty
  | .total_writeback => s.total_writeback
  | .total_inactive_anon => s.total_inactive_anon
  | .total_active_anon => s.total_active_anon
  | .total_inactive_file => s.total_inactive_file
  | .total_active_file => s.total_active_file
  | .total_unevictable => s.total_unevictable
  | .slab_reclaimable => s.slab_reclaimable
  | .slab_unreclaimable => s.slab_unreclaimable
  | .slab => s.slab

/-- Writing through a field pointer: `*(stat_mappings[i].field) = stat_value`. -/
def memory_stat.set (s : memory_stat) (f : StatField) (v : Nat) : memory_stat :=
  match f with
  | .total_cache => { s with total_cache := v }
  | .total_rss_huge => { s with total_rss_huge := v }
  | .total_shmem => { s with total_shmem := v }
  | .total_mapped_file => { s with total_mapped_file := v }
  | .total_dirty => { s with total_dirty := v }
  | .total_writeback => { s with total_writeback := v }
  | .total_inactive_anon => { s with total_inactive_anon := v }
  | .total_active_anon => { s with total_active_anon := v }
  | .total_inactive_file => { s with total_inactive_file := v }
  | .total_active_file => { s with total_active_file := v }
  | .total_unevictable => { s with total_unevictable := v }
  | .slab_reclaimable => { s with slab_reclaimable := v }
  | .slab_unreclaimable => { s with slab_unreclaimable := v }
  | .slab => { s with slab := v }

/-- One row of the table `stat_mappings`; a NULL key is `none`. -/
structure stat_mapping where
  v1_key : Option (List Char)
  v2_key : Option (List Char)
  field : StatField

/-- The table `stat_mappings` of `memcg_parse_memory_stat`, without its end marker. -/
def stat_mappings : List stat_mapping :=
  [ ⟨some "total_cache".toList, some "file".toList, .total_cache⟩,
    ⟨some "total_rss_huge".toList, none, .total_rss_huge⟩,
    ⟨some "total_shmem".toList, some "shmem".toList, .total_shmem⟩,
    ⟨some "total_mapped_file".toList, some "file_mapped".toList, .total_mapped_file⟩,
    ⟨some "total_dirty".toList, some "file_dirty".toList, .total_dirty⟩,
    ⟨some "total_writeback".toList, some "file_writeback".toList, .total_writeback⟩,
    ⟨some "total_inactive_anon".toList, some "inactive_anon".toList, .total_inactive_anon⟩,
    ⟨some "total_active_anon".toList, some "active_anon".toList, .total_active_anon⟩,
    ⟨some "total_inactive_file".toList, some "inactive_file".toList, .total_inactive_file⟩,
    ⟨some "total_active_file".toList, some "active_file".toList, .total_active_file⟩,
    ⟨some "total_unevictable".toList, some "unevictable".toList, .total_unevictable⟩,
    ⟨none, some "slab_reclaimable".toList, .slab_reclaimable⟩,
    ⟨none, some "slab_unreclaimable".toList, .slab_unreclaimable⟩,
    ⟨none, some "slab".toList, .slab⟩ ]

/-! ## `memcg_parse_memory_stat` -/

/-- The inner `for` loop over `stat_mappings`: the field of the first row whose key for the
active generation equals `stat_key` (then `break`), if any. -/
def stat_lookup (cgroup_version : Nat) (stat_key : List Char) :
    List stat_mapping → Option StatField
  | [] => none
  | m :: ms =>
    let key := if isLegacy cgroup_version then m.v1_key else m.v2_key
    if key == some stat_key then some m.field else stat_lookup cgroup_version stat_key ms

/-- The body of the `while` loop for one line (already cut at its newline). -/
def parse_stat_line (cgroup_version : Nat) (line : List Char) (stat : memory_stat) :
    memory_stat :=
  match sscanf_key_value line with
  | none => stat
  | some (stat_key, stat_value) =>
    match stat_lookup cgroup_version stat_key stat_mappings with
    | none => stat
    | some f => stat.set f stat_value

/-- The loop `while (line && *line)`: `strchr(line, '\n')` cuts the current line, the body
runs on it, and the loop continues after the newline (or ends when there is none). -/
def parse_stat_loop (cgroup_version : Nat) : Nat → List Char → memory_stat → memory_stat
  | 0, _, stat => stat
  | fuel + 1, line, stat =>
    if line.isEmpty then stat
    else
      let cur := line.takeWhile (fun c => c != '\n')
      let stat1 := parse_stat_line cgroup_version cur stat
      match line.dropWhile (fun c => c != '\n') with
      | [] => stat1
      | _ :: next_line => parse_stat_loop cgroup_version fuel next_line stat1

/-- The function `memcg_parse_memory_stat(buf, stat, cgroup_version)`: returns the status
code (always 0) and the new contents of `*stat`; the old contents are wiped by `memset`.
Every non-empty line consumes at least one character, so `buf.length` iterations suffice. -/
def memcg_parse_memory_stat (buf : List Char) (_stat : memory_stat) (cgroup_version : Nat) :
    Nat × memory_stat :=
  (0, parse_stat_loop cgroup_version (cstr buf).length (cstr buf) memory_stat.zero)

/-! ## `memcg_read_metric` -/

/-- Error numbers of Linux used by the code. -/
def ENOENT : Nat := 2
def EIO : Nat := 5
def ENOMEM : Nat := 12
def EINVAL : Nat := 22
def EOVERFLOW : Nat := 75

/-- Buffer sizes. -/
def CGMEMINFO_LEN : Nat := 8192
def PATH_MAX : Nat := 4096

/-- Mirror of `struct memcg_data`. -/
structure memcg_data where
  memory_limit : Nat
  memory_current : Nat
  swap_limit : Nat
  swap_current : Nat
  memory_stat : memory_stat
  deriving DecidableEq, Repr

/-- Mirror of `struct memcg_meminfo`; a NULL string is `none`. -/
structure memcg_meminfo where
  version : Nat
  refcount : Int
  cgmem_mount : Option (List Char)
  cgmem_path : Option (List Char)
  cgmem_data : memcg_data
  deriving DecidableEq, Repr

/-- Mirror of `enum memcg_metric_type`. -/
inductive memcg_metric_type where
  | MEMCG_MEMORY_LIMIT | MEMCG_MEMORY_CURRENT | MEMCG_SWAP_LIMIT | MEMCG_SWAP_CURRENT
  | MEMCG_MEMORY_STAT
  deriving DecidableEq, Repr

/-- One row of `file_mappings`. -/
structure memcg_file_mapping where
  v1_file : String
  v2_file : String

/-- The table `file_mappings`, indexed by the metric. -/
def file_mappings : memcg_metric_type → memcg_file_mapping
  | .MEMCG_MEMORY_LIMIT => ⟨"memory.limit_in_bytes", "memory.max"⟩
  | .MEMCG_MEMORY_CURRENT => ⟨"memory.usage_in_bytes", "memory.current"⟩
  | .MEMCG_SWAP_LIMIT => ⟨"memory.memsw.limit_in_bytes", "memory.swap.max"⟩
  | .MEMCG_SWAP_CURRENT => ⟨"memory.memsw.usage_in_bytes", "memory.swap.current"⟩
  | .MEMCG_MEMORY_STAT => ⟨"memory.stat", "memory.stat"⟩

/-- What `%s` prints for a string pointer (glibc prints `(null)` for NULL). -/
def str_arg (s : Option (List Char)) : List Char := s.getD "(null)".toList

/-- The conversion `(int)n` of a `size_t`: the low 32 bits read in two's complement. -/
def int_of_size (n : Nat) : Int := (((n + 2 ^ 31) % 2 ^ 32 : Nat) : Int) - 2 ^ 31

/-- The function `memcg_build_file_path`: `none` stands for the return value 1, `some path`
for 0 with `path` in the buffer.  `snprintf` returns the length of the whole string (a
negative value when that exceeds `INT_MAX`), and the call fails on
`ret < 0 || ret >= (int)buffer_size`, that is when the string does not fit the buffer
together with its NUL. -/
def memcg_build_file_path (info : memcg_meminfo) (metric_type : memcg_metric_type)
    (buffer_size : Nat) : Option (List Char) :=
  let filename := if isLegacy info.version then (file_mappings metric_type).v1_file
    else (file_mappings metric_type).v2_file
  let path := str_arg info.cgmem_mount ++ str_arg info.cgmem_path ++ '/' :: filename.toList
  let ret : Int := if path.length < 2 ^ 31 then (path.length : Int) else -1
  if ret < 0 ∨ ret ≥ int_of_size buffer_size then none else some path

/-- The files of the system: opening and reading a path gives the bytes of the file or the
`errno` of the failure. -/
abbrev FileSystem := List Char → Except Nat (List Char)

/-- The function `read_from_file`: at most `buf_size - 1` bytes of the file arrive in the
buffer. -/
def read_from_file (fs : FileSystem) (path : List Char) (buf_size : Nat) :
    Except Nat (List Char) :=
  if buf_size = 0 then .error EINVAL
  else
    match fs path with
    | .error e => .error e
    | .ok content => .ok (content.take (buf_size - 1))

/-- The local `result` of `memcg_read_metric` for a numeric metric:
`if (sscanf(buf, "%lu", &result) != 1) result = ULLONG_MAX`. -/
def metric_result (buf : List Char) : Nat :=
  match scan_lu (cstr buf) with
  | some (v, _) => v
  | none => ULONG_MAX

/-- The `switch` of `memcg_read_metric`: store `result` (or the parsed stat blob). -/
def memcg_store_metric (info : memcg_meminfo) (metric_type : memcg_metric_type)
    (buf : List Char) (result : Nat) : memcg_meminfo :=
  let d := info.cgmem_data
  match metric_type with
  | .MEMCG_MEMORY_LIMIT => { info with cgmem_data := { d with memory_limit := result } }
  | .MEMCG_MEMORY_CURRENT => { info with cgmem_data := { d with memory_current := result } }
  | .MEMCG_SWAP_LIMIT =>
    let result :=
      if isLegacy info.version then
        (if d.memory_limit > result then 0 else result - d.memory_limit)
      else result
    { info with cgmem_data := { d with swap_limit := result } }
  | .MEMCG_SWAP_CURRENT =>
    let result :=
      if isLegacy info.version then
        (if d.memory_current > result || d.swap_limit == 0 then 0
         else result - d.memory_current)
      else result
    { info with cgmem_data := { d with swap_current := result } }
  | .MEMCG_MEMORY_STAT =>
    { info with cgmem_data :=
        { d with memory_stat := (memcg_parse_memory_stat buf d.memory_stat info.version).2 } }

/-- The function `memcg_read_metric` (allocation of the read buffer is taken to succeed):
the return value and the structure `*info` after the call. -/
def memcg_read_metric (fs : FileSystem) (info : memcg_meminfo)
    (metric_type : memcg_metric_type) : Nat × memcg_meminfo :=
  match memcg_build_file_path info metric_type PATH_MAX with
  | none => (1, info)
  | some path =>
    match read_from_file fs path CGMEMINFO_LEN with
    | .error ret => (ret, info)
    | .ok buf =>
      let result := if metric_type ≠ .MEMCG_MEMORY_STAT then metric_result buf else 0
      (0, memcg_store_metric info metric_type buf result)

/-- The reads of `memcg_get_memory_info` once a cgroup is confirmed: the five metrics in
order, stopping at the first failure. -/
def memcg_read_all (fs : FileSystem) (info : memcg_meminfo) : Nat × memcg_meminfo :=
  let r1 := memcg_read_metric fs info .MEMCG_MEMORY_LIMIT
  if r1.1 ≠ 0 then r1
  else
    let r2 := memcg_read_metric fs r1.2 .MEMCG_MEMORY_CURRENT
    if r2.1 ≠ 0 then r2
    else
      let r3 := memcg_read_metric fs r2.2 .MEMCG_SWAP_LIMIT
      if r3.1 ≠ 0 then r3
      else
        let r4 := memcg_read_metric fs r3.2 .MEMCG_SWAP_CURRENT
        if r4.1 ≠ 0 then r4
        else memcg_read_metric fs r4.2 .MEMCG_MEMORY_STAT

/-- A file system given by a list of paths with their contents; other paths do not exist. -/
def fs_of (files : List (String × String)) : FileSystem := fun path =>
  match files.find? (fun f => f.1.toList == path) with
  | some f => .ok f.2.toList
  | none => .error ENOENT

/-- A text begins with an integer in the sense of `%lu`: optional white space, an optional
sign and at least one decimal digit. -/
def begins_with_integer (s : List Char) : Prop :=
  ∃ ws sign ds rest, s = ws ++ sign ++ ds ++ rest ∧ (∀ c ∈ ws, isspace c = true) ∧
    (sign = [] ∨ sign = ['+'] ∨ sign = ['-']) ∧ ds ≠ [] ∧ (∀ c ∈ ds, isdigit c = true)

/-- The structure after the four numeric reads in the order of `memcg_get_memory_info`:
memory limit, memory current, swap limit, swap current. -/
def memcg_read_four (fs : FileSystem) (info : memcg_meminfo) : memcg_meminfo :=
  let i1 := (memcg_read_metric fs info .MEMCG_MEMORY_LIMIT).2
  let i2 := (memcg_read_metric fs i1 .MEMCG_MEMORY_CURRENT).2
  let i3 := (memcg_read_metric fs i2 .MEMCG_SWAP_LIMIT).2
  (memcg_read_metric fs i3 .MEMCG_SWAP_CURRENT).2

/-- A legacy cgroup `/a` under the usual mount point, with the given stored numbers. -/
def legacy_info (memory_limit memory_current swap_limit swap_current : Nat) : memcg_meminfo :=
  ⟨CGROUP_TYPE_LEGACY, 1, some "/sys/fs/cgroup/memory".toList, some "/a".toList,
    ⟨memory_limit, memory_current, swap_limit, swap_current, memory_stat.zero⟩⟩

/-- A unified cgroup `/a` under the usual mount point, with the given stored numbers. -/
def unified_info (memory_limit memory_current swap_limit swap_current : Nat) : memcg_meminfo :=
  ⟨CGROUP_TYPE_UNIFIED, 1, some "/sys/fs/cgroup".toList, some "/a".toList,
    ⟨memory_limit, memory_current, swap_limit, swap_current, memory_stat.zero⟩⟩

/-- Metric files of the legacy cgroup `/a`: limit 1000, usage 100, memory+swap limit 1100,
memory+swap usage 600. -/
def legacy_files : List (String × String) :=
  [ ("/sys/fs/cgroup/memory/a/memory.limit_in_bytes", "1000\n"),
    ("/sys/fs/cgroup/memory/a/memory.usage_in_bytes", "100\n"),
    ("/sys/fs/cgroup/memory/a/memory.memsw.limit_in_bytes", "1100\n"),
    ("/sys/fs/cgroup/memory/a/memory.memsw.usage_in_bytes", "600\n") ]

/-- Metric files of the unified cgroup `/a`: no memory limit, usage 4096, swap limit 8192,
swap usage 1024. -/
def unified_files : List (String × String) :=
  [ ("/sys/fs/cgroup/a/memory.max", "max\n"),
    ("/sys/fs/cgroup/a/memory.current", "4096\n"),
    ("/sys/fs/cgroup/a/memory.swap.max", "8192\n"),
    ("/sys/fs/cgroup/a/memory.swap.current", "1024\n") ]

/-- The field of `struct memcg_data` that a numeric metric is stored in. -/
def memcg_data.metric (d : memcg_data) : memcg_metric_type → Nat
  | .MEMCG_MEMORY_LIMIT => d.memory_limit
  | .MEMCG_MEMORY_CURRENT => d.memory_current
  | .MEMCG_SWAP_LIMIT => d.swap_limit
  | .MEMCG_SWAP_CURRENT => d.swap_current
  | .MEMCG_MEMORY_STAT => 0

/-! ## `cgroup_meminfo_read_buf` -/

/-- Addition of two `unsigned long`. -/
def ul_add (a b : Nat) : Nat := (a + b) % ULONG_SIZE

/-- Subtraction of two `unsigned long`, wrapping around below 0. -/
def ul_sub (a b : Nat) : Nat := (a + (ULONG_SIZE - b % ULONG_SIZE)) % ULONG_SIZE

/-- The function `startswith`: `strncmp(line, pref, strlen(pref)) == 0`. -/
def startswith (line : List Char) (pref : String) : Bool :=
  (cstr line).take pref.length == pref.toList

/-- The call `sscanf(line + skip, "%" PRIu64, &v)` on a variable `v` that starts as 0. -/
def sscanf_lu_or_zero (line : List Char) (skip : Nat) : Nat :=
  match scan_lu ((cstr line).drop skip) with
  | some (v, _) => v
  | none => 0

/-- The conversion `%8lu` of `printf`: decimal, padded with blanks on the left to 8. -/
def fmt_lu8 (v : Nat) : List Char :=
  List.replicate (8 - (Nat.toDigits 10 v).length) ' ' ++ Nat.toDigits 10 v

/-- The calls `snprintf(lbuf, 100, "<head>%8" PRIu64 " kB\n", v)`: at most 99 characters of
the formatted line arrive in `lbuf`. -/
def snprintf_kb (head : String) (v : Nat) : List Char :=
  (head.toList ++ fmt_lu8 v ++ " kB\n".toList).take 99

/-- The locals of `cgroup_meminfo_read_buf` that change while the report is rewritten. -/
structure rewrite_vars where
  memlimit : Nat
  swtotal : Nat
  swfree : Nat
  deriving DecidableEq, Repr

/-- The locals before the first line is read. -/
def rewrite_init (data : memcg_data) : rewrite_vars :=
  { memlimit := data.memory_limit / BYTES_TO_KB,
    swtotal := data.swap_limit / BYTES_TO_KB,
    swfree := ul_sub (data.swap_limit / BYTES_TO_KB) (data.swap_current / BYTES_TO_KB) }

/-- The body of the `getline` loop up to the choice of `printme`: the new locals and the
string `printme` points to. -/
def rewrite_line (data : memcg_data) (vars : rewrite_vars) (line : List Char) :
    rewrite_vars × List Char :=
  let mstat := data.memory_stat
  let memusage := data.memory_current / BYTES_TO_KB
  let swusage := data.swap_current / BYTES_TO_KB
  if startswith line "MemTotal:" then
    let hosttotal := sscanf_lu_or_zero line "MemTotal:".length
    let memlimit := if vars.memlimit = 0 then hosttotal else vars.memlimit
    let memlimit := if hosttotal < memlimit then hosttotal else memlimit
    ({ vars with memlimit := memlimit }, snprintf_kb "MemTotal:       " memlimit)
  else if startswith line "MemFree:" then
    (vars, snprintf_kb "MemFree:        " (ul_sub vars.memlimit memusage))
  else if startswith line "MemAvailable:" then
    (vars, snprintf_kb "MemAvailable:   "
      (ul_add (ul_sub vars.memlimit memusage)
        (ul_add (ul_add mstat.total_active_file mstat.total_inactive_file)
          mstat.slab_reclaimable / BYTES_TO_KB)))
  else if startswith line "SwapTotal:" then
    let hostswtotal := sscanf_lu_or_zero line "SwapTotal:".length
    let swtotal := if hostswtotal < vars.swtotal then hostswtotal else vars.swtotal
    ({ vars with swtotal := swtotal }, snprintf_kb "SwapTotal:      " swtotal)
  else if startswith line "SwapFree:" then
    let swfree := ul_sub vars.swtotal swusage
    ({ vars with swfree := swfree }, snprintf_kb "SwapFree:       " swfree)
  else if startswith line "Slab:" then
    (vars, snprintf_kb "Slab:           " (mstat.slab / BYTES_TO_KB))
  else if startswith line "Buffers:" then
    (vars, snprintf_kb "Buffers:        " 0)
  else if startswith line "Cached:" then
    (vars, snprintf_kb "Cached:         " (mstat.total_cache / BYTES_TO_KB))
  else if startswith line "SwapCached:" then
    (vars, snprintf_kb "SwapCached:     " 0)
  else if startswith line "Active:" then
    (vars, snprintf_kb "Active:         "
      (ul_add mstat.total_active_anon mstat.total_active_file / BYTES_TO_KB))
  else if startswith line "Inactive:" then
    (vars, snprintf_kb "Inactive:       "
      (ul_add mstat.total_inactive_anon mstat.total_inactive_file / BYTES_TO_KB))
  else if startswith line "Active(anon):" then
    (vars, snprintf_kb "Active(anon):   " (mstat.total_active_anon / BYTES_TO_KB))
  else if startswith line "Inactive(anon):" then
    (vars, snprintf_kb "Inactive(anon): " (mstat.total_inactive_anon / BYTES_TO_KB))
  else if startswith line "Active(file):" then
    (vars, snprintf_kb "Active(file):   " (mstat.total_active_file / BYTES_TO_KB))
  else if startswith line "Inactive(file):" then
    (vars, snprintf_kb "Inactive(file): " (mstat.total_inactive_file / BYTES_TO_KB))
  else if startswith line "Unevictable:" then
    (vars, snprintf_kb "Unevictable:    " (mstat.total_unevictable / BYTES_TO_KB))
  else if startswith line "Dirty:" then
    (vars, snprintf_kb "Dirty:          " (mstat.total_dirty / BYTES_TO_KB))
  else if startswith line "Writeback:" then
    (vars, snprintf_kb "Writeback:      " (mstat.total_writeback / BYTES_TO_KB))
  else if startswith line "AnonPages:" then
    (vars, snprintf_kb "AnonPages:      "
      (ul_sub (ul_add mstat.total_active_anon mstat.total_inactive_anon) mstat.total_shmem
        / BYTES_TO_KB))
  else if startswith line "Mapped:" then
    (vars, snprintf_kb "Mapped:         " (mstat.total_mapped_file / BYTES_TO_KB))
  else if startswith line "SReclaimable:" then
    (vars, snprintf_kb "SReclaimable:   " (mstat.slab_reclaimable / BYTES_TO_KB))
  else if startswith line "SUnreclaim:" then
    (vars, snprintf_kb "SUnreclaim:     " (mstat.slab_unreclaimable / BYTES_TO_KB))
  else if startswith line "Shmem:" then
    (vars, snprintf_kb "Shmem:          " (mstat.total_shmem / BYTES_TO_KB))
  else if startswith line "ShmemHugePages:" then
    (vars, snprintf_kb "ShmemHugePages: " 0)
  else if startswith line "ShmemPmdMapped:" then
    (vars, snprintf_kb "ShmemPmdMapped: " 0)
  else if startswith line "AnonHugePages:" then
    (vars, snprintf_kb "AnonHugePages:  " (mstat.total_rss_huge / BYTES_TO_KB))
  else (vars, cstr line)

/-- The lines `getline` delivers from a file, each with its newline when it has one. -/
def getlines : List Char → List (List Char)
  | [] => []
  | c :: cs =>
    if c = '\n' then [c] :: getlines cs
    else
      match getlines cs with
      | [] => [[c]]
      | l :: ls => (c :: l) :: ls

/-- The `getline` loop: each `printme` is appended to the buffer with
`snprintf(buf + total_len, len - total_len, "%s", printme)`; when it does not fit, the call
fails with `EOVERFLOW` and leaves the truncated copy behind.  Returns the status and the
string in the buffer; `total_len` is the length of `out`. -/
def read_buf_loop (data : memcg_data) (len : Nat) :
    List (List Char) → rewrite_vars → List Char → Nat × List Char
  | [], _, out => (0, out)
  | line :: rest, vars, out =>
    let r := rewrite_line data vars line
    if len - out.length ≤ r.2.length then
      (EOVERFLOW, out ++ r.2.take (len - out.length - 1))
    else read_buf_loop data len rest r.1 (out ++ r.2)

/-- The function `cgroup_meminfo_read_buf(info, buf, len)`: `cg` is what
`memcg_get_memory_info` returned, `buf` the contents of the buffer (`none` for NULL);
returns the status and the contents of the buffer after the call. -/
def cgroup_meminfo_read_buf (fs : FileSystem) (cg : Nat × memcg_meminfo)
    (buf : Option (List Char)) (len : Int) : Nat × Option (List Char) :=
  match buf with
  | none => (EINVAL, none)
  | some old =>
    if len ≤ 0 then (EINVAL, some old)
    else if cg.1 ≠ 0 then (cg.1, some old)
    else
      match fs "/proc/meminfo".toList with
      | .error ret => (ret, some old)
      | .ok meminfo =>
        let r := read_buf_loop cg.2.cgmem_data len.toNat (getlines meminfo)
          (rewrite_init cg.2.cgmem_data) []
        (r.1, some r.2)

/-- The strings `printme` of the successive lines. -/
def rewrite_lines (data : memcg_data) : rewrite_vars → List (List Char) → List (List Char)
  | _, [] => []
  | vars, line :: rest =>
    (rewrite_line data vars line).2 :: rewrite_lines data (rewrite_line data vars line).1 rest

/-- The rewritten lines of a host report. -/
def meminfo_rewritten (data : memcg_data) (meminfo : List Char) : List (List Char) :=
  rewrite_lines data (rewrite_init data) (getlines meminfo)

/-- The locals after a run of lines. -/
def rewrite_vars_after (data : memcg_data) (vars : rewrite_vars) (lines : List (List Char)) :
    rewrite_vars :=
  lines.foldl (fun v l => (rewrite_line data v l).1) vars

/-- The 26 labels the rewriter recognises. -/
def recognised_labels : List String :=
  [ "MemTotal:", "MemFree:", "MemAvailable:", "SwapTotal:", "SwapFree:",
    "Slab:", "Buffers:", "Cached:", "SwapCached:", "Active:",
    "Inactive:", "Active(anon):", "Inactive(anon):", "Active(file):", "Inactive(file):",
    "Unevictable:", "Dirty:", "Writeback:", "AnonPages:", "Mapped:",
    "SReclaimable:", "SUnreclaim:", "Shmem:", "ShmemHugePages:", "ShmemPmdMapped:",
    "AnonHugePages:" ]

/-! ## Cgroup discovery -/

/-- The test `strstr(haystack, needle) != NULL`: `needle` occurs somewhere in `haystack`. -/
def strstr : List Char → List Char → Bool
  | [], needle => needle.isEmpty
  | c :: cs, needle => ((c :: cs).take needle.length == needle) || strstr cs needle

/-- Mirror of `struct mntent`, an entry of the mount table as `getmntent` delivers it. -/
structure mntent where
  mnt_fsname : List Char
  mnt_dir : List Char
  mnt_type : List Char
  mnt_opts : List Char
  deriving DecidableEq, Repr

/-- The `getmntent` loop of `cgroup_mount` over the entries of `/proc/mounts`. -/
def cgroup_mount_loop (version : Nat) : List mntent → Option (List Char)
  | [] => none
  | mnt :: rest =>
    if version == CGROUP_TYPE_UNIFIED && mnt.mnt_type == "cgroup2".toList then
      some mnt.mnt_dir
    else if version == CGROUP_TYPE_LEGACY && mnt.mnt_type == "cgroup".toList
        && strstr mnt.mnt_opts "memory".toList then
      some mnt.mnt_dir
    else cgroup_mount_loop version rest

/-- The function `cgroup_mount(version)`; `mounts` is the mount table, `none` when
`setmntent` fails.  The result `none` stands for NULL. -/
def cgroup_mount (mounts : Option (List mntent)) (version : Nat) : Option (List Char) :=
  match mounts with
  | none => none
  | some table => cgroup_mount_loop version table

/-- The conversion `(int)` of a `long`: the low 32 bits read in two's complement. -/
def int_of_long (n : Int) : Int := (n + 2 ^ 31) % 2 ^ 32 - 2 ^ 31

/-- The conversion `%d` of `sscanf` (glibc: collect sign and digits, `strtol`, store as
`int`): skip white space, accept an optional sign, require at least one digit; the value
saturates to the range of `long` and is then cut to an `int`. -/
def scan_d (s : List Char) : Option Int :=
  let s1 := s.dropWhile isspace
  let neg := s1.head? == some '-'
  let s2 := if s1.head? == some '-' || s1.head? == some '+' then s1.tail else s1
  let ds := s2.takeWhile isdigit
  if ds.isEmpty then none
  else
    let v : Int := (digitsVal ds : Int)
    let num : Int := if neg then max (-(2 ^ 63)) (-v) else min (2 ^ 63 - 1) v
    some (int_of_long num)

/-- The `getline` loop of `memcg_process_in_cgroup_tasks`: some line converts with `%d` to
the process ID. -/
def tasks_has_pid (current_pid : Int) : List (List Char) → Bool
  | [] => false
  | line :: rest =>
    if scan_d (cstr line) == some current_pid then true else tasks_has_pid current_pid rest

/-- What the program sees of the system: the files, the mount table (`none` when
`/proc/mounts` cannot be opened) and the result of `getpid()`. -/
structure sysenv where
  fs : FileSystem
  mounts : Option (List mntent)
  pid : Int

/-- The function `memcg_process_in_cgroup_tasks`: the membership list is `cgroup.procs` for
the unified type and `tasks` for the legacy type; its name is cut to `PATH_MAX - 1`
characters by `snprintf`; an unreadable list means "not a member".  For a type with
neither bit the file name is not set by the C code; the model answers `false`. -/
def memcg_process_in_cgroup_tasks (env : sysenv) (cgroup_type : Nat) (cgmount : List Char)
    (path : List Char) : Bool :=
  let name : Option (List Char) :=
    if Nat.land cgroup_type CGROUP_TYPE_UNIFIED != 0 then some "/cgroup.procs".toList
    else if Nat.land cgroup_type CGROUP_TYPE_LEGACY != 0 then some "/tasks".toList
    else none
  match name with
  | none => false
  | some name =>
    let tasks_file := (cgmount ++ path ++ name).take (PATH_MAX - 1)
    match env.fs tasks_file with
    | .error _ => false
    | .ok content => tasks_has_pid env.pid (getlines content)

/-- The function `remove_path_layer`: `none` stands for NULL, returned for the path `/`;
otherwise the path is replaced by its part from the first `/` after the first character,
or by `/` when there is none. -/
def remove_path_layer (path : List Char) : Option (List Char) :=
  if path == "/".toList then none
  else
    match (path.drop 1).dropWhile (fun c => c != '/') with
    | [] => some "/".toList
    | c :: first_slash => some (c :: first_slash)

/-- The `while` loop of `traverse_cgroup_path` with the membership test `member`: the
matching path, if any, and the paths tested, in order. -/
def traverse_loop (member : List Char → Bool) :
    Nat → Option (List Char) → Option (List Char) × List (List Char)
  | 0, _ => (none, [])
  | _ + 1, none => (none, [])
  | fuel + 1, some current_path =>
    if current_path.isEmpty then (none, [])
    else if member current_path then (some current_path, [current_path])
    else
      let r := traverse_loop member fuel (remove_path_layer current_path)
      (r.1, current_path :: r.2)

/-- What the discovery and the reads do to the system, in order. -/
inductive Event where
  | mount_lookup (version : Nat)
  | membership_test (version : Nat) (path : List Char)
  | metric_read (metric_type : memcg_metric_type)
  deriving DecidableEq, Repr

/-- The outcome of `traverse_cgroup_path`: return value, `*found`, `*info` and the events. -/
structure traverse_result where
  ret : Nat
  found : Bool
  info : memcg_meminfo
  events : List Event
  deriving DecidableEq, Repr

/-- The function `traverse_cgroup_path(path, cgroup_type, info, found)` (allocations are
taken to succeed).  Each turn of the loop shortens the path, so `path.length + 1` turns
suffice. -/
def traverse_cgroup_path (env : sysenv) (path : List Char) (cgroup_type : Nat)
    (info : memcg_meminfo) : traverse_result :=
  match cgroup_mount env.mounts cgroup_type with
  | none => ⟨ENOENT, false, info, [.mount_lookup cgroup_type]⟩
  | some cgmount =>
    let r := traverse_loop (memcg_process_in_cgroup_tasks env cgroup_type cgmount)
      (path.length + 1) (some path)
    let events := Event.mount_lookup cgroup_type :: r.2.map (Event.membership_test cgroup_type)
    match r.1 with
    | some current_path =>
      ⟨0, true, { info with version := cgroup_type, cgmem_path := some current_path,
                            cgmem_mount := some cgmount }, events⟩
    | none => ⟨0, false, info, events⟩

/-- The two paths `parse_thread_cgroup_paths` delivers; `none` stands for NULL. -/
structure cgroup_paths where
  v1_path : Option (List Char)
  v2_path : Option (List Char)
  deriving DecidableEq, Repr

/-- The line as the C code sees it after `strchr(line, '\n')` has cut the newline. -/
def chomp (line : List Char) : List Char := (cstr line).takeWhile (fun c => c != '\n')

/-- The body of the `getline` loop of `parse_thread_cgroup_paths` for one line. -/
def parse_cgroup_line (paths : cgroup_paths) (line : List Char) : cgroup_paths :=
  let l := chomp line
  if l.take 3 == "0::".toList then { paths with v2_path := some (l.drop 3) }
  else
    match l.dropWhile (fun c => c != ':') with
    | [] => paths
    | _ :: after_first =>
      match after_first.dropWhile (fun c => c != ':') with
      | [] => paths
      | _ :: path_start =>
        if strstr (after_first.takeWhile (fun c => c != ':')) "memory".toList then
          { paths with v1_path := some path_start }
        else paths

/-- The function `parse_thread_cgroup_paths(&v1_path, &v2_path)` with both paths NULL on
entry (allocations are taken to succeed): the return value and the two paths. -/
def parse_thread_cgroup_paths (fs : FileSystem) : Nat × cgroup_paths :=
  match fs "/proc/self/cgroup".toList with
  | .error e => (e, ⟨none, none⟩)
  | .ok content => (0, (getlines content).foldl parse_cgroup_line ⟨none, none⟩)

/-- The five reads of `memcg_get_memory_info` with the reads performed: the return value,
`*info` and the metrics read, in order. -/
def memcg_read_all_events (fs : FileSystem) (info : memcg_meminfo) :
    Nat × memcg_meminfo × List Event :=
  let r1 := memcg_read_metric fs info .MEMCG_MEMORY_LIMIT
  if r1.1 ≠ 0 then (r1.1, r1.2, [.metric_read .MEMCG_MEMORY_LIMIT])
  else
    let r2 := memcg_read_metric fs r1.2 .MEMCG_MEMORY_CURRENT
    if r2.1 ≠ 0 then
      (r2.1, r2.2, [.metric_read .MEMCG_MEMORY_LIMIT, .metric_read .MEMCG_MEMORY_CURRENT])
    else
      let r3 := memcg_read_metric fs r2.2 .MEMCG_SWAP_LIMIT
      if r3.1 ≠ 0 then
        (r3.1, r3.2, [.metric_read .MEMCG_MEMORY_LIMIT, .metric_read .MEMCG_MEMORY_CURRENT,
          .metric_read .MEMCG_SWAP_LIMIT])
      else
        let r4 := memcg_read_metric fs r3.2 .MEMCG_SWAP_CURRENT
        if r4.1 ≠ 0 then
          (r4.1, r4.2, [.metric_read .MEMCG_MEMORY_LIMIT, .metric_read .MEMCG_MEMORY_CURRENT,
            .metric_read .MEMCG_SWAP_LIMIT, .metric_read .MEMCG_SWAP_CURRENT])
        else
          let r5 := memcg_read_metric fs r4.2 .MEMCG_MEMORY_STAT
          (r5.1, r5.2, [.metric_read .MEMCG_MEMORY_LIMIT, .metric_read .MEMCG_MEMORY_CURRENT,
            .metric_read .MEMCG_SWAP_LIMIT, .metric_read .MEMCG_SWAP_CURRENT,
            .metric_read .MEMCG_MEMORY_STAT])

/-- The legacy walk of `memcg_get_memory_info`: performed when there is a v1 path. -/
def legacy_walk (env : sysenv) (info : memcg_meminfo) (v1_path : Option (List Char)) :
    traverse_result :=
  match v1_path with
  | some p => traverse_cgroup_path env p CGROUP_TYPE_LEGACY info
  | none => ⟨0, false, info, []⟩

/-- The unified walk of `memcg_get_memory_info`: performed when the legacy walk found
nothing and there is a v2 path. -/
def unified_walk (env : sysenv) (w1 : traverse_result) (v2_path : Option (List Char)) :
    traverse_result :=
  match w1.found, v2_path with
  | false, some p =>
    let w2 := traverse_cgroup_path env p CGROUP_TYPE_UNIFIED w1.info
    { w2 with events := w1.events ++ w2.events }
  | _, _ => w1

/-- The function `memcg_get_memory_info` from the point where the paths are parsed: the two
walks, then the reads.  Returns the return value, `*info` and the events. -/
def memcg_locate_and_read (env : sysenv) (info : memcg_meminfo) (paths : cgroup_paths) :
    Nat × memcg_meminfo × List Event :=
  let w := unified_walk env (legacy_walk env info paths.v1_path) paths.v2_path
  if !w.found then (ENOENT, w.info, w.events)
  else
    let r := memcg_read_all_events env.fs w.info
    (r.1, r.2.1, w.events ++ r.2.2)

/-- The function `memcg_get_memory_info(info)`: the return value, `*info` and the
events. -/
def memcg_get_memory_info (env : sysenv) (info : memcg_meminfo) :
    Nat × memcg_meminfo × List Event :=
  let p := parse_thread_cgroup_paths env.fs
  if p.1 ≠ 0 then (p.1, info, [])
  else memcg_locate_and_read env info p.2

/-- The candidates of the walk: the path, then what `remove_path_layer` makes of it, and so
on until `remove_path_layer` returns NULL. -/
def walk_candidates : Nat → List Char → List (List Char)
  | 0, _ => []
  | fuel + 1, p =>
    p :: (match remove_path_layer p with
          | none => []
          | some q => walk_candidates fuel q)

/-- The file name of each metric in each generation as the specification tabulates it. -/
def spec_metric_filename (legacy : Bool) : memcg_metric_type → String
  | .MEMCG_MEMORY_LIMIT => if legacy then "memory.limit_in_bytes" else "memory.max"
  | .MEMCG_MEMORY_CURRENT => if legacy then "memory.usage_in_bytes" else "memory.current"
  | .MEMCG_SWAP_LIMIT => if legacy then "memory.memsw.limit_in_bytes" else "memory.swap.max"
  | .MEMCG_SWAP_CURRENT =>
    if legacy then "memory.memsw.usage_in_bytes" else "memory.swap.current"
  | .MEMCG_MEMORY_STAT => "memory.stat"

/-- The v2 path one line of the membership file contributes, if any. -/
def line_v2 (l : List Char) : Option (List Char) :=
  if l.take 3 == "0::".toList then some (l.drop 3) else none

/-- The v1 path one line of the membership file contributes, if any. -/
def line_v1 (l : List Char) : Option (List Char) :=
  if l.take 3 == "0::".toList then none
  else
    match l.dropWhile (fun c => c != ':') with
    | [] => none
    | _ :: after_first =>
      match after_first.dropWhile (fun c => c != ':') with
      | [] => none
      | _ :: path_start =>
        if strstr (after_first.takeWhile (fun c => c != ':')) "memory".toList then
          some path_start
        else none

/-- A line selects the v1 path `p`, in the words of the specification: it does not begin
with `0::`, it has at least two colons, the text between the first and the second colon
contains `memory`, and `p` is the text after the second colon. -/
def selects_v1_path (l p : List Char) : Prop :=
  ¬ "0::".toList <+: l ∧
  ∃ id subsys, l = id ++ ':' :: (subsys ++ ':' :: p) ∧ ':' ∉ id ∧ ':' ∉ subsys ∧
    "memory".toList <:+: subsys

/-- A line selects the v2 path `p`: it begins with `0::` and `p` is the rest. -/
def selects_v2_path (l p : List Char) : Prop := l = "0::".toList ++ p

/-- The lines of the membership file as the parser sees them, without their newlines. -/
def cgroup_lines (content : List Char) : List (List Char) := (getlines content).map chomp

/-- A line's contribution replaces what the lines before it contributed. -/
def keep_last {α : Type} (f : List Char → Option α) (acc : Option α) (l : List Char) :
    Option α :=
  match f l with
  | some q => some q
  | none => acc

/-- A membership file of a hybrid system: the memory controller is on the fourth line. -/
def self_cgroup_hybrid : String :=
  "12:pids:/user.slice\n5:cpu,cpuacct:/\n0::/user.slice/session-1.scope\n4:memory:/docker/abc\n"

/-- A mount table with the legacy memory controller mounted after two other entries. -/
def legacy_mounts : List mntent :=
  [ ⟨"proc".toList, "/proc".toList, "proc".toList, "rw,nosuid".toList⟩,
    ⟨"cgroup".toList, "/sys/fs/cgroup/cpu".toList, "cgroup".toList, "rw,cpu".toList⟩,
    ⟨"cgroup".toList, "/sys/fs/cgroup/memory".toList, "cgroup".toList,
      "rw,nosuid,memory".toList⟩ ]

/-- A system in which process 1234 is listed only in the tasks of the legacy cgroup `/a`. -/
def env_member_of_a : sysenv :=
  ⟨fs_of [("/sys/fs/cgroup/memory/a/tasks", "1\n1234\n")], some legacy_mounts, 1234⟩

/-- A system in which process 1234 is listed only in the tasks of the legacy cgroup `/c`. -/
def env_member_of_c : sysenv :=
  ⟨fs_of [("/sys/fs/cgroup/memory/c/tasks", "1\n1234\n")], some legacy_mounts, 1234⟩

/-- A structure as `calloc` leaves it. -/
def info_zero : memcg_meminfo := ⟨0, 0, none, none, ⟨0, 0, 0, 0, memory_stat.zero⟩⟩

/-- The five metrics in the order `memcg_get_memory_info` reads them. -/
def five_metrics : List memcg_metric_type :=
  [.MEMCG_MEMORY_LIMIT, .MEMCG_MEMORY_CURRENT, .MEMCG_SWAP_LIMIT, .MEMCG_SWAP_CURRENT,
    .MEMCG_MEMORY_STAT]

/-- The structure after the given metrics have been read one after the other. -/
def reads_after (fs : FileSystem) (info : memcg_meminfo) (ms : List memcg_metric_type) :
    memcg_meminfo :=
  ms.foldl (fun i m => (memcg_read_metric fs i m).2) info

/-- The return value of the read number `k` (from 0) of the five, made after the reads
before it. -/
def read_code (fs : FileSystem) (info : memcg_meminfo) (k : Nat) : Nat :=
  (memcg_read_metric fs (reads_after fs info (five_metrics.take k))
    (five_metrics.getD k .MEMCG_MEMORY_STAT)).1

/-- A legacy system: process 1234 in the memory cgroup `/a`, with its metric files; the
file `memory.stat` is there or not. -/
def env_legacy (with_stat : Bool) : sysenv :=
  ⟨fs_of ([("/proc/self/cgroup", "5:cpu:/a\n4:memory:/a\n0::/a\n"),
      ("/sys/fs/cgroup/memory/a/tasks", "1\n1234\n")] ++ legacy_files ++
      (if with_stat then [("/sys/fs/cgroup/memory/a/memory.stat", "total_cache 4096\n")]
       else [])),
    some legacy_mounts, 1234⟩

/-! ## The rewritten lines in the words of the specification -/

/-- The lines that report one counter, in the words of the specification: the label, the
format up to the value, and the counter in bytes. -/
def counter_lines : List (String × String × (memory_stat → Nat)) :=
  [ ("Cached:", "Cached:         ", memory_stat.total_cache),
    ("Shmem:", "Shmem:          ", memory_stat.total_shmem),
    ("Mapped:", "Mapped:         ", memory_stat.total_mapped_file),
    ("Dirty:", "Dirty:          ", memory_stat.total_dirty),
    ("Writeback:", "Writeback:      ", memory_stat.total_writeback),
    ("Active(anon):", "Active(anon):   ", memory_stat.total_active_anon),
    ("Inactive(anon):", "Inactive(anon): ", memory_stat.total_inactive_anon),
    ("Active(file):", "Active(file):   ", memory_stat.total_active_file),
    ("Inactive(file):", "Inactive(file): ", memory_stat.total_inactive_file),
    ("Unevictable:", "Unevictable:    ", memory_stat.total_unevictable),
    ("AnonHugePages:", "AnonHugePages:  ", memory_stat.total_rss_huge),
    ("Slab:", "Slab:           ", memory_stat.slab),
    ("SReclaimable:", "SReclaimable:   ", memory_stat.slab_reclaimable),
    ("SUnreclaim:", "SUnreclaim:     ", memory_stat.slab_unreclaimable),
    ("Active:", "Active:         ",
      fun s => ul_add s.total_active_anon s.total_active_file),
    ("Inactive:", "Inactive:       ",
      fun s => ul_add s.total_inactive_anon s.total_inactive_file) ]

/-- The lines that always report zero: the label and the format up to the value. -/
def zero_lines : List (String × String) :=
  [ ("Buffers:", "Buffers:        "), ("SwapCached:", "SwapCached:     "),
    ("ShmemHugePages:", "ShmemHugePages: "), ("ShmemPmdMapped:", "ShmemPmdMapped: ") ]

/-- A snapshot for the examples: limit 2 GiB, 1 MiB in use, swap limit 1 MiB, no swap in
use, and stat counters as in the library's v2 test. -/
def example_data : memcg_data :=
  ⟨2147483648, 1048576, 1048576, 0,
    { memory_stat.zero with
      total_cache := 1048576, total_shmem := 524288, total_active_anon := 1048576,
      total_inactive_anon := 1048576, total_active_file := 524288,
      total_inactive_file := 524288, slab_reclaimable := 131072, slab := 196608 }⟩

/-- A host report for the examples. -/
def example_meminfo : String :=
  "MemTotal:       16384000 kB\nMemFree:         1234 kB\nMemAvailable:    5678 kB\nBuffers:           99 kB\nCached:           100 kB\nSwapTotal:        2048 kB\nSwapFree:         2000 kB\nAnonPages:         77 kB\nActive:            55 kB\nVmallocTotal:   34359738367 kB\n"

/-- The format heads of the 26 substituted lines: the label and the text of the format
up to the value. -/
def kb_heads : List (String × String) :=
  [ ("MemTotal:", "MemTotal:       "), ("MemFree:", "MemFree:        "),
    ("MemAvailable:", "MemAvailable:   "), ("SwapTotal:", "SwapTotal:      "),
    ("SwapFree:", "SwapFree:       "), ("AnonPages:", "AnonPages:      ") ]
  ++ zero_lines ++ counter_lines.map (fun e => (e.1, e.2.1))

/-- Every number of the snapshot that reaches a line is an `unsigned long`. -/
def memcg_data.is_ulong (data : memcg_data) : Prop :=
  data.memory_limit < 2 ^ 64 ∧ data.swap_limit < 2 ^ 64 ∧
    ∀ f : StatField, data.memory_stat.get f < 2 ^ 64

/-! ## Stat lines in the words of the specification -/

/-- The lines of a stat blob as the parsing loop visits them: the text is cut at each
newline, and a last line without newline counts when it is not empty. -/
def stat_lines : List Char → List (List Char)
  | [] => []
  | c :: cs =>
    if c = '\n' then [] :: stat_lines cs
    else
      match stat_lines cs with
      | [] => [[c]]
      | l :: ls => (c :: l) :: ls

/-- The first word of a line: what stands between the leading white space and the next
white space. -/
def first_word (line : List Char) : List Char :=
  (line.dropWhile isspace).takeWhile (fun c => !isspace c)

/-- What follows the first word of a line. -/
def after_first_word (line : List Char) : List Char :=
  (line.dropWhile isspace).dropWhile (fun c => !isspace c)

/-- A text starts with a decimal digit. -/
def begins_with_digit : List Char → Bool
  | [] => false
  | c :: _ => isdigit c

/-- A text that is, after optional white space, an unsigned decimal integer (possibly
followed by more text). -/
def begins_unsigned (s : List Char) : Bool :=
  begins_with_digit (s.dropWhile isspace)

/-- A text that is, after optional white space, a decimal integer with an optional sign
(possibly followed by more text). -/
def begins_signed (s : List Char) : Bool :=
  match s.dropWhile isspace with
  | [] => false
  | c :: cs => if c = '-' ∨ c = '+' then begins_with_digit cs else isdigit c

/-- A line that is a key followed by an unsigned integer. -/
def key_then_unsigned (line : List Char) : Bool :=
  !(first_word line).isEmpty && begins_unsigned (after_first_word line)

/-- A line that is a key followed by an optionally signed integer. -/
def key_then_signed (line : List Char) : Bool :=
  !(first_word line).isEmpty && begins_signed (after_first_word line)

/-! ## The call as a whole -/

/-- The function `cgroup_meminfo_read_buf(info, buf, len)` on a system, from its first
statement: the arguments are checked, then `memcg_get_memory_info` fills a
zeroed structure, then `/proc/meminfo` is opened and rewritten into the buffer.  Returns
the status, the contents of the buffer after the call and the events of the discovery. -/
def cgroup_meminfo_read_buf_env (env : sysenv) (buf : Option (List Char)) (len : Int) :
    Nat × Option (List Char) × List Event :=
  match buf with
  | none => (EINVAL, none, [])
  | some old =>
    if len ≤ 0 then (EINVAL, some old, [])
    else
      let g := memcg_get_memory_info env info_zero
      if g.1 ≠ 0 then (g.1, some old, g.2.2)
      else
        match env.fs "/proc/meminfo".toList with
        | .error ret => (ret, some old, g.2.2)
        | .ok meminfo =>
          let r := read_buf_loop g.2.1.cgmem_data len.toNat (getlines meminfo)
            (rewrite_init g.2.1.cgmem_data) []
          (r.1, some r.2, g.2.2)

/-- A bound on the turns the walk takes from a path: none from the empty path, one from
`/`, and otherwise one per `/` and one more, or two more when the path does not begin
with `/`. -/
def walk_turns (p : List Char) : Nat :=
  if p = [] then 0
  else if p = "/".toList then 1
  else if p.head? = some '/' then p.count '/' + 1
  else p.count '/' + 2

/-- The key names of the legacy generation. -/
def v1_keys : List (List Char) := stat_mappings.filterMap (fun m => m.v1_key)

/-- The key names of the unified generation. -/
def v2_keys : List (List Char) := stat_mappings.filterMap (fun m => m.v2_key)

/-- A line of a text: characters other than the newline, then one newline. -/
def is_text_line (l : List Char) : Prop :=
  ∃ body, l = body ++ ['\n'] ∧ ∀ c ∈ body, c ≠ '\n'

/-! ## `stzncpy` (strutils.h) -/

/-- The assignment `*dest = c`; `none` when `dest` points past the end of its buffer. -/
def poke (dest : List Char) (c : Char) : Option (List Char) :=
  match dest with
  | [] => none
  | _ :: d => some (c :: d)

/-- The loop `while (src < src_end && *src) *dest++ = *src++;` followed by `*dest = 0`.
The pointers into the source are addresses: `src_end` is the address `stzncpy` computed,
the second argument the address `src` holds now; `src` and `dest` are the bytes from the
two pointers on.  Returns the bytes from `dest` on after the writes and the number of bytes
the returned pointer lies after `dest`; `none` when a byte outside `src` is read or a byte
outside `dest` is written.  While `src < src_end` holds, `src + 1` is at most `src_end`, so
the increment stays inside the address space. -/
def stzncpy_loop (src_end : Nat) : Nat → List Char → List Char → Option (List Char × Nat)
  | p, [], dest => if p < src_end then none else (poke dest NUL).map (fun d => (d, 0))
  | p, c :: s, dest =>
    if p < src_end ∧ c ≠ NUL then
      match dest with
      | [] => none
      | _ :: d => (stzncpy_loop src_end (p + 1) s d).map (fun r => (c :: r.1, r.2 + 1))
    else (poke dest NUL).map (fun d => (d, 0))

/-- The function `stzncpy(dest, src, len)` with `src` at the address `src_addr`: the sum
`src_end = src + len` is an address of 64 bits and wraps around at `2 ^ 64`, `len` being a
`size_t`. -/
def stzncpy (dest : List Char) (src_addr : Nat) (src : List Char) (len : Nat) :
    Option (List Char × Nat) :=
  stzncpy_loop ((src_addr + len % 2 ^ 64) % 2 ^ 64) src_addr src dest

/-! ## `scale_size` (units.c and free.c) -/

/-- The conversion of an `unsigned long long` to `long long` (two's complement). -/
def llong_of (n : Nat) : Int :=
  if n % 2 ^ 64 < 2 ^ 63 then ((n % 2 ^ 64 : Nat) : Int) else ((n % 2 ^ 64 : Nat) : Int) - 2 ^ 64

/-- The conversions `%ld` and `%lld` of `printf` (both 64 bits wide). -/
def fmt_ld (x : Int) : List Char :=
  if x < 0 then '-' :: Nat.toDigits 10 x.natAbs else Nat.toDigits 10 x.natAbs

def FREE_HUMANREADABLE : Nat := 2

def FREE_SI : Nat := 32

/-- The function `scale_size(size, exponent, si, humanreadable)` of units.c.  The product
`size * 1024LL` is computed in `unsigned long long` and converted to `long long`; `/` on
`long long` rounds towards zero.  The branches that compute in floating point (an exponent
above 1, human readable output) are outside the model and give `none`. -/
def units_scale_size (size : Nat) (exponent : Nat) (si : Int) (humanreadable : Int) :
    Option (List Char) :=
  let base : Nat := if si ≠ 0 then 1000 else 1024
  let bytes : Int := llong_of (size % 2 ^ 64 * 1024)
  if humanreadable = 0 then
    match exponent with
    | 0 => some (fmt_ld (Int.tdiv bytes (base : Int)))
    | 1 => some (fmt_ld bytes)
    | _ => none
  else none

/-- The function `scale_size(size, flags, args)` of free.c, with `args.exponent` as third
argument.  The `float` base is 1000.0 or 1024.0 and converts exactly to `long long`.  The
branches that compute in floating point are outside the model and give `none`. -/
def free_scale_size (size : Nat) (flags : Nat) (exponent : Int) : Option (List Char) :=
  let base : Nat := if Nat.land flags FREE_SI ≠ 0 then 1000 else 1024
  let bytes : Int := llong_of (size % 2 ^ 64 * 1024)
  if Nat.land flags FREE_HUMANREADABLE = 0 then
    if exponent = 0 then some (fmt_ld (Int.tdiv bytes (base : Int)))
    else if exponent = 1 then some (fmt_ld bytes)
    else none
  else none

/-! ## Stat blobs as the kernel writes them -/

/-- One line of a stat file: a key and an integer. -/
structure StatEntry where
  key : List Char
  value : Nat

/-- A well-formed entry: the key is a non-empty word without white space or NUL and the
integer fits an `unsigned long`. -/
def StatEntry.wf (e : StatEntry) : Prop :=
  e.key ≠ [] ∧ (∀ c ∈ e.key, isspace c = false ∧ c ≠ NUL) ∧ e.value < 2 ^ 64

/-- The text of an entry without its newline: `<key> <decimal integer>`. -/
def StatEntry.text (e : StatEntry) : List Char := e.key ++ ' ' :: Nat.toDigits 10 e.value

/-- The blob made of the lines of the entries, each ended by a newline. -/
def statBlob : List StatEntry → List Char
  | [] => []
  | e :: es => e.text ++ '\n' :: statBlob es

/-- The blob of the entries with or without the newline after its last line. -/
def statText (es : List StatEntry) (final_newline : Bool) : List Char :=
  if final_newline then statBlob es else (statBlob es).dropLast

instance (e : StatEntry) : Decidable e.wf := by
  unfold StatEntry.wf
  infer_instance

/-- The v1 blob of the library's own test `test_memcg_parse_memory_stat_v1`. -/
def test_stat_v1 : List StatEntry :=
  [ ⟨"total_cache".toList, 1048576⟩, ⟨"total_rss".toList, 2097152⟩,
    ⟨"total_rss_huge".toList, 0⟩, ⟨"total_shmem".toList, 524288⟩,
    ⟨"total_mapped_file".toList, 262144⟩, ⟨"total_dirty".toList, 4096⟩,
    ⟨"total_writeback".toList, 0⟩, ⟨"total_inactive_anon".toList, 1048576⟩,
    ⟨"total_active_anon".toList, 1048576⟩, ⟨"total_inactive_file".toList, 524288⟩,
    ⟨"total_active_file".toList, 524288⟩, ⟨"total_unevictable".toList, 0⟩ ]

/-- The v2 blob of the library's own test `test_memcg_parse_memory_stat_v2`. -/
def test_stat_v2 : List StatEntry :=
  [ ⟨"file".toList, 1048576⟩, ⟨"anon".toList, 2097152⟩, ⟨"file_mapped".toList, 262144⟩,
    ⟨"file_dirty".toList, 4096⟩, ⟨"file_writeback".toList, 0⟩, ⟨"shmem".toList, 524288⟩,
    ⟨"inactive_anon".toList, 1048576⟩, ⟨"active_anon".toList, 1048576⟩,
    ⟨"inactive_file".toList, 524288⟩, ⟨"active_file".toList, 524288⟩,
    ⟨"unevictable".toList, 0⟩, ⟨"slab_reclaimable".toList, 131072⟩,
    ⟨"slab_unreclaimable".toList, 65536⟩, ⟨"slab".toList, 196608⟩ ]

/-- The eleven v1 keys, each with the field of the same name. -/
def v1_named_fields : List (String × StatField) :=
  [ ("total_cache", .total_cache), ("total_rss_huge", .total_rss_huge),
    ("total_shmem", .total_shmem), ("total_mapped_file", .total_mapped_file),
    ("total_dirty", .total_dirty), ("total_writeback", .total_writeback),
    ("total_inactive_anon", .total_inactive_anon), ("total_active_anon", .total_active_anon),
    ("total_inactive_file", .total_inactive_file), ("total_active_file", .total_active_file),
    ("total_unevictable", .total_unevictable) ]

/-- The thirteen v2 keys, each with its normalized field. -/
def v2_named_fields : List (String × StatField) :=
  [ ("file", .total_cache), ("shmem", .total_shmem), ("file_mapped", .total_mapped_file),
    ("file_dirty", .total_dirty), ("file_writeback", .total_writeback),
    ("inactive_anon", .total_inactive_anon), ("active_anon", .total_active_anon),
    ("inactive_file", .total_inactive_file), ("active_file", .total_active_file),
    ("unevictable", .total_unevictable), ("slab_reclaimable", .slab_reclaimable),
    ("slab_unreclaimable", .slab_unreclaimable), ("slab", .slab) ]

/-- The effect one well-formed line has on the counters: the row of its key, when there
is one, receives its integer. -/
def stat_apply (cgroup_version : Nat) (stat : memory_stat) (e : StatEntry) : memory_stat :=
  match stat_lookup cgroup_version e.key stat_mappings with
  | none => stat
  | some f => stat.set f e.value

/-- The key a row offers to the active generation. -/
def stat_mapping.key (cgroup_version : Nat) (m : stat_mapping) : Option (List Char) :=
  if isLegacy cgroup_version then m.v1_key else m.v2_key

/-! ## Lemmas on the C library helpers -/

theorem digitChar_toNat (k : Nat) (hk : k < 10) : (Nat.digitChar k).toNat = 48 + k := by
  interval_cases k <;> rfl

theorem digitChar_isdigit (k : Nat) (hk : k < 10) : isdigit (Nat.digitChar k) = true := by
  interval_cases k <;> rfl

theorem digitChar_not_isspace (k : Nat) (hk : k < 10) : isspace (Nat.digitChar k) = false := by
  interval_cases k <;> rfl

theorem toDigitsCore_foldl (fuel : Nat) : ∀ (n : Nat) (ds : List Char), n < fuel →
    (Nat.toDigitsCore 10 fuel n ds).foldl (fun a c => a * 10 + (c.toNat - 48)) 0
      = ds.foldl (fun a c => a * 10 + (c.toNat - 48)) n := by
  induction fuel with
  | zero => intro n ds h; omega
  | succ fuel ih =>
    intro n ds h
    have hd : (Nat.digitChar (n % 10)).toNat - 48 = n % 10 := by
      rw [digitChar_toNat _ (Nat.mod_lt _ (by decide))]; omega
    simp only [Nat.toDigitsCore]
    split
    · rename_i h0
      simp only [List.foldl_cons, hd]
      have : n = n % 10 := by omega
      rw [Nat.zero_mul, Nat.zero_add, ← this]
    · rename_i h0
      rw [ih (n / 10) _ (by omega)]
      simp only [List.foldl_cons, hd]
      congr 1
      omega

theorem digitsVal_toDigits (n : Nat) : digitsVal (Nat.toDigits 10 n) = n := by
  unfold digitsVal Nat.toDigits
  rw [toDigitsCore_foldl (n + 1) n [] (by omega)]
  rfl

theorem toDigitsCore_all_digit (fuel : Nat) : ∀ (n : Nat) (ds : List Char),
    (∀ c ∈ ds, isdigit c = true) → ∀ c ∈ Nat.toDigitsCore 10 fuel n ds, isdigit c = true := by
  induction fuel with
  | zero => intro n ds h; simpa [Nat.toDigitsCore] using h
  | succ fuel ih =>
    intro n ds h
    have hd := digitChar_isdigit (n % 10) (Nat.mod_lt _ (by decide))
    simp only [Nat.toDigitsCore]
    split
    · intro c hc
      rcases List.mem_cons.mp hc with rfl | hc
      · exact hd
      · exact h c hc
    · apply ih
      intro c hc
      rcases List.mem_cons.mp hc with rfl | hc
      · exact hd
      · exact h c hc

theorem toDigits_all_digit (n : Nat) : ∀ c ∈ Nat.toDigits 10 n, isdigit c = true :=
  toDigitsCore_all_digit (n + 1) n [] (by simp)

theorem toDigitsCore_ne_nil (fuel : Nat) : ∀ (n : Nat) (ds : List Char),
    ds ≠ [] → Nat.toDigitsCore 10 fuel n ds ≠ [] := by
  induction fuel with
  | zero => intro n ds h; simpa [Nat.toDigitsCore] using h
  | succ fuel ih =>
    intro n ds _
    simp only [Nat.toDigitsCore]
    split
    · simp
    · exact ih _ _ (by simp)

theorem toDigits_ne_nil (n : Nat) : Nat.toDigits 10 n ≠ [] := by
  unfold Nat.toDigits
  simp only [Nat.toDigitsCore]
  split
  · simp
  · exact toDigitsCore_ne_nil _ _ _ (by simp)

theorem isdigit_not_isspace (c : Char) (h : isdigit c = true) : isspace c = false := by
  simp only [isdigit, Bool.and_eq_true, decide_eq_true_eq] at h
  simp only [isspace, Bool.or_eq_false_iff, beq_eq_false_iff_ne, ne_eq]
  refine ⟨⟨⟨⟨⟨?_, ?_⟩, ?_⟩, ?_⟩, ?_⟩, ?_⟩ <;> (intro hc; rw [hc] at h; revert h; decide)

theorem isdigit_not_sign (c : Char) (h : isdigit c = true) : c ≠ '-' ∧ c ≠ '+' ∧ c ≠ NUL := by
  simp only [isdigit, Bool.and_eq_true, decide_eq_true_eq] at h
  refine ⟨?_, ?_, ?_⟩ <;> (intro hc; rw [hc] at h; revert h; decide)

theorem takeWhile_append_stop {α : Type} (p : α → Bool) (l r : List α) (c : α)
    (hl : ∀ x ∈ l, p x = true) (hc : p c = false) : (l ++ c :: r).takeWhile p = l := by
  induction l with
  | nil => simp [List.takeWhile_cons, hc]
  | cons a l ih =>
    have ha : p a = true := hl a (by simp)
    simp only [List.cons_append, List.takeWhile_cons, ha, if_true]
    rw [ih (fun x hx => hl x (by simp [hx]))]

theorem dropWhile_append_stop {α : Type} (p : α → Bool) (l r : List α) (c : α)
    (hl : ∀ x ∈ l, p x = true) (hc : p c = false) : (l ++ c :: r).dropWhile p = c :: r := by
  induction l with
  | nil => simp [List.dropWhile_cons, hc]
  | cons a l ih =>
    have ha : p a = true := hl a (by simp)
    simp only [List.cons_append, List.dropWhile_cons, ha, if_true]
    exact ih (fun x hx => hl x (by simp [hx]))

theorem takeWhile_all {α : Type} (p : α → Bool) (l : List α) (hl : ∀ x ∈ l, p x = true) :
    l.takeWhile p = l := by
  induction l with
  | nil => rfl
  | cons a l ih =>
    have ha : p a = true := hl a (by simp)
    simp only [List.takeWhile_cons, ha, if_true]
    rw [ih (fun x hx => hl x (by simp [hx]))]

theorem dropWhile_all {α : Type} (p : α → Bool) (l : List α) (hl : ∀ x ∈ l, p x = true) :
    l.dropWhile p = [] := by
  induction l with
  | nil => rfl
  | cons a l ih =>
    have ha : p a = true := hl a (by simp)
    simp only [List.dropWhile_cons, ha, if_true]
    exact ih (fun x hx => hl x (by simp [hx]))

/-- The conversion `%lu` reads back a printed `unsigned long` that follows one blank. -/
theorem scan_lu_blank_toDigits (n : Nat) (hn : n < 2 ^ 64) :
    scan_lu (' ' :: Nat.toDigits 10 n) = some (n, []) := by
  have hall := toDigits_all_digit n
  have hne := toDigits_ne_nil n
  have hval := digitsVal_toDigits n
  generalize Nat.toDigits 10 n = ds at hall hne hval
  cases ds with
  | nil => exact absurd rfl hne
  | cons d ds =>
    have hd : isdigit d = true := hall d (by simp)
    have hsp : isspace d = false := isdigit_not_isspace d hd
    obtain ⟨hm, hp, _⟩ := isdigit_not_sign d hd
    have h1 : List.dropWhile isspace (' ' :: d :: ds) = d :: ds := by
      rw [List.dropWhile_cons]
      have : isspace ' ' = true := by decide
      simp only [this, if_true, List.dropWhile_cons, hsp]
      simp
    have hm' : (some d == some '-') = false := by simp [hm]
    have hp' : (some d == some '+') = false := by simp [hp]
    unfold scan_lu
    simp only [h1, List.head?_cons, hm', hp', Bool.or_false, Bool.false_eq_true, if_false]
    rw [takeWhile_all isdigit _ hall, dropWhile_all isdigit _ hall, hval]
    have h2 : ¬ (ULONG_MAX < n) := by unfold ULONG_MAX; omega
    simp [h2]

/-- For a line `<key> <integer>` whose key fits the 63 characters of `%63s`, `sscanf`
converts both items. -/
theorem sscanf_key_value_short (key : List Char) (n : Nat) (hne : key ≠ [])
    (hkey : ∀ c ∈ key, isspace c = false) (hlen : key.length ≤ 63) (hn : n < 2 ^ 64) :
    sscanf_key_value (key ++ ' ' :: Nat.toDigits 10 n) = some (key, n) := by
  cases key with
  | nil => exact absurd rfl hne
  | cons k key =>
    have hk : isspace k = false := hkey k (by simp)
    have h1 : List.dropWhile isspace ((k :: key) ++ ' ' :: Nat.toDigits 10 n)
        = (k :: key) ++ ' ' :: Nat.toDigits 10 n := by
      simp [List.dropWhile_cons, hk]
    have h2 : List.takeWhile (fun c => !isspace c) ((k :: key) ++ ' ' :: Nat.toDigits 10 n)
        = k :: key :=
      takeWhile_append_stop _ _ _ _ (fun x hx => by simp [hkey x hx]) (by decide)
    unfold sscanf_key_value
    simp only [h1, h2]
    have h3 : List.take 63 (k :: key) = k :: key := List.take_of_length_le hlen
    rw [h3]
    have h4 : List.drop (k :: key).length ((k :: key) ++ ' ' :: Nat.toDigits 10 n)
        = ' ' :: Nat.toDigits 10 n := List.drop_left _ _
    rw [h4, scan_lu_blank_toDigits n hn]
    simp

/-- For a key longer than 63 characters `sscanf` can only deliver a 63-character key. -/
theorem sscanf_key_value_long (key rest : List Char) (hne : key ≠ [])
    (hkey : ∀ c ∈ key, isspace c = false) (hlen : 63 < key.length) :
    ∀ r, sscanf_key_value (key ++ ' ' :: rest) = some r → r.1.length = 63 := by
  cases key with
  | nil => exact absurd rfl hne
  | cons k key =>
    have hk : isspace k = false := hkey k (by simp)
    have h1 : List.dropWhile isspace ((k :: key) ++ ' ' :: rest)
        = (k :: key) ++ ' ' :: rest := by
      simp [List.dropWhile_cons, hk]
    have h2 : List.takeWhile (fun c => !isspace c) ((k :: key) ++ ' ' :: rest)
        = k :: key :=
      takeWhile_append_stop _ _ _ _ (fun x hx => by simp [hkey x hx]) (by decide)
    intro r hr
    unfold sscanf_key_value at hr
    simp only [h1, h2] at hr
    split at hr
    · simp at hr
    · split at hr
      · simp at hr
      · simp only [Option.some.injEq] at hr
        rw [← hr]
        simp only [List.length_take]
        omega

/-! ## Lemmas on the stat table -/

theorem memory_stat.get_set_same (s : memory_stat) (f : StatField) (v : Nat) :
    (s.set f v).get f = v := by
  cases f <;> rfl

theorem memory_stat.get_set_other (s : memory_stat) (f g : StatField) (v : Nat) (h : f ≠ g) :
    (s.set f v).get g = s.get g := by
  cases f <;> cases g <;> first | rfl | exact absurd rfl h

theorem stat_lookup_some (v : Nat) (k : List Char) : ∀ (ms : List stat_mapping) (f : StatField),
    stat_lookup v k ms = some f → ∃ m ∈ ms, m.key v = some k ∧ m.field = f := by
  intro ms
  induction ms with
  | nil => intro f h; simp [stat_lookup] at h
  | cons m ms ih =>
    intro f h
    simp only [stat_lookup] at h
    by_cases hk : ((if isLegacy v = true then m.v1_key else m.v2_key) == some k) = true
    · rw [if_pos hk] at h
      refine ⟨m, by simp, ?_, by simpa using h⟩
      simpa [stat_mapping.key] using hk
    · rw [if_neg hk] at h
      obtain ⟨m', hm', h1, h2⟩ := ih f h
      exact ⟨m', by simp [hm'], h1, h2⟩

theorem stat_mappings_field_inj : ∀ m1 ∈ stat_mappings, ∀ m2 ∈ stat_mappings,
    m1.field = m2.field → m1.v1_key = m2.v1_key ∧ m1.v2_key = m2.v2_key := by
  decide

theorem stat_mappings_key_short : ∀ m ∈ stat_mappings,
    (m.v1_key.map List.length).getD 0 < 63 ∧ (m.v2_key.map List.length).getD 0 < 63 := by
  decide

theorem stat_lookup_key_short (v : Nat) (k : List Char) (f : StatField)
    (h : stat_lookup v k stat_mappings = some f) : k.length < 63 := by
  obtain ⟨m, hm, hk, _⟩ := stat_lookup_some v k _ f h
  have := stat_mappings_key_short m hm
  unfold stat_mapping.key at hk
  split at hk
  · rw [hk] at this; simpa using this.1
  · rw [hk] at this; simpa using this.2

theorem stat_lookup_inj (v : Nat) (k1 k2 : List Char) (f : StatField)
    (h1 : stat_lookup v k1 stat_mappings = some f)
    (h2 : stat_lookup v k2 stat_mappings = some f) : k1 = k2 := by
  obtain ⟨m1, hm1, hk1, hf1⟩ := stat_lookup_some v k1 _ f h1
  obtain ⟨m2, hm2, hk2, hf2⟩ := stat_lookup_some v k2 _ f h2
  have := stat_mappings_field_inj m1 hm1 m2 hm2 (hf1.trans hf2.symm)
  unfold stat_mapping.key at hk1 hk2
  split at hk1
  · rename_i hl
    rw [if_pos hl] at hk2
    have h := this.1
    rw [hk1, hk2] at h
    exact Option.some.inj h
  · rename_i hl
    rw [if_neg hl] at hk2
    have h := this.2
    rw [hk1, hk2] at h
    exact Option.some.inj h

/-! ## Lemmas on the parsing loop -/

theorem StatEntry.text_no_newline (e : StatEntry) (h : e.wf) :
    ∀ c ∈ e.text, (c != '\n') = true := by
  intro c hc
  simp only [StatEntry.text, List.mem_append, List.mem_cons] at hc
  rcases hc with hc | rfl | hc
  · have := (h.2.1 c hc).1
    simp only [bne_iff_ne, ne_eq]
    intro h'; rw [h'] at this; revert this; decide
  · decide
  · have := isdigit_not_isspace c (toDigits_all_digit _ c hc)
    simp only [bne_iff_ne, ne_eq]
    intro h'; rw [h'] at this; revert this; decide

theorem StatEntry.text_no_nul (e : StatEntry) (h : e.wf) :
    ∀ c ∈ e.text, (c != NUL) = true := by
  intro c hc
  simp only [StatEntry.text, List.mem_append, List.mem_cons] at hc
  rcases hc with hc | rfl | hc
  · simpa using (h.2.1 c hc).2
  · decide
  · simpa using (isdigit_not_sign c (toDigits_all_digit _ c hc)).2.2

theorem statBlob_no_nul (es : List StatEntry) (h : ∀ e ∈ es, e.wf) :
    ∀ c ∈ statBlob es, (c != NUL) = true := by
  induction es with
  | nil => simp [statBlob]
  | cons e es ih =>
    intro c hc
    simp only [statBlob, List.mem_append, List.mem_cons] at hc
    rcases hc with hc | rfl | hc
    · exact e.text_no_nul (h e (by simp)) c hc
    · decide
    · exact ih (fun e' he' => h e' (by simp [he'])) c hc

theorem cstr_statBlob (es : List StatEntry) (h : ∀ e ∈ es, e.wf) :
    cstr (statBlob es) = statBlob es :=
  takeWhile_all _ _ (statBlob_no_nul es h)

/-- One turn of the `while` loop on a buffer that starts with a newline-terminated line. -/
theorem parse_stat_loop_line (v fuel : Nat) (cur rest : List Char) (st : memory_stat)
    (hcur : ∀ c ∈ cur, (c != '\n') = true) :
    parse_stat_loop v (fuel + 1) (cur ++ '\n' :: rest) st
      = parse_stat_loop v fuel rest (parse_stat_line v cur st) := by
  have h1 : (cur ++ '\n' :: rest).isEmpty = false := by cases cur <;> rfl
  have h2 := takeWhile_append_stop (fun c => c != '\n') cur rest '\n' hcur (by decide)
  have h3 := dropWhile_append_stop (fun c => c != '\n') cur rest '\n' hcur (by decide)
  simp only [parse_stat_loop, h1, h2, h3, Bool.false_eq_true, if_false]

theorem parse_stat_line_entry (v : Nat) (e : StatEntry) (h : e.wf) (st : memory_stat) :
    parse_stat_line v e.text st = stat_apply v st e := by
  obtain ⟨hne, hkey, hval⟩ := h
  unfold parse_stat_line stat_apply StatEntry.text
  by_cases hlen : e.key.length ≤ 63
  · rw [sscanf_key_value_short e.key e.value hne (fun c hc => (hkey c hc).1) hlen hval]
  · have hlong := sscanf_key_value_long e.key (Nat.toDigits 10 e.value) hne
      (fun c hc => (hkey c hc).1) (by omega)
    have hnone : stat_lookup v e.key stat_mappings = none := by
      cases hl : stat_lookup v e.key stat_mappings with
      | none => rfl
      | some f => have := stat_lookup_key_short v _ f hl; omega
    rw [hnone]
    cases hs : sscanf_key_value (e.key ++ ' ' :: Nat.toDigits 10 e.value) with
    | none => rfl
    | some r =>
      have h63 := hlong r hs
      cases hl : stat_lookup v r.1 stat_mappings with
      | none => simp [hl]
      | some f => have := stat_lookup_key_short v _ f hl; omega

theorem parse_stat_loop_blob (v : Nat) : ∀ (es : List StatEntry) (fuel : Nat) (st : memory_stat),
    (∀ e ∈ es, e.wf) → (statBlob es).length ≤ fuel →
    parse_stat_loop v fuel (statBlob es) st = es.foldl (stat_apply v) st := by
  intro es
  induction es with
  | nil =>
    intro fuel st _ _
    cases fuel <;> simp [parse_stat_loop, statBlob]
  | cons e es ih =>
    intro fuel st hwf hlen
    have he : e.wf := hwf e (by simp)
    cases fuel with
    | zero => simp [statBlob] at hlen
    | succ fuel =>
      simp only [statBlob] at hlen ⊢
      rw [parse_stat_loop_line v fuel _ _ st (e.text_no_newline he),
        parse_stat_line_entry v e he st]
      simp only [List.foldl_cons]
      apply ih
      · exact fun e' he' => hwf e' (by simp [he'])
      · simp only [List.length_append, List.length_cons] at hlen
        omega

theorem statBlob_cons_ne_nil (e : StatEntry) (es : List StatEntry) :
    statBlob (e :: es) ≠ [] := by
  simp [statBlob]

theorem statBlob_dropLast_cons (e e' : StatEntry) (es : List StatEntry) :
    (statBlob (e :: e' :: es)).dropLast = e.text ++ '\n' :: (statBlob (e' :: es)).dropLast := by
  have h : statBlob (e :: e' :: es) = (e.text ++ ['\n']) ++ statBlob (e' :: es) := by
    simp [statBlob]
  rw [h, List.dropLast_append_of_ne_nil _ (statBlob_cons_ne_nil e' es)]
  simp

theorem statBlob_dropLast_single (e : StatEntry) : (statBlob [e]).dropLast = e.text := by
  have h : statBlob [e] = e.text ++ ['\n'] := by simp [statBlob]
  rw [h, List.dropLast_concat]

/-- The last turn of the `while` loop on a line that has no newline. -/
theorem parse_stat_loop_last (v fuel : Nat) (cur : List Char) (st : memory_stat)
    (hne : cur ≠ []) (hcur : ∀ c ∈ cur, (c != '\n') = true) :
    parse_stat_loop v (fuel + 1) cur st = parse_stat_line v cur st := by
  have h1 : cur.isEmpty = false := by cases cur <;> simp at hne ⊢
  have h2 := takeWhile_all (fun c => c != '\n') cur hcur
  have h3 := dropWhile_all (fun c => c != '\n') cur hcur
  simp only [parse_stat_loop, h1, h2, h3, Bool.false_eq_true, if_false]

theorem StatEntry.text_ne_nil (e : StatEntry) : e.text ≠ [] := by
  simp [StatEntry.text]

theorem parse_stat_loop_open (v : Nat) : ∀ (es : List StatEntry) (fuel : Nat)
    (st : memory_stat), (∀ e ∈ es, e.wf) → (statBlob es).dropLast.length ≤ fuel →
    parse_stat_loop v fuel (statBlob es).dropLast st = es.foldl (stat_apply v) st := by
  intro es
  induction es with
  | nil =>
    intro fuel st _ _
    cases fuel <;> simp [parse_stat_loop, statBlob]
  | cons e es ih =>
    intro fuel st hwf hlen
    have he : e.wf := hwf e (by simp)
    cases es with
    | nil =>
      rw [statBlob_dropLast_single] at hlen ⊢
      cases fuel with
      | zero =>
        have := e.text_ne_nil
        simp only [Nat.le_zero, List.length_eq_zero] at hlen
        exact absurd hlen this
      | succ fuel =>
        rw [parse_stat_loop_last v fuel _ st e.text_ne_nil (e.text_no_newline he),
          parse_stat_line_entry v e he st]
        rfl
    | cons e' es =>
      rw [statBlob_dropLast_cons] at hlen ⊢
      cases fuel with
      | zero => simp at hlen
      | succ fuel =>
        rw [parse_stat_loop_line v fuel _ _ st (e.text_no_newline he),
          parse_stat_line_entry v e he st]
        simp only [List.foldl_cons]
        apply ih
        · exact fun x hx => hwf x (List.mem_cons_of_mem _ hx)
        · simp only [List.length_append, List.length_cons] at hlen
          omega

theorem cstr_statText (es : List StatEntry) (nl : Bool) (h : ∀ e ∈ es, e.wf) :
    cstr (statText es nl) = statText es nl := by
  apply takeWhile_all
  intro c hc
  unfold statText at hc
  split at hc
  · exact statBlob_no_nul es h c hc
  · exact statBlob_no_nul es h c (List.mem_of_mem_dropLast hc)

/-- The fuel of the parsing loop does not matter once it covers the length of the buffer:
the loop of `memcg_parse_memory_stat` always runs to its end. -/
theorem parse_stat_loop_fuel (v : Nat) : ∀ (f1 f2 : Nat) (line : List Char) (st : memory_stat),
    line.length ≤ f1 → line.length ≤ f2 →
    parse_stat_loop v f1 line st = parse_stat_loop v f2 line st := by
  intro f1
  induction f1 with
  | zero =>
    intro f2 line st h1 _
    have hl : line = [] := List.length_eq_zero.mp (Nat.le_zero.mp h1)
    subst hl
    cases f2 <;> simp [parse_stat_loop]
  | succ f1 ih =>
    intro f2 line st h1 h2
    cases f2 with
    | zero =>
      have hl : line = [] := List.length_eq_zero.mp (Nat.le_zero.mp h2)
      subst hl
      simp [parse_stat_loop]
    | succ f2 =>
      simp only [parse_stat_loop]
      split
      · rfl
      · have hlen := (List.dropWhile_sublist (l := line) (fun c => c != '\n')).length_le
        split
        · rfl
        · rename_i c next hnext
          rw [hnext] at hlen
          simp only [List.length_cons] at hlen
          exact ih f2 next _ (by omega) (by omega)

/-- On a well-formed blob the parser performs the effects of the lines in order. -/
theorem memcg_parse_memory_stat_blob (es : List StatEntry) (nl : Bool)
    (hwf : ∀ e ∈ es, e.wf) (old : memory_stat) (v : Nat) :
    memcg_parse_memory_stat (statText es nl) old v
      = (0, es.foldl (stat_apply v) memory_stat.zero) := by
  unfold memcg_parse_memory_stat
  rw [cstr_statText es nl hwf]
  unfold statText
  split
  · rw [parse_stat_loop_blob v es _ _ hwf (Nat.le_refl _)]
  · rw [parse_stat_loop_open v es _ _ hwf (Nat.le_refl _)]

theorem foldl_stat_apply_untouched (v : Nat) (f : StatField) : ∀ (es : List StatEntry)
    (st : memory_stat), (∀ e ∈ es, stat_lookup v e.key stat_mappings ≠ some f) →
    (es.foldl (stat_apply v) st).get f = st.get f := by
  intro es
  induction es with
  | nil => intro st _; rfl
  | cons e es ih =>
    intro st h
    simp only [List.foldl_cons]
    rw [ih _ (fun e' he' => h e' (by simp [he']))]
    have he := h e (by simp)
    unfold stat_apply
    cases hl : stat_lookup v e.key stat_mappings with
    | none => rfl
    | some g =>
      have : g ≠ f := by
        intro hgf; rw [hl, hgf] at he; exact he rfl
      exact memory_stat.get_set_other _ _ _ _ this

/-- The counter of a key that occurs once in the blob holds that line's integer. -/
theorem foldl_stat_apply_once (v : Nat) (f : StatField) (e : StatEntry)
    (hf : stat_lookup v e.key stat_mappings = some f) : ∀ (es : List StatEntry)
    (st : memory_stat), e ∈ es → (es.map StatEntry.key).count e.key ≤ 1 →
    (es.foldl (stat_apply v) st).get f = e.value := by
  intro es
  induction es with
  | nil => intro st h; simp at h
  | cons e' es ih =>
    intro st hmem hcount
    simp only [List.map_cons, List.count_cons] at hcount
    simp only [List.foldl_cons]
    by_cases hk : e'.key = e.key
    · have hc0 : (es.map StatEntry.key).count e.key = 0 := by
        simp only [hk, beq_self_eq_true, if_true] at hcount
        omega
      have hnot : ∀ x ∈ es, x.key ≠ e.key := by
        intro x hx hxk
        have : e.key ∈ es.map StatEntry.key := List.mem_map.mpr ⟨x, hx, hxk⟩
        have := List.count_pos_iff.mpr this
        omega
      have hee : e = e' := by
        rcases List.mem_cons.mp hmem with h | h
        · exact h
        · exact absurd rfl (hnot e h)
      rw [foldl_stat_apply_untouched v f es _ (fun x hx hx' =>
        hnot x hx (stat_lookup_inj v _ _ f hx' hf))]
      unfold stat_apply
      rw [← hee, hf]
      exact memory_stat.get_set_same _ _ _
    · have hmem' : e ∈ es := by
        rcases List.mem_cons.mp hmem with h | h
        · exact absurd (by rw [h]) hk
        · exact h
      apply ih _ hmem'
      have : (e'.key == e.key) = false := by simpa using hk
      simp only [this, Bool.false_eq_true, if_false] at hcount
      omega

theorem v1_named_fields_lookup : ∀ kf ∈ v1_named_fields,
    stat_lookup CGROUP_TYPE_LEGACY kf.1.toList stat_mappings = some kf.2 := by
  decide

theorem v2_named_fields_lookup : ∀ kf ∈ v2_named_fields,
    stat_lookup CGROUP_TYPE_UNIFIED kf.1.toList stat_mappings = some kf.2 := by
  decide

theorem stat_mappings_rss_huge_v1_only : ∀ m ∈ stat_mappings,
    m.field = StatField.total_rss_huge → m.key CGROUP_TYPE_UNIFIED = none := by
  decide

/-! ## The stat parser: round trips -/

/-- C1: for every blob of lines `<key> <decimal integer below 2^64>` (the last newline
present or not) in which no v1 key repeats, parsing as `CGROUP_TYPE_LEGACY` returns 0 and
each of the eleven v1 keys that occurs in the blob has its line's integer stored in the
field of the same name, whatever the structure held before. -/
theorem memcg_parse_memory_stat_v1_roundtrip (es : List StatEntry) (final_newline : Bool)
    (old : memory_stat) (hwf : ∀ e ∈ es, e.wf)
    (hrep : ∀ kf ∈ v1_named_fields, (es.map StatEntry.key).count kf.1.toList ≤ 1) :
    (memcg_parse_memory_stat (statText es final_newline) old CGROUP_TYPE_LEGACY).1 = 0 ∧
    ∀ kf ∈ v1_named_fields, ∀ e ∈ es, e.key = kf.1.toList →
      (memcg_parse_memory_stat (statText es final_newline) old CGROUP_TYPE_LEGACY).2.get kf.2
        = e.value := by
  rw [memcg_parse_memory_stat_blob es final_newline hwf]
  refine ⟨rfl, ?_⟩
  intro kf hkf e he hkey
  have hl := v1_named_fields_lookup kf hkf
  rw [← hkey] at hl
  apply foldl_stat_apply_once _ _ e hl es _ he
  rw [hkey]
  exact hrep kf hkf

/-- The theorem of C1 on the blob of the library's v1 test. -/
theorem memcg_parse_memory_stat_v1_roundtrip_witness :
    (∀ e ∈ test_stat_v1, e.wf) ∧
    (∀ kf ∈ v1_named_fields, (test_stat_v1.map StatEntry.key).count kf.1.toList ≤ 1) ∧
    (memcg_parse_memory_stat (statText test_stat_v1 true) memory_stat.zero
        CGROUP_TYPE_LEGACY).1 = 0 ∧
    ∀ kf ∈ v1_named_fields, ∀ e ∈ test_stat_v1, e.key = kf.1.toList →
      (memcg_parse_memory_stat (statText test_stat_v1 true) memory_stat.zero
        CGROUP_TYPE_LEGACY).2.get kf.2 = e.value :=
  ⟨by decide, by decide,
    memcg_parse_memory_stat_v1_roundtrip test_stat_v1 true memory_stat.zero
      (by decide) (by decide)⟩

/-- C2: for every blob of lines `<key> <decimal integer below 2^64>` (the last newline
present or not) in which no v2 key repeats, parsing as `CGROUP_TYPE_UNIFIED` returns 0,
each of the thirteen v2 keys that occurs in the blob has its line's integer stored in its
normalized field, and `total_rss_huge` is 0 after the call. -/
theorem memcg_parse_memory_stat_v2_roundtrip (es : List StatEntry) (final_newline : Bool)
    (old : memory_stat) (hwf : ∀ e ∈ es, e.wf)
    (hrep : ∀ kf ∈ v2_named_fields, (es.map StatEntry.key).count kf.1.toList ≤ 1) :
    (memcg_parse_memory_stat (statText es final_newline) old CGROUP_TYPE_UNIFIED).1 = 0 ∧
    (∀ kf ∈ v2_named_fields, ∀ e ∈ es, e.key = kf.1.toList →
      (memcg_parse_memory_stat (statText es final_newline) old CGROUP_TYPE_UNIFIED).2.get kf.2
        = e.value) ∧
    (memcg_parse_memory_stat (statText es final_newline) old
      CGROUP_TYPE_UNIFIED).2.total_rss_huge = 0 := by
  rw [memcg_parse_memory_stat_blob es final_newline hwf]
  refine ⟨rfl, ?_, ?_⟩
  · intro kf hkf e he hkey
    have hl := v2_named_fields_lookup kf hkf
    rw [← hkey] at hl
    apply foldl_stat_apply_once _ _ e hl es _ he
    rw [hkey]
    exact hrep kf hkf
  · have h := foldl_stat_apply_untouched CGROUP_TYPE_UNIFIED StatField.total_rss_huge es
      memory_stat.zero (by
        intro e _ hl
        obtain ⟨m, hm, hk, hf⟩ := stat_lookup_some _ _ _ _ hl
        have := stat_mappings_rss_huge_v1_only m hm hf
        rw [this] at hk
        exact Option.noConfusion hk)
    exact h

/-- The theorem of C2 on the blob of the library's v2 test. -/
theorem memcg_parse_memory_stat_v2_roundtrip_witness :
    (∀ e ∈ test_stat_v2, e.wf) ∧
    (∀ kf ∈ v2_named_fields, (test_stat_v2.map StatEntry.key).count kf.1.toList ≤ 1) ∧
    (memcg_parse_memory_stat (statText test_stat_v2 true) memory_stat.zero
        CGROUP_TYPE_UNIFIED).1 = 0 ∧
    (∀ kf ∈ v2_named_fields, ∀ e ∈ test_stat_v2, e.key = kf.1.toList →
      (memcg_parse_memory_stat (statText test_stat_v2 true) memory_stat.zero
        CGROUP_TYPE_UNIFIED).2.get kf.2 = e.value) ∧
    (memcg_parse_memory_stat (statText test_stat_v2 true) memory_stat.zero
      CGROUP_TYPE_UNIFIED).2.total_rss_huge = 0 :=
  ⟨by decide, by decide,
    memcg_parse_memory_stat_v2_roundtrip test_stat_v2 true memory_stat.zero
      (by decide) (by decide)⟩

/-! ## The metric reader -/

/-- When the path fits and the file can be read, `memcg_read_metric` stores the result. -/
theorem memcg_read_metric_ok (fs : FileSystem) (info : memcg_meminfo)
    (metric_type : memcg_metric_type) (path content : List Char)
    (hpath : memcg_build_file_path info metric_type PATH_MAX = some path)
    (hfile : fs path = .ok content) :
    memcg_read_metric fs info metric_type
      = (0, memcg_store_metric info metric_type (content.take (CGMEMINFO_LEN - 1))
          (if metric_type ≠ .MEMCG_MEMORY_STAT
            then metric_result (content.take (CGMEMINFO_LEN - 1)) else 0)) := by
  unfold memcg_read_metric read_from_file
  rw [hpath]
  simp only [hfile]
  rfl

theorem isLegacy_legacy : isLegacy CGROUP_TYPE_LEGACY = true := by decide

theorem isLegacy_unified : isLegacy CGROUP_TYPE_UNIFIED = false := by decide

/-- C6: when `memcg_read_metric` handles `MEMCG_SWAP_LIMIT` and the file is read with raw
value `r`, a legacy cgroup with stored memory limit `m` gets `swap_limit = r - m` if
`r >= m` and 0 otherwise, a unified cgroup gets `swap_limit = r`; the call returns 0 and
nothing else in the structure changes. -/
theorem memcg_read_metric_swap_limit (fs : FileSystem) (info : memcg_meminfo)
    (path content : List Char)
    (hpath : memcg_build_file_path info .MEMCG_SWAP_LIMIT PATH_MAX = some path)
    (hfile : fs path = .ok content) :
    (info.version = CGROUP_TYPE_LEGACY →
      memcg_read_metric fs info .MEMCG_SWAP_LIMIT
        = (0, { info with cgmem_data := { info.cgmem_data with
            swap_limit :=
              if metric_result (content.take (CGMEMINFO_LEN - 1)) ≥ info.cgmem_data.memory_limit
              then metric_result (content.take (CGMEMINFO_LEN - 1))
                - info.cgmem_data.memory_limit
              else 0 } })) ∧
    (info.version = CGROUP_TYPE_UNIFIED →
      memcg_read_metric fs info .MEMCG_SWAP_LIMIT
        = (0, { info with cgmem_data := { info.cgmem_data with
            swap_limit := metric_result (content.take (CGMEMINFO_LEN - 1)) } })) := by
  rw [memcg_read_metric_ok fs info _ path content hpath hfile]
  constructor
  · intro hv
    simp only [memcg_store_metric, hv, isLegacy_legacy, if_true, ne_eq, reduceCtorEq,
      not_false_eq_true]
    by_cases h : metric_result (content.take (CGMEMINFO_LEN - 1)) ≥ info.cgmem_data.memory_limit
    · rw [if_pos h, if_neg (by omega)]
    · rw [if_neg h, if_pos (by omega)]
  · intro hv
    simp only [memcg_store_metric, hv, isLegacy_unified, ne_eq, reduceCtorEq,
      not_false_eq_true, if_true, Bool.false_eq_true, if_false]

/-- The theorem of C6 on the legacy cgroup `/a` with memory limit 1000 and raw value 1100. -/
theorem memcg_read_metric_swap_limit_witness :
    memcg_build_file_path (legacy_info 1000 100 0 0) .MEMCG_SWAP_LIMIT PATH_MAX
      = some "/sys/fs/cgroup/memory/a/memory.memsw.limit_in_bytes".toList ∧
    fs_of legacy_files "/sys/fs/cgroup/memory/a/memory.memsw.limit_in_bytes".toList
      = .ok "1100\n".toList ∧
    (memcg_read_metric (fs_of legacy_files) (legacy_info 1000 100 0 0)
      .MEMCG_SWAP_LIMIT).2.cgmem_data.swap_limit = 100 := by
  have h := (memcg_read_metric_swap_limit (fs_of legacy_files) (legacy_info 1000 100 0 0)
    "/sys/fs/cgroup/memory/a/memory.memsw.limit_in_bytes".toList "1100\n".toList
    (by decide) rfl).1 (by decide)
  refine ⟨by decide, rfl, ?_⟩
  rw [h]
  decide

/-- C7: when `memcg_read_metric` handles `MEMCG_SWAP_CURRENT` and the file is read with raw
value `r`, a legacy cgroup with stored memory usage `c` and stored (corrected) swap limit
`s` gets `swap_current = r - c` if `r >= c` and `s != 0`, and 0 otherwise; a unified cgroup
gets `swap_current = r`; the call returns 0 and nothing else in the structure changes. -/
theorem memcg_read_metric_swap_current (fs : FileSystem) (info : memcg_meminfo)
    (path content : List Char)
    (hpath : memcg_build_file_path info .MEMCG_SWAP_CURRENT PATH_MAX = some path)
    (hfile : fs path = .ok content) :
    (info.version = CGROUP_TYPE_LEGACY →
      memcg_read_metric fs info .MEMCG_SWAP_CURRENT
        = (0, { info with cgmem_data := { info.cgmem_data with
            swap_current :=
              if metric_result (content.take (CGMEMINFO_LEN - 1))
                  ≥ info.cgmem_data.memory_current ∧ info.cgmem_data.swap_limit ≠ 0
              then metric_result (content.take (CGMEMINFO_LEN - 1))
                - info.cgmem_data.memory_current
              else 0 } })) ∧
    (info.version = CGROUP_TYPE_UNIFIED →
      memcg_read_metric fs info .MEMCG_SWAP_CURRENT
        = (0, { info with cgmem_data := { info.cgmem_data with
            swap_current := metric_result (content.take (CGMEMINFO_LEN - 1)) } })) := by
  rw [memcg_read_metric_ok fs info _ path content hpath hfile]
  constructor
  · intro hv
    simp only [memcg_store_metric, hv, isLegacy_legacy, if_true, ne_eq, reduceCtorEq,
      not_false_eq_true, Bool.or_eq_true, decide_eq_true_eq, beq_iff_eq]
    by_cases h : metric_result (content.take (CGMEMINFO_LEN - 1))
        ≥ info.cgmem_data.memory_current ∧ ¬ info.cgmem_data.swap_limit = 0
    · rw [if_pos h, if_neg (by omega)]
    · rw [if_neg h, if_pos (by omega)]
  · intro hv
    simp only [memcg_store_metric, hv, isLegacy_unified, ne_eq, reduceCtorEq,
      not_false_eq_true, if_true, Bool.false_eq_true, if_false]

/-- The theorem of C7 on the legacy cgroup `/a` with memory usage 100, swap limit 100 and raw
value 600. -/
theorem memcg_read_metric_swap_current_witness :
    memcg_build_file_path (legacy_info 1000 100 100 0) .MEMCG_SWAP_CURRENT PATH_MAX
      = some "/sys/fs/cgroup/memory/a/memory.memsw.usage_in_bytes".toList ∧
    fs_of legacy_files "/sys/fs/cgroup/memory/a/memory.memsw.usage_in_bytes".toList
      = .ok "600\n".toList ∧
    (memcg_read_metric (fs_of legacy_files) (legacy_info 1000 100 100 0)
      .MEMCG_SWAP_CURRENT).2.cgmem_data.swap_current = 500 := by
  have h := (memcg_read_metric_swap_current (fs_of legacy_files) (legacy_info 1000 100 100 0)
    "/sys/fs/cgroup/memory/a/memory.memsw.usage_in_bytes".toList "600\n".toList
    (by decide) rfl).1 (by decide)
  refine ⟨by decide, rfl, ?_⟩
  rw [h]
  decide

theorem memcg_store_metric_version (info : memcg_meminfo) (m : memcg_metric_type)
    (buf : List Char) (r : Nat) : (memcg_store_metric info m buf r).version = info.version := by
  cases m <;> rfl

theorem memcg_build_file_path_store (info : memcg_meminfo) (m m' : memcg_metric_type)
    (buf : List Char) (r n : Nat) :
    memcg_build_file_path (memcg_store_metric info m buf r) m' n
      = memcg_build_file_path info m' n := by
  cases m <;> rfl

/-- Counterexample to C8: in the legacy cgroup with memory limit 1000, memory usage 100,
memory+swap limit 1100 and memory+swap usage 600, the four reads succeed and store
`swap_limit = 100` and `swap_current = 500`: the usage exceeds the limit, which is not the
sentinel. -/
theorem memcg_read_four_not_bounded :
    (memcg_read_all (fs_of (legacy_files ++
        [("/sys/fs/cgroup/memory/a/memory.stat", "total_cache 0\n")]))
      (legacy_info 0 0 0 0)).1 = 0 ∧
    (memcg_read_four (fs_of legacy_files) (legacy_info 0 0 0 0)).cgmem_data.swap_limit = 100 ∧
    (memcg_read_four (fs_of legacy_files) (legacy_info 0 0 0 0)).cgmem_data.swap_current = 500 ∧
    ¬ ((memcg_read_four (fs_of legacy_files) (legacy_info 0 0 0 0)).cgmem_data.swap_current
        ≤ (memcg_read_four (fs_of legacy_files) (legacy_info 0 0 0 0)).cgmem_data.swap_limit ∨
      (memcg_read_four (fs_of legacy_files) (legacy_info 0 0 0 0)).cgmem_data.swap_limit
        = ULONG_MAX) := by
  decide

/-- C8 (amended): after the four numeric metrics have been read in the order memory limit,
memory current, swap limit, swap current (raw values `r1`, `r2`, `r3`, `r4`), a legacy
cgroup has `swap_current = 0` whenever `swap_limit = 0` and has `swap_current <= swap_limit`
whenever `r4 - r2 <= r3 - r1` (subtractions stopping at 0); a unified cgroup holds the raw
values, so `swap_current <= swap_limit` exactly when `r4 <= r3`. -/
theorem memcg_read_four_swap_bound (fs : FileSystem) (info : memcg_meminfo)
    (p1 p2 p3 p4 c1 c2 c3 c4 : List Char)
    (hp1 : memcg_build_file_path info .MEMCG_MEMORY_LIMIT PATH_MAX = some p1)
    (hp2 : memcg_build_file_path info .MEMCG_MEMORY_CURRENT PATH_MAX = some p2)
    (hp3 : memcg_build_file_path info .MEMCG_SWAP_LIMIT PATH_MAX = some p3)
    (hp4 : memcg_build_file_path info .MEMCG_SWAP_CURRENT PATH_MAX = some p4)
    (hf1 : fs p1 = .ok c1) (hf2 : fs p2 = .ok c2) (hf3 : fs p3 = .ok c3)
    (hf4 : fs p4 = .ok c4) :
    (info.version = CGROUP_TYPE_LEGACY →
      ((memcg_read_four fs info).cgmem_data.swap_limit = 0 →
        (memcg_read_four fs info).cgmem_data.swap_current = 0) ∧
      (metric_result (c4.take (CGMEMINFO_LEN - 1)) - metric_result (c2.take (CGMEMINFO_LEN - 1))
          ≤ metric_result (c3.take (CGMEMINFO_LEN - 1))
            - metric_result (c1.take (CGMEMINFO_LEN - 1)) →
        (memcg_read_four fs info).cgmem_data.swap_current
          ≤ (memcg_read_four fs info).cgmem_data.swap_limit)) ∧
    (info.version = CGROUP_TYPE_UNIFIED →
      (memcg_read_four fs info).cgmem_data.swap_limit
        = metric_result (c3.take (CGMEMINFO_LEN - 1)) ∧
      (memcg_read_four fs info).cgmem_data.swap_current
        = metric_result (c4.take (CGMEMINFO_LEN - 1)) ∧
      ((memcg_read_four fs info).cgmem_data.swap_current
          ≤ (memcg_read_four fs info).cgmem_data.swap_limit ↔
        metric_result (c4.take (CGMEMINFO_LEN - 1))
          ≤ metric_result (c3.take (CGMEMINFO_LEN - 1)))) := by
  have e : memcg_read_four fs info
      = memcg_store_metric (memcg_store_metric (memcg_store_metric (memcg_store_metric info
          .MEMCG_MEMORY_LIMIT (c1.take (CGMEMINFO_LEN - 1))
            (metric_result (c1.take (CGMEMINFO_LEN - 1))))
          .MEMCG_MEMORY_CURRENT (c2.take (CGMEMINFO_LEN - 1))
            (metric_result (c2.take (CGMEMINFO_LEN - 1))))
          .MEMCG_SWAP_LIMIT (c3.take (CGMEMINFO_LEN - 1))
            (metric_result (c3.take (CGMEMINFO_LEN - 1))))
          .MEMCG_SWAP_CURRENT (c4.take (CGMEMINFO_LEN - 1))
            (metric_result (c4.take (CGMEMINFO_LEN - 1))) := by
    have e1 := memcg_read_metric_ok fs info .MEMCG_MEMORY_LIMIT p1 c1 hp1 hf1
    have e2 := memcg_read_metric_ok fs (memcg_store_metric info .MEMCG_MEMORY_LIMIT
      (c1.take (CGMEMINFO_LEN - 1)) (metric_result (c1.take (CGMEMINFO_LEN - 1))))
      .MEMCG_MEMORY_CURRENT p2 c2 (by rw [memcg_build_file_path_store]; exact hp2) hf2
    have e3 := memcg_read_metric_ok fs (memcg_store_metric (memcg_store_metric info
      .MEMCG_MEMORY_LIMIT (c1.take (CGMEMINFO_LEN - 1))
        (metric_result (c1.take (CGMEMINFO_LEN - 1))))
      .MEMCG_MEMORY_CURRENT (c2.take (CGMEMINFO_LEN - 1))
        (metric_result (c2.take (CGMEMINFO_LEN - 1))))
      .MEMCG_SWAP_LIMIT p3 c3
      (by rw [memcg_build_file_path_store, memcg_build_file_path_store]; exact hp3) hf3
    have e4 := memcg_read_metric_ok fs (memcg_store_metric (memcg_store_metric
      (memcg_store_metric info
      .MEMCG_MEMORY_LIMIT (c1.take (CGMEMINFO_LEN - 1))
        (metric_result (c1.take (CGMEMINFO_LEN - 1))))
      .MEMCG_MEMORY_CURRENT (c2.take (CGMEMINFO_LEN - 1))
        (metric_result (c2.take (CGMEMINFO_LEN - 1))))
      .MEMCG_SWAP_LIMIT (c3.take (CGMEMINFO_LEN - 1))
        (metric_result (c3.take (CGMEMINFO_LEN - 1))))
      .MEMCG_SWAP_CURRENT p4 c4
      (by rw [memcg_build_file_path_store, memcg_build_file_path_store,
        memcg_build_file_path_store]; exact hp4) hf4
    simp only [ne_eq, reduceCtorEq, not_false_eq_true, if_true] at e1 e2 e3 e4
    unfold memcg_read_four
    simp only [e1, e2, e3, e4]
  rw [e]
  generalize metric_result (c1.take (CGMEMINFO_LEN - 1)) = r1
  generalize metric_result (c2.take (CGMEMINFO_LEN - 1)) = r2
  generalize metric_result (c3.take (CGMEMINFO_LEN - 1)) = r3
  generalize metric_result (c4.take (CGMEMINFO_LEN - 1)) = r4
  constructor
  · intro hv
    simp only [memcg_store_metric, hv, isLegacy_legacy, if_true, Bool.or_eq_true,
      decide_eq_true_eq, beq_iff_eq]
    constructor
    · intro h0
      rw [if_pos (Or.inr h0)]
    · intro hle
      split <;> split <;> omega
  · intro hv
    simp [memcg_store_metric, hv, isLegacy_unified]

/-- The theorem of C8 on the legacy files (swap limit 100, swap usage 500) and on the
unified files (swap limit 8192, swap usage 1024). -/
theorem memcg_read_four_swap_bound_witness :
    ((memcg_read_four (fs_of legacy_files) (legacy_info 0 0 0 0)).cgmem_data.swap_limit = 0 →
      (memcg_read_four (fs_of legacy_files) (legacy_info 0 0 0 0)).cgmem_data.swap_current
        = 0) ∧
    (memcg_read_four (fs_of unified_files) (unified_info 0 0 0 0)).cgmem_data.swap_current
      ≤ (memcg_read_four (fs_of unified_files) (unified_info 0 0 0 0)).cgmem_data.swap_limit := by
  have h1 := (memcg_read_four_swap_bound (fs_of legacy_files) (legacy_info 0 0 0 0)
    "/sys/fs/cgroup/memory/a/memory.limit_in_bytes".toList
    "/sys/fs/cgroup/memory/a/memory.usage_in_bytes".toList
    "/sys/fs/cgroup/memory/a/memory.memsw.limit_in_bytes".toList
    "/sys/fs/cgroup/memory/a/memory.memsw.usage_in_bytes".toList
    "1000\n".toList "100\n".toList "1100\n".toList "600\n".toList
    (by decide) (by decide) (by decide) (by decide) rfl rfl rfl rfl).1 (by decide)
  have h2 := (memcg_read_four_swap_bound (fs_of unified_files) (unified_info 0 0 0 0)
    "/sys/fs/cgroup/a/memory.max".toList
    "/sys/fs/cgroup/a/memory.current".toList
    "/sys/fs/cgroup/a/memory.swap.max".toList
    "/sys/fs/cgroup/a/memory.swap.current".toList
    "max\n".toList "4096\n".toList "8192\n".toList "1024\n".toList
    (by decide) (by decide) (by decide) (by decide) rfl rfl rfl rfl).2 (by decide)
  exact ⟨h1.1, h2.2.2.mpr (by decide)⟩

/-- Counterexample to C9: a legacy cgroup with stored memory usage 700 and stored swap
limit 0 reads the raw combined usage 1000 and stores `swap_current = 0`, not 300. -/
theorem memcg_swap_current_zero_limit :
    (legacy_info 1000 700 0 0).version = CGROUP_TYPE_LEGACY ∧
    (legacy_info 1000 700 0 0).cgmem_data.memory_current = 700 ∧
    metric_result "1000\n".toList = 1000 ∧
    memcg_read_metric
        (fs_of [("/sys/fs/cgroup/memory/a/memory.memsw.usage_in_bytes", "1000\n")])
        (legacy_info 1000 700 0 0) .MEMCG_SWAP_CURRENT
      = (0, legacy_info 1000 700 0 0) ∧
    (memcg_read_metric
        (fs_of [("/sys/fs/cgroup/memory/a/memory.memsw.usage_in_bytes", "1000\n")])
        (legacy_info 1000 700 0 0) .MEMCG_SWAP_CURRENT).2.cgmem_data.swap_current ≠ 300 := by
  decide

/-- C9 (amended): for a legacy cgroup with stored memory usage 700, a raw combined usage of
1000 yields `swap_current = 300` when the stored swap limit is nonzero and 0 when it is 0,
and a raw combined usage of 500 yields `swap_current = 0` whatever the other fields are. -/
theorem memcg_swap_current_700 (fs : FileSystem) (info : memcg_meminfo)
    (path content : List Char)
    (hv : info.version = CGROUP_TYPE_LEGACY)
    (hc : info.cgmem_data.memory_current = 700)
    (hpath : memcg_build_file_path info .MEMCG_SWAP_CURRENT PATH_MAX = some path)
    (hfile : fs path = .ok content) :
    (metric_result (content.take (CGMEMINFO_LEN - 1)) = 1000 →
      info.cgmem_data.swap_limit ≠ 0 →
      (memcg_read_metric fs info .MEMCG_SWAP_CURRENT).1 = 0 ∧
      (memcg_read_metric fs info .MEMCG_SWAP_CURRENT).2.cgmem_data.swap_current = 300) ∧
    (metric_result (content.take (CGMEMINFO_LEN - 1)) = 1000 →
      info.cgmem_data.swap_limit = 0 →
      (memcg_read_metric fs info .MEMCG_SWAP_CURRENT).1 = 0 ∧
      (memcg_read_metric fs info .MEMCG_SWAP_CURRENT).2.cgmem_data.swap_current = 0) ∧
    (metric_result (content.take (CGMEMINFO_LEN - 1)) = 500 →
      (memcg_read_metric fs info .MEMCG_SWAP_CURRENT).1 = 0 ∧
      (memcg_read_metric fs info .MEMCG_SWAP_CURRENT).2.cgmem_data.swap_current = 0) := by
  rw [memcg_read_metric_ok fs info _ path content hpath hfile]
  simp only [memcg_store_metric, hv, hc, isLegacy_legacy, if_true, ne_eq, reduceCtorEq,
    not_false_eq_true, Bool.or_eq_true, decide_eq_true_eq, beq_iff_eq]
  refine ⟨?_, ?_, ?_⟩
  · intro hr hs
    rw [hr]
    simp [hs]
  · intro hr hs
    rw [hr]
    simp [hs]
  · intro hr
    rw [hr]
    simp

/-- The theorem of C9 on the legacy cgroup `/a` with memory usage 700 and swap limit 4096. -/
theorem memcg_swap_current_700_witness :
    (memcg_read_metric
        (fs_of [("/sys/fs/cgroup/memory/a/memory.memsw.usage_in_bytes", "1000\n")])
        (legacy_info 8192 700 4096 0) .MEMCG_SWAP_CURRENT).2.cgmem_data.swap_current = 300 :=
  ((memcg_swap_current_700
    (fs_of [("/sys/fs/cgroup/memory/a/memory.memsw.usage_in_bytes", "1000\n")])
    (legacy_info 8192 700 4096 0)
    "/sys/fs/cgroup/memory/a/memory.memsw.usage_in_bytes".toList "1000\n".toList
    (by decide) (by decide) (by decide) rfl).1 (by decide) (by decide)).2

/-- The conversion `%lu` reads back a printed `unsigned long`, alone or before a newline. -/
theorem scan_lu_toDigits (n : Nat) (hn : n < 2 ^ 64) (rest : List Char)
    (hrest : rest = [] ∨ rest = ['\n']) :
    scan_lu (Nat.toDigits 10 n ++ rest) = some (n, rest) := by
  have hall := toDigits_all_digit n
  have hne := toDigits_ne_nil n
  have hval := digitsVal_toDigits n
  generalize Nat.toDigits 10 n = ds at hall hne hval
  have htake : List.takeWhile isdigit (ds ++ rest) = ds := by
    rcases hrest with rfl | rfl
    · rw [List.append_nil]; exact takeWhile_all _ _ hall
    · exact takeWhile_append_stop _ _ _ _ hall (by decide)
  have hdrop : List.dropWhile isdigit (ds ++ rest) = rest := by
    rcases hrest with rfl | rfl
    · rw [List.append_nil]; exact dropWhile_all _ _ hall
    · exact dropWhile_append_stop _ _ _ _ hall (by decide)
  cases ds with
  | nil => exact absurd rfl hne
  | cons d ds =>
    have hd : isdigit d = true := hall d (by simp)
    have hsp : isspace d = false := isdigit_not_isspace d hd
    obtain ⟨hm, hp, _⟩ := isdigit_not_sign d hd
    have h1 : List.dropWhile isspace ((d :: ds) ++ rest) = (d :: ds) ++ rest := by
      simp [List.dropWhile_cons, hsp]
    have hm' : (some d == some '-') = false := by simp [hm]
    have hp' : (some d == some '+') = false := by simp [hp]
    have hhead : ((d :: ds) ++ rest).head? = some d := rfl
    unfold scan_lu
    simp only [h1, hhead, hm', hp', Bool.or_false, Bool.false_eq_true, if_false]
    rw [htake, hdrop, hval]
    have h2 : ¬ (ULONG_MAX < n) := by unfold ULONG_MAX; omega
    simp [h2]

theorem toDigits_length_le (n : Nat) (hn : n < 2 ^ 64) : (Nat.toDigits 10 n).length ≤ 20 :=
  Nat.toDigitsCore_length 10 (by decide) (n + 1) n 20 (by omega) (by decide)

/-- A printed `unsigned long`, alone or before a newline, is read back as the result. -/
theorem metric_result_toDigits (n : Nat) (hn : n < 2 ^ 64) (rest : List Char)
    (hrest : rest = [] ∨ rest = ['\n']) :
    metric_result ((Nat.toDigits 10 n ++ rest).take (CGMEMINFO_LEN - 1)) = n := by
  have hlen : (Nat.toDigits 10 n ++ rest).length ≤ CGMEMINFO_LEN - 1 := by
    have := toDigits_length_le n hn
    rcases hrest with rfl | rfl <;> simp [CGMEMINFO_LEN] <;> omega
  have hnul : ∀ c ∈ Nat.toDigits 10 n ++ rest, (c != NUL) = true := by
    intro c hc
    rcases List.mem_append.mp hc with hc | hc
    · simpa using (isdigit_not_sign c (toDigits_all_digit _ c hc)).2.2
    · rcases hrest with rfl | rfl
      · simp at hc
      · simp only [List.mem_singleton] at hc
        rw [hc]; decide
  unfold metric_result
  rw [List.take_of_length_le hlen]
  unfold cstr
  rw [takeWhile_all _ _ hnul, scan_lu_toDigits n hn rest hrest]

/-- Whatever `%lu` converts begins with an integer. -/
theorem scan_lu_some_begins (s : List Char) (r : Nat × List Char) (h : scan_lu s = some r) :
    begins_with_integer s := by
  unfold scan_lu at h
  simp only [] at h
  have hs : s = s.takeWhile isspace ++ s.dropWhile isspace :=
    (List.takeWhile_append_dropWhile isspace s).symm
  have hws : ∀ c ∈ s.takeWhile isspace, isspace c = true :=
    fun c hc => List.mem_takeWhile_imp hc
  generalize s.dropWhile isspace = s1 at h hs
  have hsign : ∃ sign s2, s1 = sign ++ s2 ∧ (sign = [] ∨ sign = ['+'] ∨ sign = ['-']) ∧
      (if (s1.head? == some '-' || s1.head? == some '+') = true then s1.tail else s1) = s2 := by
    by_cases hm : s1.head? = some '-'
    · cases s1 with
      | nil => simp at hm
      | cons c t =>
        simp only [List.head?_cons, Option.some.injEq] at hm
        exact ⟨['-'], t, by simp [hm], by simp, by simp [hm]⟩
    · by_cases hp : s1.head? = some '+'
      · cases s1 with
        | nil => simp at hp
        | cons c t =>
          simp only [List.head?_cons, Option.some.injEq] at hp
          exact ⟨['+'], t, by simp [hp], by simp, by simp [hp]⟩
      · exact ⟨[], s1, by simp, by simp, by simp [hm, hp]⟩
  obtain ⟨sign, s2, hs1, hsg, hs2⟩ := hsign
  rw [hs2] at h
  by_cases hds : (s2.takeWhile isdigit).isEmpty = true
  · rw [if_pos hds] at h
    exact Option.noConfusion h
  · refine ⟨s.takeWhile isspace, sign, s2.takeWhile isdigit, s2.dropWhile isdigit,
      ?_, hws, hsg, ?_, fun c hc => List.mem_takeWhile_imp hc⟩
    · rw [List.append_assoc, List.append_assoc, List.takeWhile_append_dropWhile, ← hs1]
      exact hs
    · intro hnil
      rw [hnil] at hds
      exact hds rfl

theorem begins_with_integer_append (s t : List Char) (h : begins_with_integer s) :
    begins_with_integer (s ++ t) := by
  obtain ⟨ws, sign, ds, rest, hs, h1, h2, h3, h4⟩ := h
  exact ⟨ws, sign, ds, rest ++ t, by rw [hs]; simp, h1, h2, h3, h4⟩

/-- A file that does not begin with an integer gives the result `ULLONG_MAX`. -/
theorem metric_result_not_integer (content : List Char) (n : Nat)
    (h : ¬ begins_with_integer content) : metric_result (content.take n) = ULONG_MAX := by
  unfold metric_result
  cases hs : scan_lu (cstr (content.take n)) with
  | none => rfl
  | some r =>
    exfalso
    apply h
    have hb := scan_lu_some_begins _ r hs
    have hpre : cstr (content.take n) <+: content :=
      (List.takeWhile_prefix _).trans (List.take_prefix _ _)
    obtain ⟨t, ht⟩ := hpre
    rw [← ht]
    exact begins_with_integer_append _ t hb

/-- C10: when `memcg_read_metric` reads the memory-limit or the memory-current file, it
returns 0 and stores (a) exactly the integer when the content is a decimal integer below
`2^64`, alone or followed by a newline, and (b) `2^64 - 1` when the content does not begin
with an integer (optional white space, optional sign, digits), as for the literal `max`. -/
theorem memcg_read_metric_memory_value (fs : FileSystem) (info : memcg_meminfo)
    (metric_type : memcg_metric_type) (path content : List Char)
    (hm : metric_type = .MEMCG_MEMORY_LIMIT ∨ metric_type = .MEMCG_MEMORY_CURRENT)
    (hpath : memcg_build_file_path info metric_type PATH_MAX = some path)
    (hfile : fs path = .ok content) :
    (memcg_read_metric fs info metric_type).1 = 0 ∧
    (∀ n, n < 2 ^ 64 → (content = Nat.toDigits 10 n ∨ content = Nat.toDigits 10 n ++ ['\n']) →
      (memcg_read_metric fs info metric_type).2.cgmem_data.metric metric_type = n) ∧
    (¬ begins_with_integer content →
      (memcg_read_metric fs info metric_type).2.cgmem_data.metric metric_type = 2 ^ 64 - 1) ∧
    ((content = "max".toList ∨ content = "max\n".toList) →
      (memcg_read_metric fs info metric_type).2.cgmem_data.metric metric_type = 2 ^ 64 - 1) := by
  rw [memcg_read_metric_ok fs info _ path content hpath hfile]
  have hstore : (memcg_store_metric info metric_type (content.take (CGMEMINFO_LEN - 1))
      (if metric_type ≠ .MEMCG_MEMORY_STAT
        then metric_result (content.take (CGMEMINFO_LEN - 1)) else 0)).cgmem_data.metric
        metric_type = metric_result (content.take (CGMEMINFO_LEN - 1)) := by
    rcases hm with rfl | rfl <;> rfl
  rw [hstore]
  refine ⟨rfl, ?_, ?_, ?_⟩
  · intro n hn hc
    rcases hc with rfl | rfl
    · have := metric_result_toDigits n hn [] (Or.inl rfl)
      rwa [List.append_nil] at this
    · exact metric_result_toDigits n hn ['\n'] (Or.inr rfl)
  · intro hb
    exact metric_result_not_integer content _ hb
  · intro hc
    rcases hc with rfl | rfl <;> decide

/-- The theorem of C10 on the unified cgroup `/a`: `memory.max` holding `max` gives
`2^64 - 1`, `memory.current` holding `4096` gives 4096. -/
theorem memcg_read_metric_memory_value_witness :
    (memcg_read_metric (fs_of unified_files) (unified_info 0 0 0 0)
      .MEMCG_MEMORY_LIMIT).2.cgmem_data.memory_limit = 2 ^ 64 - 1 ∧
    (memcg_read_metric (fs_of unified_files) (unified_info 0 0 0 0)
      .MEMCG_MEMORY_CURRENT).2.cgmem_data.memory_current = 4096 :=
  ⟨(memcg_read_metric_memory_value (fs_of unified_files) (unified_info 0 0 0 0)
      .MEMCG_MEMORY_LIMIT "/sys/fs/cgroup/a/memory.max".toList "max\n".toList
      (Or.inl rfl) (by decide) rfl).2.2.2 (Or.inr rfl),
   (memcg_read_metric_memory_value (fs_of unified_files) (unified_info 0 0 0 0)
      .MEMCG_MEMORY_CURRENT "/sys/fs/cgroup/a/memory.current".toList "4096\n".toList
      (Or.inr rfl) (by decide) rfl).2.1 4096 (by decide) (Or.inr (by decide))⟩

/-! ## The meminfo rewriter -/

theorem rewrite_lines_length (data : memcg_data) : ∀ (lines : List (List Char))
    (vars : rewrite_vars), (rewrite_lines data vars lines).length = lines.length := by
  intro lines
  induction lines with
  | nil => intro vars; rfl
  | cons l ls ih => intro vars; simp [rewrite_lines, ih]

/-- The rewritten line at a position is the `printme` of the host line at that position,
computed with the locals left by the lines before it. -/
theorem rewrite_lines_getElem? (data : memcg_data) : ∀ (lines : List (List Char))
    (vars : rewrite_vars) (i : Nat) (line : List Char), lines[i]? = some line →
    (rewrite_lines data vars lines)[i]?
      = some (rewrite_line data (rewrite_vars_after data vars (lines.take i)) line).2 := by
  intro lines
  induction lines with
  | nil => intro vars i line h; simp at h
  | cons l ls ih =>
    intro vars i line h
    cases i with
    | zero =>
      simp only [List.getElem?_cons_zero, Option.some.injEq] at h
      simp [rewrite_lines, rewrite_vars_after, h]
    | succ i =>
      simp only [List.getElem?_cons_succ] at h
      simp only [rewrite_lines, List.getElem?_cons_succ, List.take_succ_cons]
      rw [ih _ i line h]
      rfl

/-- When the loop succeeds the buffer holds the rewritten lines one after the other. -/
theorem read_buf_loop_ok (data : memcg_data) (len : Nat) : ∀ (lines : List (List Char))
    (vars : rewrite_vars) (out res : List Char),
    read_buf_loop data len lines vars out = (0, res) →
    res = out ++ (rewrite_lines data vars lines).flatten := by
  intro lines
  induction lines with
  | nil =>
    intro vars out res h
    simp only [read_buf_loop, Prod.mk.injEq, true_and] at h
    simp [rewrite_lines, h]
  | cons l ls ih =>
    intro vars out res h
    simp only [read_buf_loop] at h
    split at h
    · simp [EOVERFLOW] at h
    · have := ih _ _ _ h
      rw [this]
      simp [rewrite_lines]

/-- When `cgroup_meminfo_read_buf` returns 0 on the host report `meminfo`, the buffer
holds the rewritten lines of the report one after the other. -/
theorem cgroup_meminfo_read_buf_ok (fs : FileSystem) (cg : Nat × memcg_meminfo)
    (buf : Option (List Char)) (len : Int) (meminfo out : List Char)
    (hfile : fs "/proc/meminfo".toList = .ok meminfo)
    (h : cgroup_meminfo_read_buf fs cg buf len = (0, some out)) :
    out = (meminfo_rewritten cg.2.cgmem_data meminfo).flatten := by
  unfold cgroup_meminfo_read_buf at h
  cases buf with
  | none => simp [EINVAL] at h
  | some old =>
    simp only [] at h
    split at h
    · simp [EINVAL] at h
    · split at h
      · rename_i hcg
        simp only [Prod.mk.injEq] at h
        exact absurd h.1 hcg
      · rw [hfile] at h
        simp only [Prod.mk.injEq, Option.some.injEq] at h
        have := read_buf_loop_ok _ _ _ _ _ _ (Prod.ext h.1 h.2 :
          read_buf_loop cg.2.cgmem_data len.toNat (getlines meminfo)
            (rewrite_init cg.2.cgmem_data) [] = (0, out))
        simpa [meminfo_rewritten] using this

theorem rewrite_line_unrecognised (data : memcg_data) (vars : rewrite_vars)
    (line : List Char) (hun : ∀ lab ∈ recognised_labels, startswith line lab = false) :
    rewrite_line data vars line = (vars, cstr line) := by
  simp only [recognised_labels, List.mem_cons, forall_eq_or_imp, List.mem_singleton,
    forall_eq, List.not_mem_nil, false_implies, implies_true, and_true] at hun
  simp [rewrite_line, hun]

theorem rewrite_line_memtotal (data : memcg_data) (vars : rewrite_vars) (line : List Char)
    (h : startswith line "MemTotal:" = true) :
    rewrite_line data vars line
      = ({ vars with memlimit :=
            if sscanf_lu_or_zero line 9
                < (if vars.memlimit = 0 then sscanf_lu_or_zero line 9 else vars.memlimit)
            then sscanf_lu_or_zero line 9
            else (if vars.memlimit = 0 then sscanf_lu_or_zero line 9 else vars.memlimit) },
          snprintf_kb "MemTotal:       "
            (if sscanf_lu_or_zero line 9
                < (if vars.memlimit = 0 then sscanf_lu_or_zero line 9 else vars.memlimit)
            then sscanf_lu_or_zero line 9
            else (if vars.memlimit = 0 then sscanf_lu_or_zero line 9 else vars.memlimit))) := by
  unfold rewrite_line
  simp only [h, if_true]
  rfl

theorem ite_memlimit (c : Prop) [Decidable c] (a b : rewrite_vars × List Char) (m : Nat)
    (ha : a.1.memlimit = m) (hb : b.1.memlimit = m) :
    (if c then a else b).1.memlimit = m := by
  split <;> assumption

/-- Only a `MemTotal:` line changes `memlimit`. -/
theorem rewrite_line_memlimit (data : memcg_data) (vars : rewrite_vars) (line : List Char)
    (h : startswith line "MemTotal:" = false) :
    (rewrite_line data vars line).1.memlimit = vars.memlimit := by
  unfold rewrite_line
  simp only []
  rw [if_neg (by rw [h]; decide)]
  repeat' (first | rfl | apply ite_memlimit)

theorem rewrite_vars_after_memlimit (data : memcg_data) : ∀ (lines : List (List Char))
    (vars : rewrite_vars), (∀ l ∈ lines, startswith l "MemTotal:" = false) →
    (rewrite_vars_after data vars lines).memlimit = vars.memlimit := by
  intro lines
  induction lines with
  | nil => intro vars _; rfl
  | cons l ls ih =>
    intro vars h
    simp only [rewrite_vars_after, List.foldl_cons]
    have := ih (rewrite_line data vars l).1 (fun x hx => h x (by simp [hx]))
    simp only [rewrite_vars_after] at this
    rw [this, rewrite_line_memlimit data vars l (h l (by simp))]

/-- C3: for every snapshot (the unlimited sentinel included) and every host report, each
line of the report that starts with `MemTotal:` is rewritten to a `MemTotal:` line whose
value is at most the number `sscanf` reads from the host line; and when
`cgroup_meminfo_read_buf` returns 0 its buffer holds exactly the rewritten lines. -/
theorem meminfo_memtotal_le_host (data : memcg_data) (meminfo : List Char) (i : Nat)
    (line : List Char) (hline : (getlines meminfo)[i]? = some line)
    (hstart : startswith line "MemTotal:" = true) :
    (∃ v, (meminfo_rewritten data meminfo)[i]? = some (snprintf_kb "MemTotal:       " v) ∧
      v ≤ sscanf_lu_or_zero line 9) ∧
    (∀ fs cg buf len out, cg.2.cgmem_data = data → fs "/proc/meminfo".toList = .ok meminfo →
      cgroup_meminfo_read_buf fs cg buf len = (0, some out) →
      out = (meminfo_rewritten data meminfo).flatten) := by
  constructor
  · unfold meminfo_rewritten
    rw [rewrite_lines_getElem? data _ _ i line hline, rewrite_line_memtotal data _ line hstart]
    refine ⟨_, rfl, ?_⟩
    generalize sscanf_lu_or_zero line 9 = host
    generalize (rewrite_vars_after data (rewrite_init data)
      (List.take i (getlines meminfo))).memlimit = m
    split_ifs <;> omega
  · intro fs cg buf len out hd hf h
    rw [← hd]
    exact cgroup_meminfo_read_buf_ok fs cg buf len meminfo out hf h

/-- The theorem of C3 on a host report with 16384000 kB and the unlimited sentinel as the
memory limit: the `MemTotal:` line keeps the host value. -/
theorem meminfo_memtotal_le_host_witness :
    (getlines "MemTotal:       16384000 kB\nMemFree:         1234 kB\n".toList)[0]?
      = some "MemTotal:       16384000 kB\n".toList ∧
    startswith "MemTotal:       16384000 kB\n".toList "MemTotal:" = true ∧
    ∃ v, (meminfo_rewritten ⟨2 ^ 64 - 1, 1048576, 0, 0, memory_stat.zero⟩
        "MemTotal:       16384000 kB\nMemFree:         1234 kB\n".toList)[0]?
        = some (snprintf_kb "MemTotal:       " v) ∧
      v ≤ sscanf_lu_or_zero "MemTotal:       16384000 kB\n".toList 9 :=
  ⟨by decide, by decide,
    (meminfo_memtotal_le_host ⟨2 ^ 64 - 1, 1048576, 0, 0, memory_stat.zero⟩
      "MemTotal:       16384000 kB\nMemFree:         1234 kB\n".toList 0
      "MemTotal:       16384000 kB\n".toList (by decide) (by decide)).1⟩

/-- Counterexample to C4: with `memory_limit = 0` and the host line
`MemTotal:       16384000 kB` the rewritten line carries 16384000, whereas the lesser of
`memory_limit div 1024 = 0` and the host value is 0. -/
theorem meminfo_memtotal_zero_limit :
    meminfo_rewritten ⟨0, 0, 0, 0, memory_stat.zero⟩ "MemTotal:       16384000 kB\n".toList
      = ["MemTotal:       16384000 kB\n".toList] ∧
    sscanf_lu_or_zero "MemTotal:       16384000 kB\n".toList 9 = 16384000 ∧
    min (0 / 1024) 16384000 = 0 ∧
    meminfo_rewritten ⟨0, 0, 0, 0, memory_stat.zero⟩ "MemTotal:       16384000 kB\n".toList
      ≠ [snprintf_kb "MemTotal:       " (min (0 / 1024) 16384000)] := by
  decide

/-- C4 (amended): for every memory limit and every host report, the first line that starts
with `MemTotal:` is rewritten to a `MemTotal:` line whose value is the lesser of
`memory_limit div 1024` and the host's value when `memory_limit div 1024` is not 0, and the
host's value when it is 0. -/
theorem meminfo_memtotal_value (data : memcg_data) (meminfo : List Char) (i : Nat)
    (line : List Char) (hline : (getlines meminfo)[i]? = some line)
    (hstart : startswith line "MemTotal:" = true)
    (hfirst : ∀ j l, j < i → (getlines meminfo)[j]? = some l →
      startswith l "MemTotal:" = false) :
    (meminfo_rewritten data meminfo)[i]?
      = some (snprintf_kb "MemTotal:       "
          (if data.memory_limit / 1024 = 0 then sscanf_lu_or_zero line 9
           else min (data.memory_limit / 1024) (sscanf_lu_or_zero line 9))) := by
  unfold meminfo_rewritten
  rw [rewrite_lines_getElem? data _ _ i line hline, rewrite_line_memtotal data _ line hstart]
  have hbefore : ∀ l ∈ (getlines meminfo).take i, startswith l "MemTotal:" = false := by
    intro l hl
    obtain ⟨j, hj, hjl⟩ := List.getElem_of_mem hl
    have hji : j < i := by
      have := hj
      simp only [List.length_take] at this
      omega
    apply hfirst j l hji
    rw [← hjl, List.getElem_take]
    exact List.getElem?_eq_getElem _
  rw [rewrite_vars_after_memlimit data _ _ hbefore]
  have hinit : (rewrite_init data).memlimit = data.memory_limit / 1024 := rfl
  rw [hinit]
  have key : ∀ host m : Nat,
      (if host < (if m = 0 then host else m) then host else (if m = 0 then host else m))
        = (if m = 0 then host else min m host) := by
    intro host m
    split_ifs <;> omega
  rw [key]

/-- The theorem of C4 on a limit of 2 GiB and a host total of 16384000 kB. -/
theorem meminfo_memtotal_value_witness :
    (meminfo_rewritten ⟨2147483648, 1048576, 0, 0, memory_stat.zero⟩
        "MemTotal:       16384000 kB\nMemFree:         1234 kB\n".toList)[0]?
      = some "MemTotal:        2097152 kB\n".toList := by
  have h := meminfo_memtotal_value ⟨2147483648, 1048576, 0, 0, memory_stat.zero⟩
    "MemTotal:       16384000 kB\nMemFree:         1234 kB\n".toList 0
    "MemTotal:       16384000 kB\n".toList (by decide) (by decide)
    (fun j l hj _ => absurd hj (Nat.not_lt_zero j))
  rw [h]
  decide

/-- C5: for every host report and every snapshot, the rewritten report has as many lines
as the host report, and a host line that starts with none of the 26 recognised labels is
copied to the same position as the C string it is: byte for byte when it holds no NUL; and
when `cgroup_meminfo_read_buf` returns 0 its buffer holds exactly the rewritten lines. -/
theorem meminfo_unrecognised_copied (data : memcg_data) (meminfo : List Char) (i : Nat)
    (line : List Char) (hline : (getlines meminfo)[i]? = some line)
    (hun : ∀ lab ∈ recognised_labels, startswith line lab = false) :
    (meminfo_rewritten data meminfo).length = (getlines meminfo).length ∧
    (meminfo_rewritten data meminfo)[i]? = some (cstr line) ∧
    (NUL ∉ line → (meminfo_rewritten data meminfo)[i]? = some line) ∧
    (∀ fs cg buf len out, cg.2.cgmem_data = data → fs "/proc/meminfo".toList = .ok meminfo →
      cgroup_meminfo_read_buf fs cg buf len = (0, some out) →
      out = (meminfo_rewritten data meminfo).flatten) := by
  have hcopy : (meminfo_rewritten data meminfo)[i]? = some (cstr line) := by
    unfold meminfo_rewritten
    rw [rewrite_lines_getElem? data _ _ i line hline, rewrite_line_unrecognised data _ line hun]
  refine ⟨rewrite_lines_length data _ _, hcopy, ?_, ?_⟩
  · intro hnul
    rw [hcopy]
    congr 1
    apply takeWhile_all
    intro c hc
    simp only [bne_iff_ne, ne_eq]
    intro h
    exact hnul (h ▸ hc)
  · intro fs cg buf len out hd hf h
    rw [← hd]
    exact cgroup_meminfo_read_buf_ok fs cg buf len meminfo out hf h

/-- The theorem of C5 on a report whose third line carries the unknown label `Foo:`. -/
theorem meminfo_unrecognised_copied_witness :
    (meminfo_rewritten ⟨2147483648, 1048576, 0, 0, memory_stat.zero⟩
        "MemTotal:       16384000 kB\nMemFree:         1234 kB\nFoo: 1\n".toList)[2]?
      = some "Foo: 1\n".toList :=
  (meminfo_unrecognised_copied ⟨2147483648, 1048576, 0, 0, memory_stat.zero⟩
    "MemTotal:       16384000 kB\nMemFree:         1234 kB\nFoo: 1\n".toList 2
    "Foo: 1\n".toList (by decide) (by decide)).2.2.1 (by decide)

/-! ## The mount locator -/

theorem strstr_iff_occurs (needle : List Char) : ∀ hay : List Char,
    strstr hay needle = true ↔ needle <:+: hay := by
  intro hay
  induction hay with
  | nil => simp [strstr]
  | cons c cs ih =>
    simp only [strstr, Bool.or_eq_true, beq_iff_eq, ih, List.infix_cons_iff,
      List.prefix_iff_eq_take]
    constructor
    · rintro (h | h)
      · exact Or.inl h.symm
      · exact Or.inr h
    · rintro (h | h)
      · exact Or.inl h.symm
      · exact Or.inr h

theorem cgroup_mount_loop_find (version : Nat) (table : List mntent) :
    cgroup_mount_loop version table
      = (table.find? (fun mnt =>
          (version == CGROUP_TYPE_UNIFIED && mnt.mnt_type == "cgroup2".toList)
          || (version == CGROUP_TYPE_LEGACY && mnt.mnt_type == "cgroup".toList
              && strstr mnt.mnt_opts "memory".toList))).map mntent.mnt_dir := by
  induction table with
  | nil => rfl
  | cons m ms ih =>
    rw [List.find?_cons]
    simp only [cgroup_mount_loop]
    rw [ih]
    generalize (version == CGROUP_TYPE_UNIFIED && m.mnt_type == "cgroup2".toList) = a
    generalize (version == CGROUP_TYPE_LEGACY && m.mnt_type == "cgroup".toList
      && strstr m.mnt_opts "memory".toList) = b
    cases a <;> cases b <;> rfl

theorem strstr_eq_decide (hay needle : List Char) :
    strstr hay needle = decide (needle <:+: hay) := by
  by_cases h : needle <:+: hay
  · rw [(strstr_iff_occurs _ _).mpr h, decide_eq_true h]
  · rw [decide_eq_false h]
    cases hs : strstr hay needle with
    | false => rfl
    | true => exact absurd ((strstr_iff_occurs _ _).mp hs) h

theorem cgroup_mount_loop_unified (table : List mntent) :
    cgroup_mount_loop CGROUP_TYPE_UNIFIED table
      = (table.find? (fun m => m.mnt_type == "cgroup2".toList)).map mntent.mnt_dir := by
  rw [cgroup_mount_loop_find]
  congr 2
  funext m
  have h1 : (CGROUP_TYPE_UNIFIED == CGROUP_TYPE_UNIFIED) = true := by decide
  have h2 : (CGROUP_TYPE_UNIFIED == CGROUP_TYPE_LEGACY) = false := by decide
  rw [h1, h2, Bool.true_and, Bool.false_and, Bool.false_and, Bool.or_false]

theorem cgroup_mount_loop_legacy (table : List mntent) :
    cgroup_mount_loop CGROUP_TYPE_LEGACY table
      = (table.find? (fun m => m.mnt_type == "cgroup".toList
          && decide ("memory".toList <:+: m.mnt_opts))).map mntent.mnt_dir := by
  rw [cgroup_mount_loop_find]
  congr 2
  funext m
  have h1 : (CGROUP_TYPE_LEGACY == CGROUP_TYPE_LEGACY) = true := by decide
  have h2 : (CGROUP_TYPE_LEGACY == CGROUP_TYPE_UNIFIED) = false := by decide
  rw [h1, h2, Bool.true_and, Bool.false_and, Bool.false_or, strstr_eq_decide]

/-- C18: with the mount table as a list of entries, `cgroup_mount` for the unified type
returns the directory of the first entry of type `cgroup2`, for the legacy type the
directory of the first entry of type `cgroup` whose options contain `memory`, and NULL
exactly when no entry meets the condition of the requested type. -/
theorem cgroup_mount_first_entry (table : List mntent) :
    cgroup_mount (some table) CGROUP_TYPE_UNIFIED
      = (table.find? (fun m => m.mnt_type == "cgroup2".toList)).map mntent.mnt_dir ∧
    cgroup_mount (some table) CGROUP_TYPE_LEGACY
      = (table.find? (fun m => m.mnt_type == "cgroup".toList
          && decide ("memory".toList <:+: m.mnt_opts))).map mntent.mnt_dir ∧
    (cgroup_mount (some table) CGROUP_TYPE_UNIFIED = none ↔
      ∀ m ∈ table, m.mnt_type ≠ "cgroup2".toList) ∧
    (cgroup_mount (some table) CGROUP_TYPE_LEGACY = none ↔
      ∀ m ∈ table, ¬ (m.mnt_type = "cgroup".toList ∧ "memory".toList <:+: m.mnt_opts)) := by
  refine ⟨cgroup_mount_loop_unified table, cgroup_mount_loop_legacy table, ?_, ?_⟩
  · show cgroup_mount_loop CGROUP_TYPE_UNIFIED table = none ↔ _
    rw [cgroup_mount_loop_unified, Option.map_eq_none', List.find?_eq_none]
    simp only [beq_iff_eq, ne_eq]
  · show cgroup_mount_loop CGROUP_TYPE_LEGACY table = none ↔ _
    rw [cgroup_mount_loop_legacy, Option.map_eq_none', List.find?_eq_none]
    simp only [Bool.and_eq_true, beq_iff_eq, decide_eq_true_eq]

/-! ## The metric file resolver -/

theorem int_of_size_small (n : Nat) (h : n < 2 ^ 31) : int_of_size n = (n : Int) := by
  unfold int_of_size
  have : (n + 2 ^ 31) % 2 ^ 32 = n + 2 ^ 31 := Nat.mod_eq_of_lt (by omega)
  rw [this]
  push_cast
  omega

theorem file_mappings_spec (m : memcg_metric_type) :
    (file_mappings m).v1_file = spec_metric_filename true m ∧
    (file_mappings m).v2_file = spec_metric_filename false m := by
  cases m <;> exact ⟨rfl, rfl⟩

/-- C19: for each metric and each resolved generation, with a buffer size that fits an
`int`, `memcg_build_file_path` succeeds exactly when mount ++ cgroup path ++ "/" ++ file
name (the table entry of the metric and generation) is shorter than the buffer size; on
success the buffer holds that whole string, otherwise the function reports failure. -/
theorem memcg_build_file_path_fits (info : memcg_meminfo) (metric_type : memcg_metric_type)
    (mount path : List Char) (legacy : Bool) (buffer_size : Nat)
    (hmount : info.cgmem_mount = some mount) (hpath : info.cgmem_path = some path)
    (hver : info.version = if legacy then CGROUP_TYPE_LEGACY else CGROUP_TYPE_UNIFIED)
    (hsize : buffer_size < 2 ^ 31) :
    (memcg_build_file_path info metric_type buffer_size
        = some (mount ++ path ++ "/".toList ++ (spec_metric_filename legacy metric_type).toList)
      ↔ (mount ++ path ++ "/".toList
          ++ (spec_metric_filename legacy metric_type).toList).length < buffer_size) ∧
    (memcg_build_file_path info metric_type buffer_size = none
      ↔ buffer_size ≤ (mount ++ path ++ "/".toList
          ++ (spec_metric_filename legacy metric_type).toList).length) := by
  have hname : (if isLegacy info.version = true then (file_mappings metric_type).v1_file
      else (file_mappings metric_type).v2_file) = spec_metric_filename legacy metric_type := by
    cases legacy
    · simp only [Bool.false_eq_true, if_false] at hver
      rw [hver, isLegacy_unified]
      exact (file_mappings_spec metric_type).2
    · simp only [if_true] at hver
      rw [hver, isLegacy_legacy]
      exact (file_mappings_spec metric_type).1
  have hfull : str_arg info.cgmem_mount ++ str_arg info.cgmem_path
      ++ '/' :: (spec_metric_filename legacy metric_type).toList
      = mount ++ path ++ "/".toList ++ (spec_metric_filename legacy metric_type).toList := by
    rw [hmount, hpath]
    simp [str_arg]
  unfold memcg_build_file_path
  simp only [hname, hfull]
  generalize mount ++ path ++ "/".toList
    ++ (spec_metric_filename legacy metric_type).toList = full
  rw [int_of_size_small buffer_size hsize]
  by_cases hlen : full.length < buffer_size
  · have h31 : full.length < 2 ^ 31 := by omega
    have hc : ¬ (((full.length : Nat) : Int) < 0 ∨ ((full.length : Nat) : Int) ≥ (buffer_size : Int)) := by
      omega
    simp only [h31, if_true, hc, if_false]
    constructor
    · exact ⟨fun _ => hlen, fun _ => trivial⟩
    · constructor
      · intro h; exact Option.noConfusion h
      · intro h; omega
  · have hc : (if full.length < 2 ^ 31 then ((full.length : Nat) : Int) else -1) < 0 ∨
        (if full.length < 2 ^ 31 then ((full.length : Nat) : Int) else -1) ≥ (buffer_size : Int) := by
      split
      · right; omega
      · left; omega
    simp only [hc, if_true]
    constructor
    · constructor
      · intro h; exact Option.noConfusion h
      · intro h; exact absurd h hlen
    · exact ⟨fun _ => by omega, fun _ => trivial⟩

/-- The theorem of C19 on the unified cgroup `/a` and `PATH_MAX`: the path of `memory.max`
has 27 characters and fits. -/
theorem memcg_build_file_path_fits_witness :
    memcg_build_file_path (unified_info 0 0 0 0) .MEMCG_MEMORY_LIMIT PATH_MAX
      = some ("/sys/fs/cgroup".toList ++ "/a".toList ++ "/".toList ++ "memory.max".toList) :=
  (memcg_build_file_path_fits (unified_info 0 0 0 0) .MEMCG_MEMORY_LIMIT
    "/sys/fs/cgroup".toList "/a".toList false PATH_MAX rfl rfl (by decide) (by decide)).1.mpr
    (by decide)

/-! ## The process cgroup path parser -/

theorem parse_cgroup_line_eq (paths : cgroup_paths) (line : List Char) :
    parse_cgroup_line paths line
      = ⟨keep_last line_v1 paths.v1_path (chomp line),
         keep_last line_v2 paths.v2_path (chomp line)⟩ := by
  unfold parse_cgroup_line keep_last line_v1 line_v2
  simp only []
  by_cases h0 : ((chomp line).take 3 == "0::".toList) = true
  · simp only [h0, if_true]
  · simp only [h0, Bool.false_eq_true, if_false]
    cases h1 : (chomp line).dropWhile (fun c => c != ':') with
    | nil => rfl
    | cons c after_first =>
      simp only []
      cases h2 : after_first.dropWhile (fun c => c != ':') with
      | nil => rfl
      | cons c2 path_start =>
        simp only []
        by_cases h3 : strstr (after_first.takeWhile (fun c => c != ':')) "memory".toList = true
        · simp only [h3, if_true]
        · simp only [h3, Bool.false_eq_true, if_false]

theorem take3_iff_starts (l : List Char) :
    (l.take 3 == "0::".toList) = true ↔ "0::".toList <+: l := by
  rw [beq_iff_eq, List.prefix_iff_eq_take]
  constructor
  · intro h; exact h.symm
  · intro h; exact h.symm

theorem dropWhile_ne_head {α : Type} (p : α → Bool) (l : List α) (c : α) (r : List α)
    (h : l.dropWhile p = c :: r) : p c = false := by
  have := List.head_dropWhile_not p l (by rw [h]; simp)
  simpa [h] using this

theorem colon_split (l : List Char) (c : Char) (r : List Char)
    (h : l.dropWhile (fun c => c != ':') = c :: r) :
    l = l.takeWhile (fun c => c != ':') ++ ':' :: r ∧ ':' ∉ l.takeWhile (fun c => c != ':') := by
  have hc : c = ':' := by
    have := dropWhile_ne_head _ l c r h
    simpa using this
  constructor
  · have := List.takeWhile_append_dropWhile (fun c => c != ':') l
    rw [h, hc] at this
    exact this.symm
  · intro hmem
    have := List.mem_takeWhile_imp hmem
    simp at this

theorem not_colon_all (a : List Char) (h : ':' ∉ a) : ∀ x ∈ a, (x != ':') = true := by
  intro x hx
  simp only [bne_iff_ne, ne_eq]
  intro hxc
  exact h (hxc ▸ hx)

/-- The v1 path the code takes from a line is the one the specification describes. -/
theorem line_v1_iff (l p : List Char) : line_v1 l = some p ↔ selects_v1_path l p := by
  unfold line_v1 selects_v1_path
  by_cases h0 : (l.take 3 == "0::".toList) = true
  · simp only [h0, if_true]
    constructor
    · intro h; exact Option.noConfusion h
    · intro h; exact absurd ((take3_iff_starts l).mp h0) h.1
  · have hnp : ¬ "0::".toList <+: l := fun hp => h0 ((take3_iff_starts l).mpr hp)
    simp only [h0, Bool.false_eq_true, if_false]
    constructor
    · intro h
      refine ⟨hnp, ?_⟩
      cases h1 : l.dropWhile (fun c => c != ':') with
      | nil => rw [h1] at h; exact Option.noConfusion h
      | cons c after_first =>
        rw [h1] at h
        simp only [] at h
        cases h2 : after_first.dropWhile (fun c => c != ':') with
        | nil => rw [h2] at h; exact Option.noConfusion h
        | cons c2 path_start =>
          rw [h2] at h
          simp only [] at h
          by_cases h3 : strstr (after_first.takeWhile (fun c => c != ':')) "memory".toList = true
          · rw [if_pos h3] at h
            have hp : path_start = p := Option.some.inj h
            obtain ⟨e1, n1⟩ := colon_split l c after_first h1
            obtain ⟨e2, n2⟩ := colon_split after_first c2 path_start h2
            refine ⟨l.takeWhile (fun c => c != ':'),
              after_first.takeWhile (fun c => c != ':'), ?_, n1, n2,
              (strstr_iff_occurs _ _).mp h3⟩
            rw [← hp, ← e2]
            exact e1
          · rw [if_neg h3] at h
            exact Option.noConfusion h
    · rintro ⟨_, id, subsys, hl, hid, hsub, hmem⟩
      have d1 : l.dropWhile (fun c => c != ':') = ':' :: (subsys ++ ':' :: p) := by
        rw [hl]
        exact dropWhile_append_stop _ _ _ _ (not_colon_all id hid) (by decide)
      have d2 : (subsys ++ ':' :: p).dropWhile (fun c => c != ':') = ':' :: p :=
        dropWhile_append_stop _ _ _ _ (not_colon_all subsys hsub) (by decide)
      have t2 : (subsys ++ ':' :: p).takeWhile (fun c => c != ':') = subsys :=
        takeWhile_append_stop _ _ _ _ (not_colon_all subsys hsub) (by decide)
      rw [d1]
      simp only []
      rw [d2]
      simp only []
      rw [t2, (strstr_iff_occurs _ _).mpr hmem]
      rfl

/-- The v2 path the code takes from a line is the one the specification describes. -/
theorem line_v2_iff (l p : List Char) : line_v2 l = some p ↔ selects_v2_path l p := by
  unfold line_v2 selects_v2_path
  by_cases h0 : (l.take 3 == "0::".toList) = true
  · simp only [h0, if_true, Option.some.injEq]
    have h3 : l.take 3 = "0::".toList := by simpa using h0
    constructor
    · intro h
      rw [← h, ← h3]
      exact (List.take_append_drop 3 l).symm
    · intro h
      rw [h]
      rfl
  · simp only [h0, Bool.false_eq_true, if_false]
    constructor
    · intro h; exact Option.noConfusion h
    · intro h
      exfalso
      apply h0
      rw [take3_iff_starts, h]
      exact List.prefix_append _ _

/-- The last line that contributes a value decides: the shape of a fold in which every
contribution overwrites the ones before it. -/
theorem foldl_last_wins {α : Type} (f : List Char → Option α) (p : α) :
    ∀ (ls : List (List Char)) (init : Option α),
    ls.foldl (keep_last f) init = some p ↔
      (∃ pre l post, ls = pre ++ l :: post ∧ f l = some p ∧ ∀ x ∈ post, f x = none) ∨
      (init = some p ∧ ∀ x ∈ ls, f x = none) := by
  intro ls
  induction ls with
  | nil =>
    intro init
    simp only [List.foldl_nil, List.not_mem_nil, false_implies, implies_true, and_true]
    constructor
    · intro h; exact Or.inr h
    · rintro (⟨pre, l, post, h, _⟩ | h)
      · cases pre <;> simp at h
      · exact h
  | cons x xs ih =>
    intro init
    rw [List.foldl_cons, ih]
    unfold keep_last
    constructor
    · rintro (⟨pre, l, post, h, hl, hpost⟩ | ⟨h, hall⟩)
      · exact Or.inl ⟨x :: pre, l, post, by rw [h]; rfl, hl, hpost⟩
      · cases hx : f x with
        | some q =>
          rw [hx] at h
          simp only [] at h
          exact Or.inl ⟨[], x, xs, rfl, by rw [hx]; exact h, hall⟩
        | none =>
          rw [hx] at h
          simp only [] at h
          refine Or.inr ⟨h, ?_⟩
          intro y hy
          rcases List.mem_cons.mp hy with rfl | hy
          · exact hx
          · exact hall y hy
    · rintro (⟨pre, l, post, h, hl, hpost⟩ | ⟨h, hall⟩)
      · cases pre with
        | nil =>
          simp only [List.nil_append, List.cons.injEq] at h
          obtain ⟨rfl, rfl⟩ := h
          refine Or.inr ⟨?_, hpost⟩
          rw [hl]
        | cons y pre =>
          simp only [List.cons_append, List.cons.injEq] at h
          exact Or.inl ⟨pre, l, post, h.2, hl, hpost⟩
      · refine Or.inr ⟨?_, fun y hy => hall y (List.mem_cons_of_mem _ hy)⟩
        rw [hall x (List.mem_cons_self _ _)]
        exact h

theorem foldl_parse_cgroup_line (lines : List (List Char)) : ∀ (paths : cgroup_paths),
    lines.foldl parse_cgroup_line paths
      = ⟨(lines.map chomp).foldl (keep_last line_v1) paths.v1_path,
         (lines.map chomp).foldl (keep_last line_v2) paths.v2_path⟩ := by
  induction lines with
  | nil => intro paths; rfl
  | cons l ls ih =>
    intro paths
    rw [List.foldl_cons, ih, parse_cgroup_line_eq]
    rfl

theorem parse_thread_cgroup_paths_ok (fs : FileSystem) (content : List Char)
    (hfile : fs "/proc/self/cgroup".toList = .ok content) :
    parse_thread_cgroup_paths fs
      = (0, ⟨(cgroup_lines content).foldl (keep_last line_v1) none,
          (cgroup_lines content).foldl (keep_last line_v2) none⟩) := by
  unfold parse_thread_cgroup_paths cgroup_lines
  rw [hfile]
  simp only []
  rw [foldl_parse_cgroup_line]

theorem foldl_last_none {α : Type} (f : List Char → Option α) :
    ∀ (ls : List (List Char)) (init : Option α),
    ls.foldl (keep_last f) init = none ↔
      init = none ∧ ∀ x ∈ ls, f x = none := by
  intro ls
  induction ls with
  | nil => intro init; simp
  | cons x xs ih =>
    intro init
    rw [List.foldl_cons, ih]
    unfold keep_last
    cases hx : f x with
    | some q => simp [hx]
    | none => simp [hx]

/-- C16: when the membership file is read, `parse_thread_cgroup_paths` returns 0 and
yields a v1 path if and only if some line that does not begin with `0::` has at least two
colons with `memory` in the text between the first and the second; the path is the text
after the second colon of the last such line, wherever it stands in the file; a line with
`memory` only outside the text between its first two colons is never selected. -/
theorem parse_thread_cgroup_paths_v1 (fs : FileSystem) (content : List Char)
    (hfile : fs "/proc/self/cgroup".toList = .ok content) :
    (parse_thread_cgroup_paths fs).1 = 0 ∧
    ((parse_thread_cgroup_paths fs).2.v1_path.isSome = true ↔
      ∃ l ∈ cgroup_lines content, ∃ p, selects_v1_path l p) ∧
    (∀ p, (parse_thread_cgroup_paths fs).2.v1_path = some p ↔
      ∃ pre l post, cgroup_lines content = pre ++ l :: post ∧ selects_v1_path l p ∧
        ∀ x ∈ post, ∀ q, ¬ selects_v1_path x q) ∧
    (∀ id subsys path, ':' ∉ id → ':' ∉ subsys → ¬ "memory".toList <:+: subsys →
      ∀ q, ¬ selects_v1_path (id ++ ':' :: (subsys ++ ':' :: path)) q) := by
  rw [parse_thread_cgroup_paths_ok fs content hfile]
  have hnone : ∀ x, line_v1 x = none ↔ ∀ q, ¬ selects_v1_path x q := by
    intro x
    constructor
    · intro h q hq
      rw [(line_v1_iff x q).mpr hq] at h
      exact Option.noConfusion h
    · intro h
      cases hx : line_v1 x with
      | none => rfl
      | some q => exact absurd ((line_v1_iff x q).mp hx) (h q)
  refine ⟨rfl, ?_, ?_, ?_⟩
  · simp only []
    rw [← Option.ne_none_iff_isSome, ne_eq, foldl_last_none]
    simp only [true_and, not_forall]
    constructor
    · rintro ⟨l, hl, hne⟩
      cases hx : line_v1 l with
      | none => exact absurd hx hne
      | some q => exact ⟨l, hl, q, (line_v1_iff l q).mp hx⟩
    · rintro ⟨l, hl, q, hq⟩
      refine ⟨l, hl, ?_⟩
      rw [(line_v1_iff l q).mpr hq]
      exact Option.noConfusion
  · intro p
    simp only []
    rw [foldl_last_wins]
    constructor
    · rintro (⟨pre, l, post, h, hl, hpost⟩ | ⟨h, _⟩)
      · exact ⟨pre, l, post, h, (line_v1_iff l p).mp hl, fun x hx => (hnone x).mp (hpost x hx)⟩
      · exact Option.noConfusion h
    · rintro ⟨pre, l, post, h, hl, hpost⟩
      exact Or.inl ⟨pre, l, post, h, (line_v1_iff l p).mpr hl,
        fun x hx => (hnone x).mpr (hpost x hx)⟩
  · intro id subsys path hid hsub hmem q hq
    have hl := (line_v1_iff _ q).mpr hq
    unfold line_v1 at hl
    split at hl
    · exact Option.noConfusion hl
    · have d1 : (id ++ ':' :: (subsys ++ ':' :: path)).dropWhile (fun c => c != ':')
          = ':' :: (subsys ++ ':' :: path) :=
        dropWhile_append_stop _ _ _ _ (not_colon_all id hid) (by decide)
      have d2 : (subsys ++ ':' :: path).dropWhile (fun c => c != ':') = ':' :: path :=
        dropWhile_append_stop _ _ _ _ (not_colon_all subsys hsub) (by decide)
      have t2 : (subsys ++ ':' :: path).takeWhile (fun c => c != ':') = subsys :=
        takeWhile_append_stop _ _ _ _ (not_colon_all subsys hsub) (by decide)
      rw [d1] at hl
      simp only [] at hl
      rw [d2] at hl
      simp only [] at hl
      rw [t2] at hl
      have hs : strstr subsys "memory".toList = false := by
        cases h : strstr subsys "memory".toList with
        | false => rfl
        | true => exact absurd ((strstr_iff_occurs _ _).mp h) hmem
      rw [hs] at hl
      exact Option.noConfusion hl

/-- The theorem of C16 on a hybrid membership file: the memory line is the fourth and its
path is found. -/
theorem parse_thread_cgroup_paths_v1_witness :
    fs_of [("/proc/self/cgroup", self_cgroup_hybrid)] "/proc/self/cgroup".toList
      = .ok self_cgroup_hybrid.toList ∧
    (parse_thread_cgroup_paths (fs_of [("/proc/self/cgroup", self_cgroup_hybrid)])).2.v1_path
      = some "/docker/abc".toList :=
  ⟨rfl, ((parse_thread_cgroup_paths_v1 (fs_of [("/proc/self/cgroup", self_cgroup_hybrid)])
    self_cgroup_hybrid.toList rfl).2.2.1 "/docker/abc".toList).mpr
    ⟨["12:pids:/user.slice".toList, "5:cpu,cpuacct:/".toList,
        "0::/user.slice/session-1.scope".toList], "4:memory:/docker/abc".toList, [],
      by decide,
      ⟨by decide, "4".toList, "memory".toList, by decide, by decide, by decide, by decide⟩,
      fun x hx => absurd hx (List.not_mem_nil x)⟩⟩

/-- C17: when the membership file is read, `parse_thread_cgroup_paths` yields a v2 path if
and only if some line begins with `0::`; the path is the rest of the last such line,
without its newline; and a line that begins with `0::` leaves the v1 path as it was. -/
theorem parse_thread_cgroup_paths_v2 (fs : FileSystem) (content : List Char)
    (hfile : fs "/proc/self/cgroup".toList = .ok content) :
    ((parse_thread_cgroup_paths fs).2.v2_path.isSome = true ↔
      ∃ l ∈ cgroup_lines content, "0::".toList <+: l) ∧
    (∀ p, (parse_thread_cgroup_paths fs).2.v2_path = some p ↔
      ∃ pre post, cgroup_lines content = pre ++ ("0::".toList ++ p) :: post ∧
        ∀ x ∈ post, ¬ "0::".toList <+: x) ∧
    (∀ paths line, "0::".toList <+: chomp line →
      (parse_cgroup_line paths line).v1_path = paths.v1_path ∧
      (parse_cgroup_line paths line).v2_path = some ((chomp line).drop 3)) := by
  rw [parse_thread_cgroup_paths_ok fs content hfile]
  have hnone : ∀ x, line_v2 x = none ↔ ¬ "0::".toList <+: x := by
    intro x
    unfold line_v2
    rw [← take3_iff_starts]
    split <;> simp_all
  refine ⟨?_, ?_, ?_⟩
  · simp only []
    rw [← Option.ne_none_iff_isSome, ne_eq, foldl_last_none]
    simp only [true_and, not_forall]
    constructor
    · rintro ⟨l, hl, hne⟩
      exact ⟨l, hl, by_contra (fun h => hne ((hnone l).mpr h))⟩
    · rintro ⟨l, hl, hp⟩
      exact ⟨l, hl, fun h => (hnone l).mp h hp⟩
  · intro p
    simp only []
    rw [foldl_last_wins]
    constructor
    · rintro (⟨pre, l, post, h, hl, hpost⟩ | ⟨h, _⟩)
      · have hlp : l = "0::".toList ++ p := (line_v2_iff l p).mp hl
        exact ⟨pre, post, by rw [h, hlp], fun x hx => (hnone x).mp (hpost x hx)⟩
      · exact Option.noConfusion h
    · rintro ⟨pre, post, h, hpost⟩
      exact Or.inl ⟨pre, "0::".toList ++ p, post, h, (line_v2_iff _ p).mpr rfl,
        fun x hx => (hnone x).mpr (hpost x hx)⟩
  · intro paths line hp
    have h0 := (take3_iff_starts _).mpr hp
    rw [parse_cgroup_line_eq]
    unfold keep_last line_v1 line_v2
    simp only [h0, if_true]
    exact ⟨trivial, trivial⟩

/-- The theorem of C17 on a hybrid membership file: the `0::` line is the third and its
path is found. -/
theorem parse_thread_cgroup_paths_v2_witness :
    fs_of [("/proc/self/cgroup", self_cgroup_hybrid)] "/proc/self/cgroup".toList
      = .ok self_cgroup_hybrid.toList ∧
    (parse_thread_cgroup_paths (fs_of [("/proc/self/cgroup", self_cgroup_hybrid)])).2.v2_path
      = some "/user.slice/session-1.scope".toList :=
  ⟨rfl, ((parse_thread_cgroup_paths_v2 (fs_of [("/proc/self/cgroup", self_cgroup_hybrid)])
    self_cgroup_hybrid.toList rfl).2.1 "/user.slice/session-1.scope".toList).mpr
    ⟨["12:pids:/user.slice".toList, "5:cpu,cpuacct:/".toList],
      ["4:memory:/docker/abc".toList], by decide, by decide⟩⟩

/-! ## The membership walker -/

theorem remove_path_layer_none (p : List Char) :
    remove_path_layer p = none ↔ p = "/".toList := by
  unfold remove_path_layer
  by_cases h : (p == "/".toList) = true
  · simp only [h, if_true, true_iff]
    exact beq_iff_eq.mp h
  · simp only [h, Bool.false_eq_true, if_false]
    constructor
    · intro h'
      split at h' <;> exact Option.noConfusion h'
    · intro h'
      exact absurd (beq_iff_eq.mpr h') h

/-- What `remove_path_layer` makes of a path that begins with `/` begins with `/` and is
shorter. -/
theorem remove_path_layer_some (t q : List Char)
    (h : remove_path_layer ('/' :: t) = some q) :
    q.head? = some '/' ∧ q.length ≤ t.length := by
  unfold remove_path_layer at h
  by_cases h0 : (('/' :: t) == "/".toList) = true
  · rw [if_pos h0] at h
    exact Option.noConfusion h
  · rw [if_neg h0] at h
    have ht : t ≠ [] := by
      intro ht
      apply h0
      rw [ht]
      rfl
    simp only [List.drop_succ_cons, List.drop_zero] at h
    cases hd : t.dropWhile (fun c => c != '/') with
    | nil =>
      rw [hd] at h
      simp only [Option.some.injEq] at h
      rw [← h]
      refine ⟨rfl, ?_⟩
      cases t with
      | nil => exact absurd rfl ht
      | cons a t => simp
    | cons c first_slash =>
      rw [hd] at h
      simp only [Option.some.injEq] at h
      rw [← h]
      have hc : c = '/' := by
        have := dropWhile_ne_head _ t c first_slash hd
        simpa using this
      refine ⟨by rw [hc]; rfl, ?_⟩
      have := (List.dropWhile_sublist (l := t) (fun c => c != '/')).length_le
      rw [hd] at this
      exact this

theorem head_slash_cons (p : List Char) (h : p.head? = some '/') : ∃ t, p = '/' :: t := by
  cases p with
  | nil => simp at h
  | cons c t =>
    simp only [List.head?_cons, Option.some.injEq] at h
    exact ⟨t, by rw [h]⟩

/-- The candidates of a walk from a path that begins with `/`: the path comes first, each
candidate is what `remove_path_layer` makes of the one before, and `/` comes last. -/
theorem walk_candidates_chain : ∀ (fuel : Nat) (p : List Char), p.head? = some '/' →
    p.length ≤ fuel →
    (walk_candidates fuel p).head? = some p ∧
    (walk_candidates fuel p).getLast? = some "/".toList ∧
    List.Chain' (fun a b => remove_path_layer a = some b) (walk_candidates fuel p) := by
  intro fuel
  induction fuel with
  | zero =>
    intro p hp hlen
    obtain ⟨t, rfl⟩ := head_slash_cons p hp
    simp at hlen
  | succ fuel ih =>
    intro p hp hlen
    obtain ⟨t, rfl⟩ := head_slash_cons p hp
    simp only [walk_candidates]
    cases hr : remove_path_layer ('/' :: t) with
    | none =>
      have := (remove_path_layer_none _).mp hr
      simp only []
      rw [this]
      exact ⟨rfl, rfl, List.chain'_singleton _⟩
    | some q =>
      obtain ⟨hq, hql⟩ := remove_path_layer_some t q hr
      simp only [List.length_cons] at hlen
      obtain ⟨h1, h2, h3⟩ := ih q hq (by omega)
      simp only []
      cases hw : walk_candidates fuel q with
      | nil => rw [hw] at h1; simp at h1
      | cons c cs =>
        rw [hw] at h1 h2 h3
        simp only [List.head?_cons, Option.some.injEq] at h1
        refine ⟨rfl, ?_, ?_⟩
        · rw [List.getLast?_cons_cons]; exact h2
        · rw [List.chain'_cons]
          exact ⟨by rw [h1]; exact hr, h3⟩

/-- The loop of the walk tests the candidates in order up to the first member. -/
theorem traverse_loop_eq (member : List Char → Bool) : ∀ (fuel : Nat) (p : List Char),
    p.head? = some '/' → p.length ≤ fuel →
    traverse_loop member (fuel + 1) (some p)
      = ((walk_candidates fuel p).find? member,
         (walk_candidates fuel p).takeWhile (fun c => !member c)
           ++ ((walk_candidates fuel p).find? member).toList) := by
  intro fuel
  induction fuel with
  | zero =>
    intro p hp hlen
    obtain ⟨t, rfl⟩ := head_slash_cons p hp
    simp at hlen
  | succ fuel ih =>
    intro p hp hlen
    obtain ⟨t, rfl⟩ := head_slash_cons p hp
    rw [traverse_loop]
    simp only [List.isEmpty_cons, Bool.false_eq_true, if_false, walk_candidates]
    by_cases hm : member ('/' :: t) = true
    · simp [hm, List.find?_cons, List.takeWhile_cons]
    · have hm' : member ('/' :: t) = false := by simpa using hm
      simp only [hm', Bool.false_eq_true, if_false, List.find?_cons, List.takeWhile_cons,
        Bool.not_false, if_true]
      cases hr : remove_path_layer ('/' :: t) with
      | none => simp [traverse_loop]
      | some q =>
        obtain ⟨hq, hql⟩ := remove_path_layer_some t q hr
        simp only [List.length_cons] at hlen
        rw [ih q hq (by omega)]
        simp

/-- Whatever the loop of the walk finds is a candidate and a member. -/
theorem traverse_loop_found (member : List Char → Bool) : ∀ (fuel : Nat)
    (cur : Option (List Char)) (c : List Char),
    (traverse_loop member fuel cur).1 = some c →
    member c = true ∧ ∃ p, cur = some p ∧ c ∈ walk_candidates fuel p := by
  intro fuel
  induction fuel with
  | zero => intro cur c h; simp [traverse_loop] at h
  | succ fuel ih =>
    intro cur c h
    cases cur with
    | none => simp [traverse_loop] at h
    | some p =>
      rw [traverse_loop] at h
      by_cases he : p.isEmpty = true
      · simp [he] at h
      · simp only [he, Bool.false_eq_true, if_false] at h
        by_cases hm : member p = true
        · simp only [hm, if_true, Option.some.injEq] at h
          rw [← h]
          exact ⟨hm, p, rfl, by simp [walk_candidates]⟩
        · simp only [hm, Bool.false_eq_true, if_false] at h
          obtain ⟨h1, q, hq, hc⟩ := ih _ c h
          refine ⟨h1, p, rfl, ?_⟩
          simp only [walk_candidates, hq, List.mem_cons]
          exact Or.inr hc

theorem traverse_cgroup_path_eq (env : sysenv) (path : List Char) (cgroup_type : Nat)
    (info : memcg_meminfo) (cgmount : List Char) (hslash : path.head? = some '/')
    (hmount : cgroup_mount env.mounts cgroup_type = some cgmount) :
    traverse_cgroup_path env path cgroup_type info
      = match (walk_candidates path.length path).find?
            (memcg_process_in_cgroup_tasks env cgroup_type cgmount) with
        | some c =>
          ⟨0, true, { info with version := cgroup_type, cgmem_path := some c,
                                cgmem_mount := some cgmount },
            .mount_lookup cgroup_type ::
              ((walk_candidates path.length path).takeWhile
                  (fun c => !memcg_process_in_cgroup_tasks env cgroup_type cgmount c)
                ++ [c]).map (.membership_test cgroup_type)⟩
        | none =>
          ⟨0, false, info,
            .mount_lookup cgroup_type ::
              ((walk_candidates path.length path).takeWhile
                  (fun c => !memcg_process_in_cgroup_tasks env cgroup_type cgmount c)).map
                (.membership_test cgroup_type)⟩ := by
  unfold traverse_cgroup_path
  rw [hmount]
  simp only []
  rw [traverse_loop_eq _ path.length path hslash (Nat.le_refl _)]
  cases (walk_candidates path.length path).find?
      (memcg_process_in_cgroup_tasks env cgroup_type cgmount) with
  | none => simp
  | some c => simp

/-- C11: with membership as the predicate `member` on paths and a mount of the requested
generation, the walk from a path beginning with `/` has the candidates `cands`: the path,
then what `remove_path_layer` makes of each candidate, ending with `/`.  The walk tests
them in that order up to the first member; if there is one it returns 0 with `found`,
`cgmem_path` the first member, `version` the requested generation and `cgmem_mount` the
mount; it matches at `/` only if `/` is a member and no earlier candidate is. -/
theorem traverse_cgroup_path_first_match (env : sysenv) (path : List Char) (cgroup_type : Nat)
    (info : memcg_meminfo) (cgmount : List Char) (member : List Char → Bool)
    (cands : List (List Char)) (hslash : path.head? = some '/')
    (hmount : cgroup_mount env.mounts cgroup_type = some cgmount)
    (hmember : member = memcg_process_in_cgroup_tasks env cgroup_type cgmount)
    (hcands : cands = walk_candidates path.length path) :
    cands.head? = some path ∧
    List.Chain' (fun a b => remove_path_layer a = some b) cands ∧
    cands.getLast? = some "/".toList ∧
    (traverse_cgroup_path env path cgroup_type info).events
      = .mount_lookup cgroup_type ::
          (cands.takeWhile (fun c => !member c) ++ (cands.find? member).toList).map
            (.membership_test cgroup_type) ∧
    ((traverse_cgroup_path env path cgroup_type info).found = true ↔
      ∃ c ∈ cands, member c = true) ∧
    (∀ c, cands.find? member = some c →
      (traverse_cgroup_path env path cgroup_type info).ret = 0 ∧
      (traverse_cgroup_path env path cgroup_type info).found = true ∧
      (traverse_cgroup_path env path cgroup_type info).info
        = { info with version := cgroup_type, cgmem_path := some c,
                      cgmem_mount := some cgmount }) ∧
    ((traverse_cgroup_path env path cgroup_type info).found = true →
      (traverse_cgroup_path env path cgroup_type info).info.cgmem_path = some "/".toList →
      member "/".toList = true ∧ ∀ c ∈ cands.dropLast, member c = false) := by
  obtain ⟨h1, h2, h3⟩ := walk_candidates_chain path.length path hslash (Nat.le_refl _)
  rw [traverse_cgroup_path_eq env path cgroup_type info cgmount hslash hmount]
  subst hmember hcands
  refine ⟨h1, h3, h2, ?_, ?_, ?_, ?_⟩
  · cases (walk_candidates path.length path).find?
        (memcg_process_in_cgroup_tasks env cgroup_type cgmount) <;> simp
  · cases hf : (walk_candidates path.length path).find?
        (memcg_process_in_cgroup_tasks env cgroup_type cgmount) with
    | none =>
      simp only [Bool.false_eq_true, false_iff, not_exists, not_and]
      intro c hc
      exact List.find?_eq_none.mp hf c hc
    | some c =>
      simp only [true_iff]
      exact ⟨c, List.mem_of_find?_eq_some hf, List.find?_some hf⟩
  · intro c hc
    rw [hc]
    exact ⟨rfl, rfl, rfl⟩
  · cases hf : (walk_candidates path.length path).find?
        (memcg_process_in_cgroup_tasks env cgroup_type cgmount) with
    | none => intro h; exact absurd h (by simp)
    | some c =>
      intro _ hpath
      simp only [Option.some.injEq] at hpath
      rw [hpath] at hf
      obtain ⟨hm, as, bs, hsplit, has⟩ := List.find?_eq_some.mp hf
      have hbs : bs = [] := by
        cases bs with
        | nil => rfl
        | cons b bs =>
          rw [hsplit] at h3
          have := (List.chain'_cons.mp h3.right_of_append).1
          rw [(remove_path_layer_none _).mpr rfl] at this
          exact Option.noConfusion this
      rw [hbs] at hsplit
      refine ⟨hm, ?_⟩
      intro x hx
      rw [hsplit, List.dropLast_concat] at hx
      simpa using has x hx

/-- The theorem of C11 on the walk from `/a/b/c` in a system where the process is listed
only in `/c`: the candidates are `/a/b/c`, `/b/c`, `/c` and `/`, and `/c` is found. -/
theorem traverse_cgroup_path_first_match_witness :
    walk_candidates 6 "/a/b/c".toList
      = ["/a/b/c".toList, "/b/c".toList, "/c".toList, "/".toList] ∧
    (traverse_cgroup_path env_member_of_c "/a/b/c".toList CGROUP_TYPE_LEGACY info_zero).found
      = true ∧
    (traverse_cgroup_path env_member_of_c "/a/b/c".toList CGROUP_TYPE_LEGACY info_zero).info
      = { info_zero with version := CGROUP_TYPE_LEGACY, cgmem_path := some "/c".toList,
                         cgmem_mount := some "/sys/fs/cgroup/memory".toList } :=
  ⟨by decide,
    ((traverse_cgroup_path_first_match env_member_of_c "/a/b/c".toList CGROUP_TYPE_LEGACY
      info_zero "/sys/fs/cgroup/memory".toList
      (memcg_process_in_cgroup_tasks env_member_of_c CGROUP_TYPE_LEGACY
        "/sys/fs/cgroup/memory".toList)
      (walk_candidates 6 "/a/b/c".toList) (by decide) (by decide) rfl rfl).2.2.2.2.2.1
      "/c".toList (by decide)).2⟩

/-- Counterexample to C12: in a system where process 1234 is listed only in the tasks of
the legacy cgroup `/a`, the walk from `/a/b/c` tests `/a/b/c`, `/b/c`, `/c` and `/`, never
`/a`, and ends with `found = false` and the structure unchanged. -/
theorem traverse_cgroup_path_misses_a :
    memcg_process_in_cgroup_tasks env_member_of_a CGROUP_TYPE_LEGACY
      "/sys/fs/cgroup/memory".toList "/a".toList = true ∧
    traverse_cgroup_path env_member_of_a "/a/b/c".toList CGROUP_TYPE_LEGACY info_zero
      = ⟨0, false, info_zero,
          [.mount_lookup CGROUP_TYPE_LEGACY,
           .membership_test CGROUP_TYPE_LEGACY "/a/b/c".toList,
           .membership_test CGROUP_TYPE_LEGACY "/b/c".toList,
           .membership_test CGROUP_TYPE_LEGACY "/c".toList,
           .membership_test CGROUP_TYPE_LEGACY "/".toList]⟩ ∧
    ¬ ((traverse_cgroup_path env_member_of_a "/a/b/c".toList CGROUP_TYPE_LEGACY
          info_zero).found = true ∧
       (traverse_cgroup_path env_member_of_a "/a/b/c".toList CGROUP_TYPE_LEGACY
          info_zero).info.cgmem_path = some "/a".toList) := by
  decide

/-- C12 (amended): a legacy walk from `/a/b/c` strips one leading segment at a time, so
its candidates are `/a/b/c`, `/b/c`, `/c` and `/`; when the process is a member of none of
them (as when it is listed only in `/a`) the walk ends with `found = false` and leaves
the structure unchanged, and when `/c` is the first of them it is a member of, the walk
reports `found = true` with `cgmem_path` equal to `/c`. -/
theorem traverse_cgroup_path_abc (env : sysenv) (info : memcg_meminfo) (cgmount : List Char)
    (member : List Char → Bool)
    (hmount : cgroup_mount env.mounts CGROUP_TYPE_LEGACY = some cgmount)
    (hmember : member = memcg_process_in_cgroup_tasks env CGROUP_TYPE_LEGACY cgmount)
    (h1 : member "/a/b/c".toList = false) (h2 : member "/b/c".toList = false) :
    walk_candidates "/a/b/c".toList.length "/a/b/c".toList
      = ["/a/b/c".toList, "/b/c".toList, "/c".toList, "/".toList] ∧
    (member "/c".toList = false → member "/".toList = false →
      (traverse_cgroup_path env "/a/b/c".toList CGROUP_TYPE_LEGACY info).found = false ∧
      (traverse_cgroup_path env "/a/b/c".toList CGROUP_TYPE_LEGACY info).info = info ∧
      (traverse_cgroup_path env "/a/b/c".toList CGROUP_TYPE_LEGACY info).events
        = [.mount_lookup CGROUP_TYPE_LEGACY,
           .membership_test CGROUP_TYPE_LEGACY "/a/b/c".toList,
           .membership_test CGROUP_TYPE_LEGACY "/b/c".toList,
           .membership_test CGROUP_TYPE_LEGACY "/c".toList,
           .membership_test CGROUP_TYPE_LEGACY "/".toList]) ∧
    (member "/c".toList = true →
      (traverse_cgroup_path env "/a/b/c".toList CGROUP_TYPE_LEGACY info).found = true ∧
      (traverse_cgroup_path env "/a/b/c".toList CGROUP_TYPE_LEGACY info).info
        = { info with version := CGROUP_TYPE_LEGACY, cgmem_path := some "/c".toList,
                      cgmem_mount := some cgmount } ∧
      (traverse_cgroup_path env "/a/b/c".toList CGROUP_TYPE_LEGACY info).events
        = [.mount_lookup CGROUP_TYPE_LEGACY,
           .membership_test CGROUP_TYPE_LEGACY "/a/b/c".toList,
           .membership_test CGROUP_TYPE_LEGACY "/b/c".toList,
           .membership_test CGROUP_TYPE_LEGACY "/c".toList]) := by
  have hc : walk_candidates "/a/b/c".toList.length "/a/b/c".toList
      = ["/a/b/c".toList, "/b/c".toList, "/c".toList, "/".toList] := by decide
  rw [traverse_cgroup_path_eq env _ _ info cgmount (by decide) hmount, hc]
  subst hmember
  refine ⟨rfl, ?_, ?_⟩
  · intro h3 h4
    simp only [List.find?_cons, List.takeWhile_cons, h1, h2, h3, h4, List.find?_nil,
      List.takeWhile_nil, Bool.not_false, if_true]
    exact ⟨trivial, trivial, rfl⟩
  · intro h3
    simp only [List.find?_cons, List.takeWhile_cons, h1, h2, h3, Bool.not_false, if_true,
      Bool.not_true, Bool.false_eq_true, if_false]
    exact ⟨trivial, trivial, rfl⟩

/-- The theorem of C12 in the system where the process is listed only in `/c`. -/
theorem traverse_cgroup_path_abc_witness :
    (traverse_cgroup_path env_member_of_c "/a/b/c".toList CGROUP_TYPE_LEGACY
      info_zero).info.cgmem_path = some "/c".toList := by
  have h := ((traverse_cgroup_path_abc env_member_of_c info_zero
    "/sys/fs/cgroup/memory".toList
    (memcg_process_in_cgroup_tasks env_member_of_c CGROUP_TYPE_LEGACY
      "/sys/fs/cgroup/memory".toList)
    (by decide) rfl (by decide) (by decide)).2.2 (by decide)).2.1
  rw [h]

/-- C13: for every starting path, when a mount of the requested generation exists and no
candidate of the walk is a member, `traverse_cgroup_path` returns 0 with `found = false`
and leaves the structure (version, mount and path included) unchanged; when no mount of
the requested generation exists it returns `ENOENT` with `found = false` and the structure
unchanged, having tested no candidate. -/
theorem traverse_cgroup_path_not_found (env : sysenv) (path : List Char) (cgroup_type : Nat)
    (info : memcg_meminfo) :
    (∀ cgmount, cgroup_mount env.mounts cgroup_type = some cgmount →
      (∀ c ∈ walk_candidates (path.length + 1) path,
        memcg_process_in_cgroup_tasks env cgroup_type cgmount c = false) →
      (traverse_cgroup_path env path cgroup_type info).ret = 0 ∧
      (traverse_cgroup_path env path cgroup_type info).found = false ∧
      (traverse_cgroup_path env path cgroup_type info).info = info) ∧
    (cgroup_mount env.mounts cgroup_type = none →
      traverse_cgroup_path env path cgroup_type info
        = ⟨ENOENT, false, info, [.mount_lookup cgroup_type]⟩) := by
  constructor
  · intro cgmount hmount hnone
    unfold traverse_cgroup_path
    rw [hmount]
    simp only []
    cases hr : (traverse_loop (memcg_process_in_cgroup_tasks env cgroup_type cgmount)
        (path.length + 1) (some path)).1 with
    | none => exact ⟨rfl, rfl, rfl⟩
    | some c =>
      obtain ⟨hm, p, hp, hc⟩ := traverse_loop_found _ _ _ c hr
      simp only [Option.some.injEq] at hp
      rw [← hp] at hc
      rw [hnone c hc] at hm
      exact absurd hm (by decide)
  · intro hmount
    unfold traverse_cgroup_path
    rw [hmount]

/-- The theorem of C13 in the system where the process is listed only in `/a`: no
candidate of the walk from `/a/b/c` is a member, and the structure is left as it was. -/
theorem traverse_cgroup_path_not_found_witness :
    cgroup_mount env_member_of_a.mounts CGROUP_TYPE_LEGACY
      = some "/sys/fs/cgroup/memory".toList ∧
    (traverse_cgroup_path env_member_of_a "/a/b/c".toList CGROUP_TYPE_LEGACY info_zero).ret = 0 ∧
    (traverse_cgroup_path env_member_of_a "/a/b/c".toList CGROUP_TYPE_LEGACY info_zero).found
      = false ∧
    (traverse_cgroup_path env_member_of_a "/a/b/c".toList CGROUP_TYPE_LEGACY info_zero).info
      = info_zero :=
  ⟨by decide,
    (traverse_cgroup_path_not_found env_member_of_a "/a/b/c".toList CGROUP_TYPE_LEGACY
      info_zero).1 "/sys/fs/cgroup/memory".toList (by decide) (by decide)⟩

/-! ## The order of the walks and of the reads -/

theorem traverse_cgroup_path_events (env : sysenv) (path : List Char) (cgroup_type : Nat)
    (info : memcg_meminfo) :
    ∃ tested, (traverse_cgroup_path env path cgroup_type info).events
      = .mount_lookup cgroup_type :: List.map (.membership_test cgroup_type) tested := by
  unfold traverse_cgroup_path
  cases cgroup_mount env.mounts cgroup_type with
  | none => exact ⟨[], rfl⟩
  | some cgmount =>
    simp only []
    split
    · exact ⟨_, rfl⟩
    · exact ⟨_, rfl⟩

theorem traverse_cgroup_path_info (env : sysenv) (path : List Char) (cgroup_type : Nat)
    (info : memcg_meminfo) :
    ((traverse_cgroup_path env path cgroup_type info).found = false →
      (traverse_cgroup_path env path cgroup_type info).info = info) ∧
    ((traverse_cgroup_path env path cgroup_type info).found = true →
      (traverse_cgroup_path env path cgroup_type info).info.version = cgroup_type) := by
  unfold traverse_cgroup_path
  cases cgroup_mount env.mounts cgroup_type with
  | none => exact ⟨fun _ => rfl, fun h => absurd h (by simp)⟩
  | some cgmount =>
    simp only []
    split
    · exact ⟨fun h => absurd h (by simp), fun _ => rfl⟩
    · exact ⟨fun _ => rfl, fun h => absurd h (by simp)⟩

theorem memcg_read_metric_version (fs : FileSystem) (info : memcg_meminfo)
    (m : memcg_metric_type) : (memcg_read_metric fs info m).2.version = info.version := by
  unfold memcg_read_metric
  split
  · rfl
  · split
    · rfl
    · exact memcg_store_metric_version _ _ _ _

theorem memcg_read_all_events_version (fs : FileSystem) (info : memcg_meminfo) :
    (memcg_read_all_events fs info).2.1.version = info.version := by
  unfold memcg_read_all_events
  simp only []
  split
  · exact memcg_read_metric_version _ _ _
  · split
    · rw [memcg_read_metric_version, memcg_read_metric_version]
    · split
      · rw [memcg_read_metric_version, memcg_read_metric_version, memcg_read_metric_version]
      · split
        · rw [memcg_read_metric_version, memcg_read_metric_version,
            memcg_read_metric_version, memcg_read_metric_version]
        · rw [memcg_read_metric_version, memcg_read_metric_version,
            memcg_read_metric_version, memcg_read_metric_version, memcg_read_metric_version]

theorem memcg_read_all_events_metric (fs : FileSystem) (info : memcg_meminfo) :
    ∀ e ∈ (memcg_read_all_events fs info).2.2, ∃ m, e = .metric_read m := by
  unfold memcg_read_all_events
  simp only []
  intro e he
  split at he
  · simp only [List.mem_cons, List.mem_singleton, List.not_mem_nil, or_false] at he
    exact ⟨_, he⟩
  · split at he
    · simp only [List.mem_cons, List.not_mem_nil, or_false] at he
      rcases he with h | h <;> exact ⟨_, h⟩
    · split at he
      · simp only [List.mem_cons, List.not_mem_nil, or_false] at he
        rcases he with h | h | h <;> exact ⟨_, h⟩
      · split at he
        · simp only [List.mem_cons, List.not_mem_nil, or_false] at he
          rcases he with h | h | h | h <;> exact ⟨_, h⟩
        · simp only [List.mem_cons, List.not_mem_nil, or_false] at he
          rcases he with h | h | h | h | h <;> exact ⟨_, h⟩

theorem memcg_get_memory_info_parsed (env : sysenv) (info : memcg_meminfo)
    (paths : cgroup_paths) (hparse : parse_thread_cgroup_paths env.fs = (0, paths)) :
    memcg_get_memory_info env info = memcg_locate_and_read env info paths := by
  unfold memcg_get_memory_info
  rw [hparse]
  simp

theorem legacy_walk_events (env : sysenv) (info : memcg_meminfo)
    (v1_path : Option (List Char)) :
    ∀ e ∈ (legacy_walk env info v1_path).events,
      e = .mount_lookup CGROUP_TYPE_LEGACY ∨ ∃ c, e = .membership_test CGROUP_TYPE_LEGACY c := by
  intro e he
  cases v1_path with
  | none => simp [legacy_walk] at he
  | some p =>
    obtain ⟨tested, ht⟩ := traverse_cgroup_path_events env p CGROUP_TYPE_LEGACY info
    simp only [legacy_walk] at he
    rw [ht] at he
    rcases List.mem_cons.mp he with h | h
    · exact Or.inl h
    · obtain ⟨c, _, hc⟩ := List.mem_map.mp h
      exact Or.inr ⟨c, hc.symm⟩

theorem legacy_walk_info (env : sysenv) (info : memcg_meminfo) (v1_path : Option (List Char)) :
    ((legacy_walk env info v1_path).found = false → (legacy_walk env info v1_path).info = info) ∧
    ((legacy_walk env info v1_path).found = true →
      (legacy_walk env info v1_path).info.version = CGROUP_TYPE_LEGACY) := by
  cases v1_path with
  | none => exact ⟨fun _ => rfl, fun h => absurd h (by simp [legacy_walk])⟩
  | some p => exact traverse_cgroup_path_info env p CGROUP_TYPE_LEGACY info

/-- The unified walk is performed exactly when the legacy walk found nothing and there is
a v2 path. -/
theorem unified_walk_performed (env : sysenv) (info : memcg_meminfo) (paths : cgroup_paths) :
    Event.mount_lookup CGROUP_TYPE_UNIFIED
        ∈ (unified_walk env (legacy_walk env info paths.v1_path) paths.v2_path).events ↔
      (legacy_walk env info paths.v1_path).found = false ∧ paths.v2_path.isSome = true := by
  have hleg := legacy_walk_events env info paths.v1_path
  have hnot : Event.mount_lookup CGROUP_TYPE_UNIFIED
      ∉ (legacy_walk env info paths.v1_path).events := by
    intro h
    rcases hleg _ h with h' | ⟨c, h'⟩
    · exact absurd h' (by decide)
    · exact Event.noConfusion h'
  unfold unified_walk
  cases hf : (legacy_walk env info paths.v1_path).found with
  | true =>
    simp only [Bool.true_eq_false, false_and, iff_false]
    exact hnot
  | false =>
    cases hv : paths.v2_path with
    | none =>
      simp only [Option.isSome_none, Bool.false_eq_true, and_false, iff_false]
      exact hnot
    | some p2 =>
      simp only [Option.isSome_some, and_self, iff_true]
      obtain ⟨tested, ht⟩ := traverse_cgroup_path_events env p2 CGROUP_TYPE_UNIFIED
        (legacy_walk env info paths.v1_path).info
      rw [ht]
      simp

/-- C14: in `memcg_get_memory_info` with the paths parsed: (a) if the legacy walk finds a
cgroup, the location has version Legacy, no mount lookup and no membership test of the
unified generation happens, and the result is the same whatever the v2 path is; (b) the
unified walk is performed exactly when the legacy walk found nothing and a v2 path exists,
and the legacy walk finds nothing when there is no v1 path or no legacy memory mount;
(c) if neither walk finds a cgroup the function returns `ENOENT`, leaves the structure
unchanged and reads no metric. -/
theorem memcg_get_memory_info_walk_order (env : sysenv) (info : memcg_meminfo)
    (paths : cgroup_paths) (hparse : parse_thread_cgroup_paths env.fs = (0, paths)) :
    ((legacy_walk env info paths.v1_path).found = true →
      (memcg_get_memory_info env info).2.1.version = CGROUP_TYPE_LEGACY ∧
      (∀ e ∈ (memcg_get_memory_info env info).2.2,
        e ≠ .mount_lookup CGROUP_TYPE_UNIFIED ∧
        ∀ c, e ≠ .membership_test CGROUP_TYPE_UNIFIED c) ∧
      (∀ v2_path, memcg_locate_and_read env info ⟨paths.v1_path, v2_path⟩
        = memcg_get_memory_info env info)) ∧
    (Event.mount_lookup CGROUP_TYPE_UNIFIED ∈ (memcg_get_memory_info env info).2.2 ↔
      (legacy_walk env info paths.v1_path).found = false ∧ paths.v2_path.isSome = true) ∧
    (paths.v1_path = none → (legacy_walk env info paths.v1_path).found = false) ∧
    (cgroup_mount env.mounts CGROUP_TYPE_LEGACY = none →
      (legacy_walk env info paths.v1_path).found = false) ∧
    ((unified_walk env (legacy_walk env info paths.v1_path) paths.v2_path).found = false →
      (memcg_get_memory_info env info).1 = ENOENT ∧
      (memcg_get_memory_info env info).2.1 = info ∧
      ∀ m, Event.metric_read m ∉ (memcg_get_memory_info env info).2.2) := by
  rw [memcg_get_memory_info_parsed env info paths hparse]
  have hleg := legacy_walk_events env info paths.v1_path
  have hinfo := legacy_walk_info env info paths.v1_path
  refine ⟨?_, ?_, ?_, ?_, ?_⟩
  · intro hfound
    have hw : ∀ v2 : Option (List Char),
        unified_walk env (legacy_walk env info paths.v1_path) v2
          = legacy_walk env info paths.v1_path := by
      intro v2
      unfold unified_walk
      rw [hfound]
    have hloc : ∀ v2 : Option (List Char),
        memcg_locate_and_read env info ⟨paths.v1_path, v2⟩
          = ((memcg_read_all_events env.fs (legacy_walk env info paths.v1_path).info).1,
             (memcg_read_all_events env.fs (legacy_walk env info paths.v1_path).info).2.1,
             (legacy_walk env info paths.v1_path).events
               ++ (memcg_read_all_events env.fs
                    (legacy_walk env info paths.v1_path).info).2.2) := by
      intro v2
      unfold memcg_locate_and_read
      simp only [hw, hfound, Bool.not_true, Bool.false_eq_true, if_false]
    have hself : memcg_locate_and_read env info paths
        = memcg_locate_and_read env info ⟨paths.v1_path, paths.v2_path⟩ := rfl
    rw [hself, hloc paths.v2_path]
    refine ⟨?_, ?_, fun v2 => hloc v2⟩
    · simp only []
      rw [memcg_read_all_events_version]
      exact hinfo.2 hfound
    · intro e he
      simp only [List.mem_append] at he
      rcases he with he | he
      · rcases hleg e he with h | ⟨c, h⟩
        · rw [h]
          exact ⟨by decide, fun c => Event.noConfusion⟩
        · rw [h]
          refine ⟨Event.noConfusion, ?_⟩
          intro c' hc
          injection hc with hv _
          exact absurd hv (by decide)
      · obtain ⟨m, hm⟩ := memcg_read_all_events_metric _ _ e he
        rw [hm]
        exact ⟨Event.noConfusion, fun c => Event.noConfusion⟩
  · rw [← unified_walk_performed env info paths]
    unfold memcg_locate_and_read
    simp only []
    split
    · rfl
    · simp only [List.mem_append]
      constructor
      · rintro (h | h)
        · exact h
        · obtain ⟨m, hm⟩ := memcg_read_all_events_metric _ _ _ h
          exact Event.noConfusion hm
      · intro h; exact Or.inl h
  · intro h
    rw [h]
    rfl
  · intro h
    cases hv : paths.v1_path with
    | none => rfl
    | some p =>
      simp only [legacy_walk, traverse_cgroup_path, h]
  · intro hnf
    unfold memcg_locate_and_read
    simp only [hnf, Bool.not_false, if_true]
    refine ⟨trivial, ?_, ?_⟩
    · unfold unified_walk at hnf ⊢
      cases hf : (legacy_walk env info paths.v1_path).found with
      | true =>
        rw [hf] at hnf
        simp only [] at hnf
        rw [hf] at hnf
        exact absurd hnf (by decide)
      | false =>
        cases hv : paths.v2_path with
        | none => exact hinfo.1 hf
        | some p2 =>
          rw [hf, hv] at hnf
          simp only [] at hnf ⊢
          rw [(traverse_cgroup_path_info env p2 CGROUP_TYPE_UNIFIED _).1 hnf]
          exact hinfo.1 hf
    · intro m hm
      unfold unified_walk at hm
      cases hf : (legacy_walk env info paths.v1_path).found with
      | true =>
        rw [hf] at hm
        simp only [] at hm
        rcases hleg _ hm with h | ⟨c, h⟩ <;> exact Event.noConfusion h
      | false =>
        cases hv : paths.v2_path with
        | none =>
          rw [hf, hv] at hm
          simp only [] at hm
          rcases hleg _ hm with h | ⟨c, h⟩ <;> exact Event.noConfusion h
        | some p2 =>
          rw [hf, hv] at hm
          simp only [List.mem_append] at hm
          rcases hm with hm | hm
          · rcases hleg _ hm with h | ⟨c, h⟩ <;> exact Event.noConfusion h
          · obtain ⟨tested, ht⟩ := traverse_cgroup_path_events env p2 CGROUP_TYPE_UNIFIED
              (legacy_walk env info paths.v1_path).info
            rw [ht] at hm
            rcases List.mem_cons.mp hm with h | h
            · exact Event.noConfusion h
            · obtain ⟨c, _, hc⟩ := List.mem_map.mp h
              exact Event.noConfusion hc

/-- The theorem of C14 on the legacy system: the legacy walk finds `/a`, the location is
Legacy and the unified walk is not performed although a v2 path exists. -/
theorem memcg_get_memory_info_walk_order_witness :
    parse_thread_cgroup_paths (env_legacy true).fs = (0, ⟨some "/a".toList, some "/a".toList⟩) ∧
    (legacy_walk (env_legacy true) info_zero (some "/a".toList)).found = true ∧
    (memcg_get_memory_info (env_legacy true) info_zero).2.1.version = CGROUP_TYPE_LEGACY ∧
    Event.mount_lookup CGROUP_TYPE_UNIFIED
      ∉ (memcg_get_memory_info (env_legacy true) info_zero).2.2 :=
  ⟨by decide, by decide,
    ((memcg_get_memory_info_walk_order (env_legacy true) info_zero
      ⟨some "/a".toList, some "/a".toList⟩ (by decide)).1 (by decide)).1,
    fun h => absurd (((memcg_get_memory_info_walk_order (env_legacy true) info_zero
      ⟨some "/a".toList, some "/a".toList⟩ (by decide)).2.1.mp h).1) (by decide)⟩

theorem memcg_read_all_events_eq (fs : FileSystem) (info : memcg_meminfo) :
    ((memcg_read_all_events fs info).1, (memcg_read_all_events fs info).2.1)
      = memcg_read_all fs info := by
  unfold memcg_read_all_events memcg_read_all
  simp only []
  generalize memcg_read_metric fs info .MEMCG_MEMORY_LIMIT = r1
  generalize memcg_read_metric fs r1.2 .MEMCG_MEMORY_CURRENT = r2
  generalize memcg_read_metric fs r2.2 .MEMCG_SWAP_LIMIT = r3
  generalize memcg_read_metric fs r3.2 .MEMCG_SWAP_CURRENT = r4
  generalize memcg_read_metric fs r4.2 .MEMCG_MEMORY_STAT = r5
  split
  · rfl
  · split
    · rfl
    · split
      · rfl
      · split
        · rfl
        · rfl

/-- The reads of `memcg_read_all_events` stop at the first one that fails. -/
theorem memcg_read_all_events_fail_fast (fs : FileSystem) (info : memcg_meminfo) :
    ∃ n, 1 ≤ n ∧ n ≤ 5 ∧
      (memcg_read_all_events fs info).2.2 = (five_metrics.take n).map Event.metric_read ∧
      (∀ k, k + 1 < n → read_code fs info k = 0) ∧
      (memcg_read_all_events fs info).1 = read_code fs info (n - 1) ∧
      (n < 5 → (memcg_read_all_events fs info).1 ≠ 0) ∧
      (memcg_read_all_events fs info).2.1 = reads_after fs info (five_metrics.take n) := by
  have c0 : read_code fs info 0 = (memcg_read_metric fs info .MEMCG_MEMORY_LIMIT).1 := rfl
  have c1 : read_code fs info 1 = (memcg_read_metric fs
      (memcg_read_metric fs info .MEMCG_MEMORY_LIMIT).2 .MEMCG_MEMORY_CURRENT).1 := rfl
  have c2 : read_code fs info 2 = (memcg_read_metric fs (memcg_read_metric fs
      (memcg_read_metric fs info .MEMCG_MEMORY_LIMIT).2 .MEMCG_MEMORY_CURRENT).2
      .MEMCG_SWAP_LIMIT).1 := rfl
  have c3 : read_code fs info 3 = (memcg_read_metric fs (memcg_read_metric fs
      (memcg_read_metric fs (memcg_read_metric fs info .MEMCG_MEMORY_LIMIT).2
        .MEMCG_MEMORY_CURRENT).2 .MEMCG_SWAP_LIMIT).2 .MEMCG_SWAP_CURRENT).1 := rfl
  have c4 : read_code fs info 4 = (memcg_read_metric fs (memcg_read_metric fs
      (memcg_read_metric fs (memcg_read_metric fs (memcg_read_metric fs info
        .MEMCG_MEMORY_LIMIT).2 .MEMCG_MEMORY_CURRENT).2 .MEMCG_SWAP_LIMIT).2
        .MEMCG_SWAP_CURRENT).2 .MEMCG_MEMORY_STAT).1 := rfl
  have e1 : reads_after fs info (five_metrics.take 1)
      = (memcg_read_metric fs info .MEMCG_MEMORY_LIMIT).2 := rfl
  have e2 : reads_after fs info (five_metrics.take 2) = (memcg_read_metric fs
      (memcg_read_metric fs info .MEMCG_MEMORY_LIMIT).2 .MEMCG_MEMORY_CURRENT).2 := rfl
  have e3 : reads_after fs info (five_metrics.take 3) = (memcg_read_metric fs
      (memcg_read_metric fs (memcg_read_metric fs info .MEMCG_MEMORY_LIMIT).2
        .MEMCG_MEMORY_CURRENT).2 .MEMCG_SWAP_LIMIT).2 := rfl
  have e4 : reads_after fs info (five_metrics.take 4) = (memcg_read_metric fs
      (memcg_read_metric fs (memcg_read_metric fs (memcg_read_metric fs info
        .MEMCG_MEMORY_LIMIT).2 .MEMCG_MEMORY_CURRENT).2 .MEMCG_SWAP_LIMIT).2
        .MEMCG_SWAP_CURRENT).2 := rfl
  have e5 : reads_after fs info (five_metrics.take 5) = (memcg_read_metric fs
      (memcg_read_metric fs (memcg_read_metric fs (memcg_read_metric fs (memcg_read_metric fs
        info .MEMCG_MEMORY_LIMIT).2 .MEMCG_MEMORY_CURRENT).2 .MEMCG_SWAP_LIMIT).2
        .MEMCG_SWAP_CURRENT).2 .MEMCG_MEMORY_STAT).2 := rfl
  have v1 : (five_metrics.take 1).map Event.metric_read
      = [.metric_read .MEMCG_MEMORY_LIMIT] := rfl
  have v2 : (five_metrics.take 2).map Event.metric_read
      = [.metric_read .MEMCG_MEMORY_LIMIT, .metric_read .MEMCG_MEMORY_CURRENT] := rfl
  have v3 : (five_metrics.take 3).map Event.metric_read
      = [.metric_read .MEMCG_MEMORY_LIMIT, .metric_read .MEMCG_MEMORY_CURRENT,
          .metric_read .MEMCG_SWAP_LIMIT] := rfl
  have v4 : (five_metrics.take 4).map Event.metric_read
      = [.metric_read .MEMCG_MEMORY_LIMIT, .metric_read .MEMCG_MEMORY_CURRENT,
          .metric_read .MEMCG_SWAP_LIMIT, .metric_read .MEMCG_SWAP_CURRENT] := rfl
  have v5 : (five_metrics.take 5).map Event.metric_read
      = [.metric_read .MEMCG_MEMORY_LIMIT, .metric_read .MEMCG_MEMORY_CURRENT,
          .metric_read .MEMCG_SWAP_LIMIT, .metric_read .MEMCG_SWAP_CURRENT,
          .metric_read .MEMCG_MEMORY_STAT] := rfl
  unfold memcg_read_all_events
  simp only []
  generalize memcg_read_metric fs info .MEMCG_MEMORY_LIMIT = r1 at c0 c1 c2 c3 c4 e1 e2 e3 e4 e5 ⊢
  generalize memcg_read_metric fs r1.2 .MEMCG_MEMORY_CURRENT = r2 at c1 c2 c3 c4 e2 e3 e4 e5 ⊢
  generalize memcg_read_metric fs r2.2 .MEMCG_SWAP_LIMIT = r3 at c2 c3 c4 e3 e4 e5 ⊢
  generalize memcg_read_metric fs r3.2 .MEMCG_SWAP_CURRENT = r4 at c3 c4 e4 e5 ⊢
  generalize memcg_read_metric fs r4.2 .MEMCG_MEMORY_STAT = r5 at c4 e5 ⊢
  by_cases h1 : r1.1 ≠ 0
  · rw [if_pos h1]
    refine ⟨1, by omega, by omega, v1.symm, fun k hk => by omega, c0.symm, fun _ => h1,
      e1.symm⟩
  · rw [if_neg h1]
    by_cases h2 : r2.1 ≠ 0
    · rw [if_pos h2]
      refine ⟨2, by omega, by omega, v2.symm, ?_, c1.symm, fun _ => h2, e2.symm⟩
      intro k hk
      have hk0 : k = 0 := by omega
      rw [hk0, c0]
      exact not_not.mp h1
    · rw [if_neg h2]
      by_cases h3 : r3.1 ≠ 0
      · rw [if_pos h3]
        refine ⟨3, by omega, by omega, v3.symm, ?_, c2.symm, fun _ => h3, e3.symm⟩
        intro k hk
        have hk' : k = 0 ∨ k = 1 := by omega
        rcases hk' with rfl | rfl
        · rw [c0]; exact not_not.mp h1
        · rw [c1]; exact not_not.mp h2
      · rw [if_neg h3]
        by_cases h4 : r4.1 ≠ 0
        · rw [if_pos h4]
          refine ⟨4, by omega, by omega, v4.symm, ?_, c3.symm, fun _ => h4, e4.symm⟩
          intro k hk
          have hk' : k = 0 ∨ k = 1 ∨ k = 2 := by omega
          rcases hk' with rfl | rfl | rfl
          · rw [c0]; exact not_not.mp h1
          · rw [c1]; exact not_not.mp h2
          · rw [c2]; exact not_not.mp h3
        · rw [if_neg h4]
          refine ⟨5, by omega, by omega, v5.symm, ?_, c4.symm, fun h => by omega, e5.symm⟩
          intro k hk
          have hk' : k = 0 ∨ k = 1 ∨ k = 2 ∨ k = 3 := by omega
          rcases hk' with rfl | rfl | rfl | rfl
          · rw [c0]; exact not_not.mp h1
          · rw [c1]; exact not_not.mp h2
          · rw [c2]; exact not_not.mp h3
          · rw [c3]; exact not_not.mp h4

/-- C15: once a cgroup is confirmed, `memcg_get_memory_info` reads the metrics in the order
memory limit, memory current, swap limit, swap current, stat: it performs the first `n` of
the five reads, all but the last of them return 0, and it returns the return value of the
last one, which is not 0 when `n < 5`; so it returns 0 if and only if all five reads
return 0, and otherwise the code of the first failing read, with no read after it. -/
theorem memcg_get_memory_info_fail_fast (env : sysenv) (info : memcg_meminfo)
    (paths : cgroup_paths) (w : traverse_result)
    (hparse : parse_thread_cgroup_paths env.fs = (0, paths))
    (hw : w = unified_walk env (legacy_walk env info paths.v1_path) paths.v2_path)
    (hfound : w.found = true) :
    (∃ n, 1 ≤ n ∧ n ≤ 5 ∧
      (memcg_get_memory_info env info).2.2
        = w.events ++ (five_metrics.take n).map Event.metric_read ∧
      (∀ k, k + 1 < n → read_code env.fs w.info k = 0) ∧
      (memcg_get_memory_info env info).1 = read_code env.fs w.info (n - 1) ∧
      (n < 5 → (memcg_get_memory_info env info).1 ≠ 0) ∧
      (memcg_get_memory_info env info).2.1 = reads_after env.fs w.info (five_metrics.take n)) ∧
    ((memcg_get_memory_info env info).1 = 0 ↔ ∀ k, k < 5 → read_code env.fs w.info k = 0) := by
  have hr : memcg_get_memory_info env info
      = ((memcg_read_all_events env.fs w.info).1, (memcg_read_all_events env.fs w.info).2.1,
          w.events ++ (memcg_read_all_events env.fs w.info).2.2) := by
    rw [memcg_get_memory_info_parsed env info paths hparse]
    unfold memcg_locate_and_read
    simp only [← hw, hfound, Bool.not_true, Bool.false_eq_true, if_false]
  obtain ⟨n, hn1, hn5, hev, hbefore, hret, hlt, hinfo⟩ :=
    memcg_read_all_events_fail_fast env.fs w.info
  rw [hr]
  constructor
  · exact ⟨n, hn1, hn5, by rw [hev], hbefore, hret, hlt, hinfo⟩
  · simp only []
    constructor
    · intro h0 k hk
      have hn : n = 5 := by
        by_contra hne
        exact hlt (by omega) h0
      by_cases hk4 : k + 1 < n
      · exact hbefore k hk4
      · have : k = n - 1 := by omega
        rw [this, ← hret]
        exact h0
    · intro hall
      rw [hret]
      exact hall (n - 1) (by omega)

/-- The theorem of C15 on the legacy system without `memory.stat`: four reads succeed, the
fifth fails with `ENOENT`, which is returned. -/
theorem memcg_get_memory_info_fail_fast_witness :
    (memcg_get_memory_info (env_legacy false) info_zero).1 = ENOENT ∧
    ((memcg_get_memory_info (env_legacy false) info_zero).1 = 0 ↔
      ∀ k, k < 5 → read_code (env_legacy false).fs
        (unified_walk (env_legacy false)
          (legacy_walk (env_legacy false) info_zero (some "/a".toList))
          (some "/a".toList)).info k = 0) :=
  ⟨by decide,
    (memcg_get_memory_info_fail_fast (env_legacy false) info_zero
      ⟨some "/a".toList, some "/a".toList⟩ _ (by decide) rfl (by decide)).2⟩

/-! ## The rewriter: MemFree -/

theorem startswith_memfree_not_memtotal (line : List Char)
    (h : startswith line "MemFree:" = true) : startswith line "MemTotal:" = false := by
  unfold startswith at h ⊢
  have h8 : (cstr line).take 8 = "MemFree:".toList := beq_iff_eq.mp h
  cases h9 : ((cstr line).take "MemTotal:".length == "MemTotal:".toList) with
  | false => rfl
  | true =>
    have h9' : (cstr line).take 9 = "MemTotal:".toList := beq_iff_eq.mp h9
    have : ((cstr line).take 9).take 8 = (cstr line).take 8 := by
      rw [List.take_take]
      rfl
    rw [h9', h8] at this
    exact absurd this (by decide)

theorem rewrite_line_memfree (data : memcg_data) (vars : rewrite_vars) (line : List Char)
    (h : startswith line "MemFree:" = true) :
    rewrite_line data vars line
      = (vars, snprintf_kb "MemFree:        "
          (ul_sub vars.memlimit (data.memory_current / BYTES_TO_KB))) := by
  have h0 := startswith_memfree_not_memtotal line h
  unfold rewrite_line
  simp only []
  rw [if_neg (by rw [h0]; decide), if_pos h]

theorem rewrite_vars_after_append (data : memcg_data) (vars : rewrite_vars)
    (a b : List (List Char)) :
    rewrite_vars_after data vars (a ++ b)
      = rewrite_vars_after data (rewrite_vars_after data vars a) b := by
  unfold rewrite_vars_after
  rw [List.foldl_append]

/-- C20: for every host report, a line starting with `MemFree:` that comes after a line
starting with `MemTotal:` (the last such line before it) is rewritten to a `MemFree:` line
whose value is the value `v` emitted on that `MemTotal:` line minus
`memory_current div 1024`, in unsigned 64-bit arithmetic. -/
theorem meminfo_memfree_value (data : memcg_data) (meminfo : List Char) (i j : Nat)
    (line_i line_j : List Char) (hij : i < j)
    (hi : (getlines meminfo)[i]? = some line_i) (hj : (getlines meminfo)[j]? = some line_j)
    (hti : startswith line_i "MemTotal:" = true)
    (hfj : startswith line_j "MemFree:" = true)
    (hbetween : ∀ k l, i < k → k < j → (getlines meminfo)[k]? = some l →
      startswith l "MemTotal:" = false) :
    ∃ v, (meminfo_rewritten data meminfo)[i]? = some (snprintf_kb "MemTotal:       " v) ∧
      (meminfo_rewritten data meminfo)[j]?
        = some (snprintf_kb "MemFree:        " (ul_sub v (data.memory_current / 1024))) ∧
      ul_sub v (data.memory_current / 1024)
        = (v + (2 ^ 64 - data.memory_current / 1024 % 2 ^ 64)) % 2 ^ 64 := by
  unfold meminfo_rewritten
  rw [rewrite_lines_getElem? data _ _ i line_i hi, rewrite_lines_getElem? data _ _ j line_j hj]
  have htake : (getlines meminfo).take j
      = ((getlines meminfo).take i ++ [line_i])
          ++ ((getlines meminfo).drop (i + 1)).take (j - (i + 1)) := by
    have hj' : j = (i + 1) + (j - (i + 1)) := by omega
    conv_lhs => rw [hj']
    rw [List.take_add, List.take_succ, hi]
    rfl
  have hmid : ∀ l ∈ ((getlines meminfo).drop (i + 1)).take (j - (i + 1)),
      startswith l "MemTotal:" = false := by
    intro l hl
    obtain ⟨n, hn⟩ := List.getElem?_of_mem hl
    have hlt : n < j - (i + 1) := by
      by_contra hge
      rw [List.getElem?_take_eq_none (by omega)] at hn
      exact Option.noConfusion hn
    rw [List.getElem?_take_of_lt hlt, List.getElem?_drop] at hn
    exact hbetween (i + 1 + n) l (by omega) (by omega) hn
  have hvars : (rewrite_vars_after data (rewrite_init data) ((getlines meminfo).take j)).memlimit
      = (rewrite_line data (rewrite_vars_after data (rewrite_init data)
          ((getlines meminfo).take i)) line_i).1.memlimit := by
    rw [htake, rewrite_vars_after_append, rewrite_vars_after_memlimit data _ _ hmid,
      rewrite_vars_after_append]
    rfl
  rw [rewrite_line_memfree data _ line_j hfj, hvars,
    rewrite_line_memtotal data _ line_i hti]
  exact ⟨_, rfl, rfl, rfl⟩

/-- The theorem of C20 on a limit of 2 GiB with 1 MiB in use: `MemTotal` shows 2097152 kB
and `MemFree` 2096128 kB. -/
theorem meminfo_memfree_value_witness :
    ∃ v, (meminfo_rewritten ⟨2147483648, 1048576, 0, 0, memory_stat.zero⟩
        "MemTotal:       16384000 kB\nMemFree:         1234 kB\n".toList)[0]?
        = some (snprintf_kb "MemTotal:       " v) ∧
      (meminfo_rewritten ⟨2147483648, 1048576, 0, 0, memory_stat.zero⟩
        "MemTotal:       16384000 kB\nMemFree:         1234 kB\n".toList)[1]?
        = some (snprintf_kb "MemFree:        " (ul_sub v (1048576 / 1024))) ∧
      ul_sub v (1048576 / 1024) = (v + (2 ^ 64 - 1048576 / 1024 % 2 ^ 64)) % 2 ^ 64 :=
  meminfo_memfree_value ⟨2147483648, 1048576, 0, 0, memory_stat.zero⟩
    "MemTotal:       16384000 kB\nMemFree:         1234 kB\n".toList 0 1
    "MemTotal:       16384000 kB\n".toList "MemFree:         1234 kB\n".toList
    (by decide) (by decide) (by decide) (by decide) (by decide)
    (fun k l h1 h2 _ => absurd h2 (by omega))

/-! ## The rewriter: one branch per label -/

theorem recognised_labels_no_overlap : ∀ a ∈ recognised_labels, ∀ b ∈ recognised_labels,
    a.toList <+: b.toList → a = b := by
  decide

theorem startswith_iff (line : List Char) (lab : String) :
    startswith line lab = true ↔ lab.toList <+: cstr line := by
  unfold startswith
  rw [beq_iff_eq, List.prefix_iff_eq_take]
  have : lab.length = lab.toList.length := rfl
  rw [this]
  constructor <;> (intro h; exact h.symm)

/-- A line begins with at most one of the recognised labels. -/
theorem startswith_other (line : List Char) (lab : String) (hlab : lab ∈ recognised_labels)
    (h : startswith line lab = true) :
    ∀ other ∈ recognised_labels, other ≠ lab → ¬ (startswith line other = true) := by
  intro other ho hne hs
  rw [startswith_iff] at h hs
  rcases List.prefix_or_prefix_of_prefix h hs with hp | hp
  · exact hne (recognised_labels_no_overlap lab hlab other ho hp).symm
  · exact hne (recognised_labels_no_overlap other ho lab hlab hp)

/-- The branch of a line that reports one counter. -/
theorem rewrite_line_counter (data : memcg_data) (vars : rewrite_vars) (line : List Char) :
    ∀ e ∈ counter_lines, startswith line e.1 = true →
      rewrite_line data vars line
        = (vars, snprintf_kb e.2.1 (e.2.2 data.memory_stat / 1024)) := by
  intro e he h
  simp only [counter_lines, List.mem_cons, List.mem_singleton, List.not_mem_nil,
    or_false] at he
  rcases he with rfl | rfl | rfl | rfl | rfl | rfl | rfl | rfl | rfl | rfl | rfl | rfl | rfl
    | rfl | rfl | rfl
  all_goals
    have hne := startswith_other line _ (by decide) h
    unfold rewrite_line
    simp only []
    repeat (first
      | rw [if_pos h]
      | rw [if_neg (hne _ (by decide) (by decide))])
    try rfl

/-- The branch of a line that always reports zero. -/
theorem rewrite_line_zero (data : memcg_data) (vars : rewrite_vars) (line : List Char) :
    ∀ e ∈ zero_lines, startswith line e.1 = true →
      rewrite_line data vars line = (vars, snprintf_kb e.2 0) := by
  intro e he h
  simp only [zero_lines, List.mem_cons, List.mem_singleton, List.not_mem_nil,
    or_false] at he
  rcases he with rfl | rfl | rfl | rfl
  all_goals
    have hne := startswith_other line _ (by decide) h
    unfold rewrite_line
    simp only []
    repeat (first
      | rw [if_pos h]
      | rw [if_neg (hne _ (by decide) (by decide))])
    try rfl

/-- The branch of a line that begins with `AnonPages:`. -/
theorem rewrite_line_anonpages (data : memcg_data) (vars : rewrite_vars) (line : List Char)
    (h : startswith line "AnonPages:" = true) :
    rewrite_line data vars line
      = (vars, snprintf_kb "AnonPages:      "
          (ul_sub (ul_add data.memory_stat.total_active_anon
              data.memory_stat.total_inactive_anon) data.memory_stat.total_shmem / 1024)) := by
  have hne := startswith_other line _ (by decide) h
  unfold rewrite_line
  simp only []
  repeat (first
    | rw [if_pos h]
    | rw [if_neg (hne _ (by decide) (by decide))])
  try rfl

theorem ul_add_small (a b : Nat) (h : a + b < 2 ^ 64) : ul_add a b = a + b := by
  unfold ul_add ULONG_SIZE
  exact Nat.mod_eq_of_lt h

theorem ul_sub_small (a b : Nat) (ha : a < 2 ^ 64) (hb : b ≤ a) : ul_sub a b = a - b := by
  unfold ul_sub ULONG_SIZE
  have h1 : b % 2 ^ 64 = b := Nat.mod_eq_of_lt (by omega)
  rw [h1]
  omega

theorem ul_add_lt (a b : Nat) : ul_add a b < 2 ^ 64 := by
  unfold ul_add ULONG_SIZE
  exact Nat.mod_lt _ (by decide)

theorem ul_sub_lt (a b : Nat) : ul_sub a b < 2 ^ 64 := by
  unfold ul_sub ULONG_SIZE
  exact Nat.mod_lt _ (by decide)

/-! ## The rewriter: the counters -/

/-- C25: for every snapshot and host report, a line that begins with `Buffers:`,
`SwapCached:`, `ShmemHugePages:` or `ShmemPmdMapped:` is rewritten to the line of that
label with the value 0, whatever the host line holds. -/
theorem meminfo_zero_lines (data : memcg_data) (meminfo : List Char) (i : Nat)
    (line : List Char) (hline : (getlines meminfo)[i]? = some line) :
    (∀ e ∈ zero_lines, startswith line e.1 = true →
      (meminfo_rewritten data meminfo)[i]? = some (snprintf_kb e.2 0)) ∧
    snprintf_kb "Buffers:        " 0 = "Buffers:               0 kB\n".toList ∧
    snprintf_kb "SwapCached:     " 0 = "SwapCached:            0 kB\n".toList ∧
    snprintf_kb "ShmemHugePages: " 0 = "ShmemHugePages:        0 kB\n".toList ∧
    snprintf_kb "ShmemPmdMapped: " 0 = "ShmemPmdMapped:        0 kB\n".toList := by
  refine ⟨?_, by decide, by decide, by decide, by decide⟩
  intro e he hstart
  unfold meminfo_rewritten
  rw [rewrite_lines_getElem? data _ _ i line hline, rewrite_line_zero data _ line e he hstart]

/-- The theorem of C25 on the example: the host's 99 kB of buffers become 0. -/
theorem meminfo_zero_lines_witness :
    (meminfo_rewritten example_data example_meminfo.toList)[3]?
      = some (snprintf_kb "Buffers:        " 0) :=
  (meminfo_zero_lines example_data example_meminfo.toList 3
    "Buffers:           99 kB\n".toList (by decide)).1
    ("Buffers:", "Buffers:        ") (by decide) (by decide)

/-- C26: for every stat snapshot and host report, a line that begins with one of the
labels `Cached:`, `Shmem:`, `Mapped:`, `Dirty:`, `Writeback:`, `Active(anon):`,
`Inactive(anon):`, `Active(file):`, `Inactive(file):`, `Unevictable:`, `AnonHugePages:`,
`Slab:`, `SReclaimable:`, `SUnreclaim:` is rewritten to the line of that label with its
counter divided by 1024, and `Active:` and `Inactive:` with the sum of the anon and file
counters (in `unsigned long`, the plain sum when it is below `2^64`) divided by 1024;
nothing of the host line but its label enters the result. -/
theorem meminfo_counter_lines (data : memcg_data) (meminfo : List Char) (i : Nat)
    (line : List Char) (hline : (getlines meminfo)[i]? = some line) :
    (∀ e ∈ counter_lines, startswith line e.1 = true →
      (meminfo_rewritten data meminfo)[i]?
        = some (snprintf_kb e.2.1 (e.2.2 data.memory_stat / 1024))) ∧
    (∀ a b : Nat, a + b < 2 ^ 64 → ul_add a b = a + b) := by
  refine ⟨?_, ul_add_small⟩
  intro e he hstart
  unfold meminfo_rewritten
  rw [rewrite_lines_getElem? data _ _ i line hline,
    rewrite_line_counter data _ line e he hstart]

/-- The theorem of C26 on the example: `Cached` shows 1048576 div 1024 = 1024 and `Active`
shows (1048576 + 524288) div 1024 = 1536. -/
theorem meminfo_counter_lines_witness :
    (meminfo_rewritten example_data example_meminfo.toList)[4]?
      = some "Cached:             1024 kB\n".toList ∧
    (meminfo_rewritten example_data example_meminfo.toList)[8]?
      = some "Active:             1536 kB\n".toList := by
  have h1 := (meminfo_counter_lines example_data example_meminfo.toList 4
    "Cached:           100 kB\n".toList (by decide)).1
    ("Cached:", "Cached:         ", memory_stat.total_cache) (by simp [counter_lines])
    (by decide)
  have h2 := (meminfo_counter_lines example_data example_meminfo.toList 8
    "Active:            55 kB\n".toList (by decide)).1
    ("Active:", "Active:         ",
      fun s => ul_add s.total_active_anon s.total_active_file) (by simp [counter_lines])
    (by decide)
  rw [h1, h2]
  exact ⟨by decide, by decide⟩

/-! ## The rewriter: the locals between two lines -/

theorem take_split_at {α : Type} (lines : List α) (i j : Nat) (x : α) (hij : i < j)
    (hi : lines[i]? = some x) :
    lines.take j = (lines.take i ++ [x]) ++ (lines.drop (i + 1)).take (j - (i + 1)) := by
  have hj' : j = (i + 1) + (j - (i + 1)) := by omega
  conv_lhs => rw [hj']
  rw [List.take_add, List.take_succ, hi]
  rfl

theorem mem_between {α : Type} (lines : List α) (i j : Nat) (l : α)
    (hl : l ∈ (lines.drop (i + 1)).take (j - (i + 1))) :
    ∃ k, i < k ∧ k < j ∧ lines[k]? = some l := by
  obtain ⟨n, hn⟩ := List.getElem?_of_mem hl
  have hlt : n < j - (i + 1) := by
    by_contra hge
    rw [List.getElem?_take_eq_none (by omega)] at hn
    exact Option.noConfusion hn
  rw [List.getElem?_take_of_lt hlt, List.getElem?_drop] at hn
  exact ⟨i + 1 + n, by omega, by omega, hn⟩

/-- After a `MemTotal:` line and lines that are not, `memlimit` is what that line left. -/
theorem memlimit_after_memtotal (data : memcg_data) (vars : rewrite_vars)
    (lines : List (List Char)) (i j : Nat) (line_i : List Char) (hij : i < j)
    (hi : lines[i]? = some line_i)
    (hbetween : ∀ k l, i < k → k < j → lines[k]? = some l →
      startswith l "MemTotal:" = false) :
    (rewrite_vars_after data vars (lines.take j)).memlimit
      = (rewrite_line data (rewrite_vars_after data vars (lines.take i)) line_i).1.memlimit := by
  have hmid : ∀ l ∈ (lines.drop (i + 1)).take (j - (i + 1)),
      startswith l "MemTotal:" = false := by
    intro l hl
    obtain ⟨k, h1, h2, h3⟩ := mem_between lines i j l hl
    exact hbetween k l h1 h2 h3
  rw [take_split_at lines i j line_i hij hi, rewrite_vars_after_append,
    rewrite_vars_after_memlimit data _ _ hmid, rewrite_vars_after_append]
  rfl

theorem rewrite_line_swaptotal (data : memcg_data) (vars : rewrite_vars) (line : List Char)
    (h : startswith line "SwapTotal:" = true) :
    rewrite_line data vars line
      = ({ vars with swtotal :=
            if sscanf_lu_or_zero line 10 < vars.swtotal then sscanf_lu_or_zero line 10
            else vars.swtotal },
          snprintf_kb "SwapTotal:      "
            (if sscanf_lu_or_zero line 10 < vars.swtotal then sscanf_lu_or_zero line 10
            else vars.swtotal)) := by
  have hne := startswith_other line _ (by decide) h
  unfold rewrite_line
  simp only []
  repeat (first
    | rw [if_pos h]
    | rw [if_neg (hne _ (by decide) (by decide))])
  try rfl

theorem rewrite_line_swapfree (data : memcg_data) (vars : rewrite_vars) (line : List Char)
    (h : startswith line "SwapFree:" = true) :
    rewrite_line data vars line
      = ({ vars with swfree := ul_sub vars.swtotal (data.swap_current / BYTES_TO_KB) },
          snprintf_kb "SwapFree:       "
            (ul_sub vars.swtotal (data.swap_current / BYTES_TO_KB))) := by
  have hne := startswith_other line _ (by decide) h
  unfold rewrite_line
  simp only []
  repeat (first
    | rw [if_pos h]
    | rw [if_neg (hne _ (by decide) (by decide))])
  try rfl

theorem rewrite_line_memavailable (data : memcg_data) (vars : rewrite_vars)
    (line : List Char) (h : startswith line "MemAvailable:" = true) :
    rewrite_line data vars line
      = (vars, snprintf_kb "MemAvailable:   "
          (ul_add (ul_sub vars.memlimit (data.memory_current / BYTES_TO_KB))
            (ul_add (ul_add data.memory_stat.total_active_file
                data.memory_stat.total_inactive_file)
              data.memory_stat.slab_reclaimable / BYTES_TO_KB))) := by
  have hne := startswith_other line _ (by decide) h
  unfold rewrite_line
  simp only []
  repeat (first
    | rw [if_pos h]
    | rw [if_neg (hne _ (by decide) (by decide))])
  try rfl

theorem ite_swtotal (c : Prop) [Decidable c] (a b : rewrite_vars × List Char) (m : Nat)
    (ha : a.1.swtotal = m) (hb : b.1.swtotal = m) :
    (if c then a else b).1.swtotal = m := by
  split <;> assumption

/-- Only a `SwapTotal:` line changes `swtotal`. -/
theorem rewrite_line_swtotal (data : memcg_data) (vars : rewrite_vars) (line : List Char)
    (h : startswith line "SwapTotal:" = false) :
    (rewrite_line data vars line).1.swtotal = vars.swtotal := by
  unfold rewrite_line
  simp only []
  apply ite_swtotal
  · rfl
  apply ite_swtotal
  · rfl
  apply ite_swtotal
  · rfl
  rw [if_neg (by rw [h]; decide)]
  repeat' (first | rfl | apply ite_swtotal)

theorem rewrite_vars_after_swtotal (data : memcg_data) : ∀ (lines : List (List Char))
    (vars : rewrite_vars), (∀ l ∈ lines, startswith l "SwapTotal:" = false) →
    (rewrite_vars_after data vars lines).swtotal = vars.swtotal := by
  intro lines
  induction lines with
  | nil => intro vars _; rfl
  | cons l ls ih =>
    intro vars h
    simp only [rewrite_vars_after, List.foldl_cons]
    have := ih (rewrite_line data vars l).1 (fun x hx => h x (by simp [hx]))
    simp only [rewrite_vars_after] at this
    rw [this, rewrite_line_swtotal data vars l (h l (by simp))]

/-- After a `SwapTotal:` line and lines that are not, `swtotal` is what that line left. -/
theorem swtotal_after_swaptotal (data : memcg_data) (vars : rewrite_vars)
    (lines : List (List Char)) (i j : Nat) (line_i : List Char) (hij : i < j)
    (hi : lines[i]? = some line_i)
    (hbetween : ∀ k l, i < k → k < j → lines[k]? = some l →
      startswith l "SwapTotal:" = false) :
    (rewrite_vars_after data vars (lines.take j)).swtotal
      = (rewrite_line data (rewrite_vars_after data vars (lines.take i)) line_i).1.swtotal := by
  have hmid : ∀ l ∈ (lines.drop (i + 1)).take (j - (i + 1)),
      startswith l "SwapTotal:" = false := by
    intro l hl
    obtain ⟨k, h1, h2, h3⟩ := mem_between lines i j l hl
    exact hbetween k l h1 h2 h3
  rw [take_split_at lines i j line_i hij hi, rewrite_vars_after_append,
    rewrite_vars_after_swtotal data _ _ hmid, rewrite_vars_after_append]
  rfl

theorem mem_take_lt {α : Type} (lines : List α) (i : Nat) (l : α) (hl : l ∈ lines.take i) :
    ∃ j, j < i ∧ lines[j]? = some l := by
  obtain ⟨n, hn⟩ := List.getElem?_of_mem hl
  have hlt : n < i := by
    by_contra hge
    rw [List.getElem?_take_eq_none (by omega)] at hn
    exact Option.noConfusion hn
  rw [List.getElem?_take_of_lt hlt] at hn
  exact ⟨n, hlt, hn⟩

theorem scan_lu_lt (s : List Char) (r : Nat × List Char) (h : scan_lu s = some r) :
    r.1 < 2 ^ 64 := by
  unfold scan_lu at h
  simp only [] at h
  split_ifs at h
  all_goals
    simp only [Option.some.injEq] at h
    rw [← h]
    simp only [ULONG_MAX, ULONG_SIZE] at *
    omega

theorem sscanf_lu_or_zero_lt (line : List Char) (skip : Nat) :
    sscanf_lu_or_zero line skip < 2 ^ 64 := by
  unfold sscanf_lu_or_zero
  split
  · rename_i v rest h
    exact scan_lu_lt _ _ h
  · decide

/-! ## The rewriter: MemAvailable, SwapTotal and SwapFree -/

/-- C21: for every snapshot and host report in which a `MemTotal:` line precedes a
`MemFree:` line and a `MemAvailable:` line (and is the last `MemTotal:` line before
either), the rewritten `MemAvailable:` line carries the value of the rewritten `MemFree:`
line plus `(active_file + inactive_file + slab_reclaimable) div 1024`, the counters being
those of the cgroup and every sum and difference being taken modulo `2^64`. -/
theorem meminfo_memavailable_value (data : memcg_data) (meminfo : List Char) (i j k : Nat)
    (line_i line_j line_k : List Char) (hij : i < j) (hik : i < k)
    (hi : (getlines meminfo)[i]? = some line_i) (hj : (getlines meminfo)[j]? = some line_j)
    (hk : (getlines meminfo)[k]? = some line_k)
    (hti : startswith line_i "MemTotal:" = true)
    (hfj : startswith line_j "MemFree:" = true)
    (hak : startswith line_k "MemAvailable:" = true)
    (hbetween : ∀ n l, i < n → n < max j k → (getlines meminfo)[n]? = some l →
      startswith l "MemTotal:" = false) :
    ∃ v free, (meminfo_rewritten data meminfo)[i]? = some (snprintf_kb "MemTotal:       " v) ∧
      free = ul_sub v (data.memory_current / 1024) ∧
      (meminfo_rewritten data meminfo)[j]? = some (snprintf_kb "MemFree:        " free) ∧
      (meminfo_rewritten data meminfo)[k]?
        = some (snprintf_kb "MemAvailable:   "
            (ul_add free
              (ul_add (ul_add data.memory_stat.total_active_file
                  data.memory_stat.total_inactive_file)
                data.memory_stat.slab_reclaimable / 1024))) ∧
      ∀ a b : Nat, ul_add a b = (a + b) % 2 ^ 64 := by
  unfold meminfo_rewritten
  rw [rewrite_lines_getElem? data _ _ i line_i hi,
    rewrite_lines_getElem? data _ _ j line_j hj, rewrite_lines_getElem? data _ _ k line_k hk,
    rewrite_line_memfree data _ line_j hfj, rewrite_line_memavailable data _ line_k hak,
    memlimit_after_memtotal data _ _ i j line_i hij hi
      (fun n l h1 h2 h3 => hbetween n l h1 (by omega) h3),
    memlimit_after_memtotal data _ _ i k line_i hik hi
      (fun n l h1 h2 h3 => hbetween n l h1 (by omega) h3),
    rewrite_line_memtotal data _ line_i hti]
  exact ⟨_, _, rfl, rfl, rfl, rfl, fun _ _ => rfl⟩

/-- The theorem of C21 on the example: `MemFree` shows 2097152 - 1024 = 2096128 and
`MemAvailable` shows 2096128 + (524288 + 524288 + 131072) div 1024 = 2097280. -/
theorem meminfo_memavailable_value_witness :
    ∃ v free, (meminfo_rewritten example_data example_meminfo.toList)[0]?
        = some (snprintf_kb "MemTotal:       " v) ∧
      free = ul_sub v (example_data.memory_current / 1024) ∧
      (meminfo_rewritten example_data example_meminfo.toList)[1]?
        = some (snprintf_kb "MemFree:        " free) ∧
      (meminfo_rewritten example_data example_meminfo.toList)[2]?
        = some (snprintf_kb "MemAvailable:   "
            (ul_add free
              (ul_add (ul_add example_data.memory_stat.total_active_file
                  example_data.memory_stat.total_inactive_file)
                example_data.memory_stat.slab_reclaimable / 1024))) ∧
      ∀ a b : Nat, ul_add a b = (a + b) % 2 ^ 64 :=
  meminfo_memavailable_value example_data example_meminfo.toList 0 1 2
    "MemTotal:       16384000 kB\n".toList "MemFree:         1234 kB\n".toList
    "MemAvailable:    5678 kB\n".toList (by decide) (by decide) (by decide) (by decide)
    (by decide) (by decide) (by decide) (by decide)
    (fun n l h1 h2 h3 => by
      have hn : n = 1 := by
        have : max 1 2 = 2 := rfl
        omega
      subst hn
      have hl : l = "MemFree:         1234 kB\n".toList :=
        (Option.some.inj ((show (getlines example_meminfo.toList)[1]?
          = some "MemFree:         1234 kB\n".toList by decide).symm.trans h3)).symm
      subst hl
      decide)

/-- C22: for every swap limit and every host report, each line that starts with
`SwapTotal:` is rewritten to a `SwapTotal:` line whose value is at most the number `sscanf`
reads from the host line, and on the first such line of the report that value is the lesser
of `swap_limit div 1024` and the host's number. -/
theorem meminfo_swaptotal_value (data : memcg_data) (meminfo : List Char) (i : Nat)
    (line : List Char) (hline : (getlines meminfo)[i]? = some line)
    (hstart : startswith line "SwapTotal:" = true) :
    (∃ v, (meminfo_rewritten data meminfo)[i]? = some (snprintf_kb "SwapTotal:      " v) ∧
      v ≤ sscanf_lu_or_zero line 10) ∧
    ((∀ j l, j < i → (getlines meminfo)[j]? = some l → startswith l "SwapTotal:" = false) →
      (meminfo_rewritten data meminfo)[i]?
        = some (snprintf_kb "SwapTotal:      "
            (min (data.swap_limit / 1024) (sscanf_lu_or_zero line 10)))) := by
  unfold meminfo_rewritten
  rw [rewrite_lines_getElem? data _ _ i line hline, rewrite_line_swaptotal data _ line hstart]
  constructor
  · refine ⟨_, rfl, ?_⟩
    generalize sscanf_lu_or_zero line 10 = host
    generalize (rewrite_vars_after data (rewrite_init data)
      (List.take i (getlines meminfo))).swtotal = m
    split_ifs <;> omega
  · intro hfirst
    have hbefore : ∀ l ∈ (getlines meminfo).take i, startswith l "SwapTotal:" = false := by
      intro l hl
      obtain ⟨j, hj, hjl⟩ := mem_take_lt _ i l hl
      exact hfirst j l hj hjl
    rw [rewrite_vars_after_swtotal data _ _ hbefore]
    have hinit : (rewrite_init data).swtotal = data.swap_limit / 1024 := rfl
    rw [hinit]
    have key : ∀ host lim : Nat, (if host < lim then host else lim) = min lim host := by
      intro host lim
      rw [Nat.min_def]
      split_ifs <;> omega
    rw [key]

/-- The theorem of C22 on the example: the swap limit of 1024 kB is below the host's 2048 kB,
so `SwapTotal` shows 1024. -/
theorem meminfo_swaptotal_value_witness :
    (meminfo_rewritten example_data example_meminfo.toList)[5]?
      = some "SwapTotal:          1024 kB\n".toList := by
  have h := (meminfo_swaptotal_value example_data example_meminfo.toList 5
    "SwapTotal:        2048 kB\n".toList (by decide) (by decide)).2
    (by
      intro j l hj hl
      have hj5 : j = 0 ∨ j = 1 ∨ j = 2 ∨ j = 3 ∨ j = 4 := by omega
      have h0 : (getlines example_meminfo.toList).take 5
          = ["MemTotal:       16384000 kB\n".toList, "MemFree:         1234 kB\n".toList,
             "MemAvailable:    5678 kB\n".toList, "Buffers:           99 kB\n".toList,
             "Cached:           100 kB\n".toList] := by decide
      have hmem : l ∈ (getlines example_meminfo.toList).take 5 := by
        apply List.mem_iff_getElem?.mpr
        exact ⟨j, by rw [List.getElem?_take_of_lt hj]; exact hl⟩
      rw [h0] at hmem
      simp only [List.mem_cons, List.mem_singleton, List.not_mem_nil, or_false] at hmem
      rcases hmem with rfl | rfl | rfl | rfl | rfl <;> decide)
  rw [h]
  decide

theorem kb_heads_layout : ∀ e ∈ kb_heads, e.1 ∈ recognised_labels ∧
    e.2.toList = e.1.toList ++ List.replicate (16 - e.1.length) ' ' ∧ e.2.length = 16 := by
  decide

theorem recognised_labels_cases : ∀ lab ∈ recognised_labels,
    lab = "MemTotal:" ∨ lab = "MemFree:" ∨ lab = "MemAvailable:" ∨ lab = "SwapTotal:" ∨
    lab = "SwapFree:" ∨ lab = "AnonPages:" ∨ (∃ e ∈ zero_lines, e.1 = lab) ∨
    (∃ e ∈ counter_lines, e.1 = lab) := by
  decide

theorem counter_lines_lt (s : memory_stat) (h : ∀ f : StatField, s.get f < 2 ^ 64) :
    ∀ e ∈ counter_lines, e.2.2 s < 2 ^ 64 := by
  intro e he
  simp only [counter_lines, List.mem_cons, List.mem_singleton, List.not_mem_nil,
    or_false] at he
  rcases he with rfl | rfl | rfl | rfl | rfl | rfl | rfl | rfl | rfl | rfl | rfl | rfl | rfl
    | rfl | rfl | rfl
  · exact h .total_cache
  · exact h .total_shmem
  · exact h .total_mapped_file
  · exact h .total_dirty
  · exact h .total_writeback
  · exact h .total_active_anon
  · exact h .total_inactive_anon
  · exact h .total_active_file
  · exact h .total_inactive_file
  · exact h .total_unevictable
  · exact h .total_rss_huge
  · exact h .slab
  · exact h .slab_reclaimable
  · exact h .slab_unreclaimable
  · exact ul_add_lt _ _
  · exact ul_add_lt _ _

/-- With a head of 16 characters and an `unsigned long`, the 100 bytes of `lbuf` hold the
whole formatted line. -/
theorem snprintf_kb_fits (head : String) (v : Nat) (hh : head.length = 16)
    (hv : v < 2 ^ 64) :
    snprintf_kb head v = head.toList ++ fmt_lu8 v ++ " kB\n".toList := by
  unfold snprintf_kb
  apply List.take_of_length_le
  have h1 := toDigits_length_le v hv
  have h2 : head.toList.length = 16 := hh
  have h3 : " kB\n".toList.length = 4 := rfl
  rw [List.length_append, List.length_append, h2, h3]
  unfold fmt_lu8
  rw [List.length_append, List.length_replicate]
  omega

/-- The locals `memlimit` and `swtotal` stay `unsigned long` across a line. -/
theorem rewrite_line_vars_lt (data : memcg_data) (vars : rewrite_vars) (line : List Char)
    (hm : vars.memlimit < 2 ^ 64) (hs : vars.swtotal < 2 ^ 64) :
    (rewrite_line data vars line).1.memlimit < 2 ^ 64 ∧
    (rewrite_line data vars line).1.swtotal < 2 ^ 64 := by
  constructor
  · cases h : startswith line "MemTotal:" with
    | false => rw [rewrite_line_memlimit data vars line h]; exact hm
    | true =>
      rw [rewrite_line_memtotal data vars line h]
      have hhost := sscanf_lu_or_zero_lt line 9
      simp only []
      split_ifs <;> omega
  · cases h : startswith line "SwapTotal:" with
    | false => rw [rewrite_line_swtotal data vars line h]; exact hs
    | true =>
      rw [rewrite_line_swaptotal data vars line h]
      have hhost := sscanf_lu_or_zero_lt line 10
      simp only []
      split_ifs <;> omega

theorem rewrite_vars_after_lt (data : memcg_data) : ∀ (lines : List (List Char))
    (vars : rewrite_vars), vars.memlimit < 2 ^ 64 → vars.swtotal < 2 ^ 64 →
    (rewrite_vars_after data vars lines).memlimit < 2 ^ 64 ∧
    (rewrite_vars_after data vars lines).swtotal < 2 ^ 64 := by
  intro lines
  induction lines with
  | nil => intro vars hm hs; exact ⟨hm, hs⟩
  | cons l ls ih =>
    intro vars hm hs
    have h := rewrite_line_vars_lt data vars l hm hs
    exact ih (rewrite_line data vars l).1 h.1 h.2

/-- A line that begins with a recognised label becomes the format of that label filled
with an `unsigned long`. -/
theorem rewrite_line_layout (data : memcg_data) (vars : rewrite_vars) (line : List Char)
    (lab : String) (hlab : lab ∈ recognised_labels) (h : startswith line lab = true)
    (hd : data.is_ulong) (hm : vars.memlimit < 2 ^ 64) (hs : vars.swtotal < 2 ^ 64) :
    ∃ head v, (lab, head) ∈ kb_heads ∧ v < 2 ^ 64 ∧
      (rewrite_line data vars line).2 = snprintf_kb head v := by
  rcases recognised_labels_cases lab hlab with rfl | rfl | rfl | rfl | rfl | rfl
    | ⟨e, he, rfl⟩ | ⟨e, he, rfl⟩
  · rw [rewrite_line_memtotal data vars line h]
    refine ⟨"MemTotal:       ", _, by decide, ?_, rfl⟩
    have hhost := sscanf_lu_or_zero_lt line 9
    split_ifs <;> omega
  · rw [rewrite_line_memfree data vars line h]
    exact ⟨"MemFree:        ", _, by decide, ul_sub_lt _ _, rfl⟩
  · rw [rewrite_line_memavailable data vars line h]
    exact ⟨"MemAvailable:   ", _, by decide, ul_add_lt _ _, rfl⟩
  · rw [rewrite_line_swaptotal data vars line h]
    refine ⟨"SwapTotal:      ", _, by decide, ?_, rfl⟩
    have hhost := sscanf_lu_or_zero_lt line 10
    split_ifs <;> omega
  · rw [rewrite_line_swapfree data vars line h]
    exact ⟨"SwapFree:       ", _, by decide, ul_sub_lt _ _, rfl⟩
  · rw [rewrite_line_anonpages data vars line h]
    exact ⟨"AnonPages:      ", _, by decide,
      lt_of_le_of_lt (Nat.div_le_self _ _) (ul_sub_lt _ _), rfl⟩
  · rw [rewrite_line_zero data vars line e he h]
    exact ⟨e.2, 0, List.mem_append.mpr (Or.inl (List.mem_append.mpr (Or.inr he))),
      by norm_num, rfl⟩
  · rw [rewrite_line_counter data vars line e he h]
    exact ⟨e.2.1, _, List.mem_append.mpr (Or.inr (List.mem_map.mpr ⟨e, he, rfl⟩)),
      lt_of_le_of_lt (Nat.div_le_self _ _) (counter_lines_lt _ hd.2.2 e he), rfl⟩

/-- C27: for every snapshot of `unsigned long` numbers and every host report, a line that
begins with a recognised label is rewritten to the head of that label (the label with its
colon, padded with blanks to 16 columns), then the decimal value padded with blanks on the
left to at least 8 characters, then ` kB` and a newline; and for the host line
`MemTotal:       16384000 kB` with a memory limit of 2 GiB the output line is
`MemTotal:        2097152 kB`. -/
theorem meminfo_line_layout (data : memcg_data) (meminfo : List Char) (i : Nat)
    (line : List Char) (lab : String) (hd : data.is_ulong)
    (hline : (getlines meminfo)[i]? = some line) (hlab : lab ∈ recognised_labels)
    (hstart : startswith line lab = true) :
    (∃ head v, (lab, head) ∈ kb_heads ∧ v < 2 ^ 64 ∧
      head.toList = lab.toList ++ List.replicate (16 - lab.length) ' ' ∧
      (meminfo_rewritten data meminfo)[i]?
        = some (head.toList
            ++ (List.replicate (8 - (Nat.toDigits 10 v).length) ' ' ++ Nat.toDigits 10 v)
            ++ " kB\n".toList)) ∧
    meminfo_rewritten ⟨2147483648, 0, 0, 0, memory_stat.zero⟩
        "MemTotal:       16384000 kB\n".toList
      = ["MemTotal:        2097152 kB\n".toList] := by
  refine ⟨?_, by decide⟩
  have hinit : (rewrite_init data).memlimit < 2 ^ 64 ∧ (rewrite_init data).swtotal < 2 ^ 64 :=
    ⟨lt_of_le_of_lt (Nat.div_le_self _ _) hd.1, lt_of_le_of_lt (Nat.div_le_self _ _) hd.2.1⟩
  have hvars := rewrite_vars_after_lt data ((getlines meminfo).take i) (rewrite_init data)
    hinit.1 hinit.2
  obtain ⟨head, v, hmem, hv, hout⟩ :=
    rewrite_line_layout data _ line lab hlab hstart hd hvars.1 hvars.2
  have hk := kb_heads_layout (lab, head) hmem
  refine ⟨head, v, hmem, hv, hk.2.1, ?_⟩
  unfold meminfo_rewritten
  rw [rewrite_lines_getElem? data _ _ i line hline, hout, snprintf_kb_fits head v hk.2.2 hv]
  rfl

/-- The theorem of C27 on the example: the `SwapFree:` line of the report. -/
theorem meminfo_line_layout_witness :
    ∃ head v, ("SwapFree:", head) ∈ kb_heads ∧ v < 2 ^ 64 ∧
      head.toList = "SwapFree:".toList ++ List.replicate (16 - "SwapFree:".length) ' ' ∧
      (meminfo_rewritten example_data example_meminfo.toList)[6]?
        = some (head.toList
            ++ (List.replicate (8 - (Nat.toDigits 10 v).length) ' ' ++ Nat.toDigits 10 v)
            ++ " kB\n".toList) :=
  (meminfo_line_layout example_data example_meminfo.toList 6
    "SwapFree:         2000 kB\n".toList "SwapFree:"
    ⟨by decide, by decide, fun f => by cases f <;> decide⟩
    (by decide) (by decide) (by decide)).1

/-! ## The rewriter: the size of the buffer -/

/-- The `getline` loop fails with `EOVERFLOW` exactly when the lines do not leave room for
the terminating NUL, and otherwise delivers all of them. -/
theorem read_buf_loop_total (data : memcg_data) (len : Nat) : ∀ (lines : List (List Char))
    (vars : rewrite_vars) (out : List Char), out.length < len →
    (len ≤ out.length + (rewrite_lines data vars lines).flatten.length →
      (read_buf_loop data len lines vars out).1 = EOVERFLOW) ∧
    (out.length + (rewrite_lines data vars lines).flatten.length < len →
      read_buf_loop data len lines vars out
        = (0, out ++ (rewrite_lines data vars lines).flatten)) := by
  intro lines
  induction lines with
  | nil =>
    intro vars out hout
    simp only [rewrite_lines, List.flatten_nil, List.length_nil, Nat.add_zero,
      List.append_nil, read_buf_loop]
    exact ⟨fun h => absurd h (by omega), fun _ => trivial⟩
  | cons l ls ih =>
    intro vars out hout
    simp only [rewrite_lines, List.flatten_cons, List.length_append, read_buf_loop]
    by_cases hc : len - out.length ≤ (rewrite_line data vars l).2.length
    · rw [if_pos hc]
      exact ⟨fun _ => rfl, fun h => absurd h (by omega)⟩
    · rw [if_neg hc]
      have hout2 : (out ++ (rewrite_line data vars l).2).length < len := by
        rw [List.length_append]
        omega
      have := ih (rewrite_line data vars l).1 (out ++ (rewrite_line data vars l).2) hout2
      rw [List.length_append] at this
      constructor
      · intro h
        exact this.1 (by omega)
      · intro h
        rw [this.2 (by omega), List.append_assoc]

/-- C28: given a confirmed snapshot (`memcg_get_memory_info` returned 0), a buffer of
`len > 0` bytes and a readable host report whose rewritten lines have total length `L`,
`cgroup_meminfo_read_buf` returns `EOVERFLOW` if and only if `L >= len`; otherwise it
returns 0 and the buffer holds, as a C string, exactly the rewritten lines one after the
other, the terminating NUL at offset `L` lying inside the buffer. -/
theorem cgroup_meminfo_read_buf_overflow (fs : FileSystem) (cg : Nat × memcg_meminfo)
    (old : List Char) (len : Int) (meminfo : List Char) (hcg : cg.1 = 0) (hlen : 0 < len)
    (hfile : fs "/proc/meminfo".toList = .ok meminfo) :
    ((cgroup_meminfo_read_buf fs cg (some old) len).1 = EOVERFLOW ↔
      len ≤ ((meminfo_rewritten cg.2.cgmem_data meminfo).flatten.length : Int)) ∧
    (((meminfo_rewritten cg.2.cgmem_data meminfo).flatten.length : Int) < len →
      cgroup_meminfo_read_buf fs cg (some old) len
          = (0, some (meminfo_rewritten cg.2.cgmem_data meminfo).flatten) ∧
        ((meminfo_rewritten cg.2.cgmem_data meminfo).flatten.length : Int) + 1 ≤ len) := by
  obtain ⟨n, rfl⟩ := Int.eq_ofNat_of_zero_le (le_of_lt hlen)
  have hn : 0 < n := by omega
  have hrun : cgroup_meminfo_read_buf fs cg (some old) (n : Int)
      = ((read_buf_loop cg.2.cgmem_data n (getlines meminfo)
            (rewrite_init cg.2.cgmem_data) []).1,
          some (read_buf_loop cg.2.cgmem_data n (getlines meminfo)
            (rewrite_init cg.2.cgmem_data) []).2) := by
    unfold cgroup_meminfo_read_buf
    simp only []
    rw [if_neg (by omega), if_neg (by rw [hcg]; exact fun h => h rfl), hfile]
    rfl
  have hloop := read_buf_loop_total cg.2.cgmem_data n (getlines meminfo)
    (rewrite_init cg.2.cgmem_data) [] hn
  simp only [List.length_nil, Nat.zero_add, List.nil_append] at hloop
  have hflat : rewrite_lines cg.2.cgmem_data (rewrite_init cg.2.cgmem_data) (getlines meminfo)
      = meminfo_rewritten cg.2.cgmem_data meminfo := rfl
  rw [hflat] at hloop
  rw [hrun]
  refine ⟨⟨?_, ?_⟩, ?_⟩
  · intro h
    by_contra hlt
    have h2 := hloop.2 (by omega)
    rw [h2] at h
    simp [EOVERFLOW] at h
  · intro h
    exact hloop.1 (by omega)
  · intro h
    rw [hloop.2 (by omega)]
    exact ⟨rfl, by omega⟩

/-- The theorem of C28 on a report of two lines, 56 characters once rewritten: a buffer of
56 bytes overflows, one of 57 bytes holds both lines. -/
theorem cgroup_meminfo_read_buf_overflow_witness :
    ((cgroup_meminfo_read_buf
        (fs_of [("/proc/meminfo", "MemTotal:       16384000 kB\nMemFree:         1234 kB\n")])
        (0, info_zero) (some []) 56).1 = EOVERFLOW) ∧
    cgroup_meminfo_read_buf
        (fs_of [("/proc/meminfo", "MemTotal:       16384000 kB\nMemFree:         1234 kB\n")])
        (0, info_zero) (some []) 57
      = (0, some "MemTotal:       16384000 kB\nMemFree:        16384000 kB\n".toList) := by
  have h56 := (cgroup_meminfo_read_buf_overflow
    (fs_of [("/proc/meminfo", "MemTotal:       16384000 kB\nMemFree:         1234 kB\n")])
    (0, info_zero) [] 56 "MemTotal:       16384000 kB\nMemFree:         1234 kB\n".toList
    rfl (by decide) rfl).1
  have h57 := (cgroup_meminfo_read_buf_overflow
    (fs_of [("/proc/meminfo", "MemTotal:       16384000 kB\nMemFree:         1234 kB\n")])
    (0, info_zero) [] 57 "MemTotal:       16384000 kB\nMemFree:         1234 kB\n".toList
    rfl (by decide) rfl).2
  exact ⟨h56.mpr (by decide), (h57 (by decide)).1.trans (by decide)⟩

/-! ## The stat parser: line by line -/

theorem stat_lines_line (cur rest : List Char) (hcur : ∀ c ∈ cur, (c != '\n') = true) :
    stat_lines (cur ++ '\n' :: rest) = cur :: stat_lines rest := by
  induction cur with
  | nil => simp [stat_lines]
  | cons c cs ih =>
    have hc : c ≠ '\n' := by simpa using hcur c (by simp)
    show stat_lines (c :: (cs ++ '\n' :: rest)) = _
    rw [stat_lines, if_neg hc, ih (fun x hx => hcur x (by simp [hx]))]

theorem stat_lines_last (cur : List Char) (hne : cur ≠ [])
    (hcur : ∀ c ∈ cur, (c != '\n') = true) : stat_lines cur = [cur] := by
  induction cur with
  | nil => exact absurd rfl hne
  | cons c cs ih =>
    have hc : c ≠ '\n' := by simpa using hcur c (by simp)
    simp only [stat_lines, if_neg hc]
    cases cs with
    | nil => rfl
    | cons d ds =>
      rw [ih (by simp) (fun x hx => hcur x (by simp [hx]))]

/-- A text is empty, or a last line without newline, or a line, a newline and the rest. -/
theorem line_cases (buf : List Char) :
    buf = [] ∨ (buf ≠ [] ∧ ∀ c ∈ buf, (c != '\n') = true) ∨
    ∃ cur rest, buf = cur ++ '\n' :: rest ∧ ∀ c ∈ cur, (c != '\n') = true := by
  induction buf with
  | nil => exact Or.inl rfl
  | cons c cs ih =>
    right
    by_cases hc : c = '\n'
    · right
      exact ⟨[], cs, by simp [hc], by simp⟩
    · rcases ih with rfl | ⟨_, hall⟩ | ⟨cur, rest, rfl, hcur⟩
      · left
        exact ⟨by simp, by simpa using hc⟩
      · left
        refine ⟨by simp, ?_⟩
        intro x hx
        rcases List.mem_cons.mp hx with rfl | hx
        · simpa using hc
        · exact hall x hx
      · right
        refine ⟨c :: cur, rest, rfl, ?_⟩
        intro x hx
        rcases List.mem_cons.mp hx with rfl | hx
        · simpa using hc
        · exact hcur x hx

/-- The parsing loop runs the body once on each line, in order. -/
theorem parse_stat_loop_lines (v : Nat) : ∀ (fuel : Nat) (buf : List Char) (st : memory_stat),
    buf.length ≤ fuel →
    parse_stat_loop v fuel buf st
      = (stat_lines buf).foldl (fun s l => parse_stat_line v l s) st := by
  intro fuel
  induction fuel with
  | zero =>
    intro buf st h
    have hl : buf = [] := List.length_eq_zero.mp (Nat.le_zero.mp h)
    subst hl
    rfl
  | succ fuel ih =>
    intro buf st h
    rcases line_cases buf with rfl | ⟨hne, hall⟩ | ⟨cur, rest, rfl, hcur⟩
    · rfl
    · rw [parse_stat_loop_last v fuel buf st hne hall, stat_lines_last buf hne hall]
      rfl
    · rw [parse_stat_loop_line v fuel cur rest st hcur, stat_lines_line cur rest hcur,
        List.foldl_cons]
      apply ih
      simp only [List.length_append, List.length_cons] at h
      omega

theorem memcg_parse_memory_stat_lines (buf : List Char) (old : memory_stat) (v : Nat) :
    memcg_parse_memory_stat buf old v
      = (0, (stat_lines (cstr buf)).foldl (fun s l => parse_stat_line v l s)
          memory_stat.zero) := by
  unfold memcg_parse_memory_stat
  rw [parse_stat_loop_lines v _ _ _ (Nat.le_refl _)]

theorem drop_length_takeWhile {α : Type} (p : α → Bool) (l : List α) :
    l.drop (l.takeWhile p).length = l.dropWhile p := by
  have h := List.drop_left (l.takeWhile p) (l.dropWhile p)
  rw [List.takeWhile_append_dropWhile] at h
  exact h

theorem ite_none_some {α : Type} (c : Prop) [Decidable c] (y r : α)
    (h : (if c then none else some y) = some r) : ¬ c := by
  intro hc
  rw [if_pos hc] at h
  exact Option.noConfusion h

theorem takeWhile_digit_nonempty (l : List Char)
    (h : ¬ ((l.takeWhile isdigit).isEmpty = true)) : begins_with_digit l = true := by
  cases l with
  | nil => exact absurd rfl h
  | cons d ds =>
    cases hd : isdigit d with
    | true => exact hd
    | false =>
      rw [List.takeWhile_cons, hd] at h
      exact absurd rfl h

/-- When `%lu` converts, the text begins with an optionally signed decimal integer. -/
theorem scan_lu_begins_signed (s : List Char) (r : Nat × List Char)
    (h : scan_lu s = some r) : begins_signed s = true := by
  unfold scan_lu at h
  simp only [] at h
  have hne := ite_none_some _ _ _ h
  unfold begins_signed
  cases hs1 : s.dropWhile isspace with
  | nil =>
    rw [hs1] at hne
    exact absurd (by decide) hne
  | cons c cs =>
    rw [hs1] at hne
    simp only [List.head?_cons, List.tail_cons] at hne
    by_cases hc : c = '-' ∨ c = '+'
    · have hcb : (some c == some '-' || some c == some '+') = true := by
        rcases hc with rfl | rfl <;> decide
      simp only [if_pos hc]
      rw [if_pos hcb] at hne
      exact takeWhile_digit_nonempty cs hne
    · have hcb : ¬ ((some c == some '-' || some c == some '+') = true) := by
        intro hb
        apply hc
        simpa using hb
      simp only [if_neg hc]
      rw [if_neg hcb] at hne
      exact takeWhile_digit_nonempty (c :: cs) hne

/-- When `sscanf` converts both items and the key has fewer than 63 characters, the key is
the first word of the line and `%lu` converted what follows it. -/
theorem sscanf_key_value_tracked (line k : List Char) (n : Nat)
    (h : sscanf_key_value line = some (k, n)) (hk : k.length < 63) :
    k = first_word line ∧ first_word line ≠ [] ∧
      ∃ rest, scan_lu (after_first_word line) = some (n, rest) := by
  unfold sscanf_key_value at h
  simp only [] at h
  by_cases he : (line.dropWhile isspace).isEmpty = true
  · rw [if_pos he] at h
    exact Option.noConfusion h
  · rw [if_neg he] at h
    have hfw : List.takeWhile (fun c => !isspace c) (List.dropWhile isspace line)
        = first_word line := rfl
    rw [hfw] at h
    have hne : first_word line ≠ [] := by
      unfold first_word
      cases hs : line.dropWhile isspace with
      | nil => rw [hs] at he; exact absurd rfl he
      | cons c cs =>
        have hc := dropWhile_ne_head isspace line c cs hs
        rw [List.takeWhile_cons]
        simp [hc]
    by_cases hlen : (first_word line).length < 63
    · have htake : (first_word line).take 63 = first_word line :=
        List.take_of_length_le (by omega)
      rw [htake] at h
      have hdrop : List.drop (first_word line).length (List.dropWhile isspace line)
          = after_first_word line := drop_length_takeWhile _ _
      rw [hdrop] at h
      cases hs : scan_lu (after_first_word line) with
      | none => rw [hs] at h; exact Option.noConfusion h
      | some r =>
        rw [hs] at h
        simp only [Option.some.injEq, Prod.mk.injEq] at h
        exact ⟨h.1.symm, hne, r.2, by rw [← h.2]⟩
    · exfalso
      have h63 : ((first_word line).take 63).length = 63 := by
        rw [List.length_take]
        omega
      cases hs : scan_lu (List.drop ((first_word line).take 63).length
          (List.dropWhile isspace line)) with
      | none => rw [hs] at h; exact Option.noConfusion h
      | some r =>
        rw [hs] at h
        simp only [Option.some.injEq, Prod.mk.injEq] at h
        rw [← h.1] at hk
        omega

/-- A line whose first word is not followed by an optionally signed integer, or is not a
key of the active generation, leaves the counters as they are. -/
theorem parse_stat_line_skip (v : Nat) (x : List Char) (st : memory_stat)
    (h : key_then_signed x = false ∨ stat_lookup v (first_word x) stat_mappings = none) :
    parse_stat_line v x st = st := by
  unfold parse_stat_line
  cases hs : sscanf_key_value x with
  | none => rfl
  | some r =>
    obtain ⟨k, n⟩ := r
    simp only []
    cases hl : stat_lookup v k stat_mappings with
    | none => rfl
    | some f =>
      exfalso
      have hk := stat_lookup_key_short v k f hl
      obtain ⟨hkw, hne, rest, hscan⟩ := sscanf_key_value_tracked x k n hs hk
      rcases h with h | h
      · have hb := scan_lu_begins_signed _ _ hscan
        unfold key_then_signed at h
        rw [hb] at h
        cases hw : first_word x with
        | nil => exact hne hw
        | cons c cs => rw [hw] at h; simp at h
      · rw [← hkw, hl] at h
        exact Option.noConfusion h

/-- A line whose first word is not the key of a row leaves the counter of that row as it
is. -/
theorem parse_stat_line_get (v : Nat) (l : List Char) (st : memory_stat) (m : stat_mapping)
    (hm : m ∈ stat_mappings) (h : ∀ k, m.key v = some k → first_word l ≠ k) :
    (parse_stat_line v l st).get m.field = st.get m.field := by
  unfold parse_stat_line
  cases hs : sscanf_key_value l with
  | none => rfl
  | some r =>
    obtain ⟨k, n⟩ := r
    simp only []
    cases hl : stat_lookup v k stat_mappings with
    | none => rfl
    | some g =>
      simp only []
      by_cases hg : g = m.field
      · exfalso
        have hk := stat_lookup_key_short v k g hl
        obtain ⟨hkw, _, _, _⟩ := sscanf_key_value_tracked l k n hs hk
        obtain ⟨m2, hm2, hk2, hf2⟩ := stat_lookup_some v k _ g hl
        have hkeys := stat_mappings_field_inj m2 hm2 m hm (hf2.trans hg)
        have hsame : m.key v = some k := by
          rw [← hk2]
          unfold stat_mapping.key
          rw [hkeys.1, hkeys.2]
        exact h k hsame hkw.symm
      · exact memory_stat.get_set_other _ _ _ _ hg

theorem foldl_parse_stat_line_get (v : Nat) (m : stat_mapping) (hm : m ∈ stat_mappings) :
    ∀ (ls : List (List Char)) (st : memory_stat),
    (∀ k, m.key v = some k → ∀ l ∈ ls, first_word l ≠ k) →
    (ls.foldl (fun s l => parse_stat_line v l s) st).get m.field = st.get m.field := by
  intro ls
  induction ls with
  | nil => intro st _; rfl
  | cons l ls ih =>
    intro st h
    rw [List.foldl_cons, ih _ (fun k hk x hx => h k hk x (by simp [hx]))]
    exact parse_stat_line_get v l st m hm (fun k hk => h k hk l (by simp))

theorem parse_stat_line_total_rss (v : Nat) (l : List Char) (st : memory_stat) :
    (parse_stat_line v l st).total_rss = st.total_rss := by
  unfold parse_stat_line
  cases hs : sscanf_key_value l with
  | none => rfl
  | some r =>
    obtain ⟨k, n⟩ := r
    simp only []
    cases hl : stat_lookup v k stat_mappings with
    | none => rfl
    | some g => cases g <;> rfl

theorem foldl_parse_stat_line_total_rss (v : Nat) : ∀ (ls : List (List Char))
    (st : memory_stat),
    (ls.foldl (fun s l => parse_stat_line v l s) st).total_rss = st.total_rss := by
  intro ls
  induction ls with
  | nil => intro st; rfl
  | cons l ls ih =>
    intro st
    rw [List.foldl_cons, ih, parse_stat_line_total_rss]

theorem stat_lines_head_starts : ∀ (buf l : List Char) (ls : List (List Char)),
    stat_lines buf = l :: ls → l <+: buf := by
  intro buf
  induction buf with
  | nil => intro l ls h; exact absurd h (by simp [stat_lines])
  | cons c cs ih =>
    intro l ls h
    rw [stat_lines] at h
    by_cases hc : c = '\n'
    · rw [if_pos hc] at h
      simp only [List.cons.injEq] at h
      rw [← h.1]
      exact List.nil_prefix
    · rw [if_neg hc] at h
      cases hs : stat_lines cs with
      | nil =>
        rw [hs] at h
        simp only [List.cons.injEq] at h
        rw [← h.1]
        exact ⟨cs, rfl⟩
      | cons l0 ls0 =>
        rw [hs] at h
        simp only [List.cons.injEq] at h
        rw [← h.1]
        obtain ⟨t, ht⟩ := ih l0 ls0 hs
        exact ⟨t, by rw [List.cons_append, ht]⟩

/-- Every line the loop visits is a piece of the blob. -/
theorem stat_lines_mem_occurs : ∀ (buf l : List Char), l ∈ stat_lines buf → l <:+: buf := by
  intro buf
  induction buf with
  | nil => intro l h; simp [stat_lines] at h
  | cons c cs ih =>
    intro l h
    rw [stat_lines] at h
    by_cases hc : c = '\n'
    · rw [if_pos hc] at h
      rcases List.mem_cons.mp h with rfl | h
      · exact List.nil_infix
      · exact (ih l h).trans (List.suffix_cons c cs).isInfix
    · rw [if_neg hc] at h
      cases hs : stat_lines cs with
      | nil =>
        rw [hs] at h
        simp only [List.mem_singleton] at h
        rw [h]
        exact (show [c] <+: c :: cs from ⟨cs, rfl⟩).isInfix
      | cons l0 ls0 =>
        rw [hs] at h
        rcases List.mem_cons.mp h with rfl | h
        · obtain ⟨t, ht⟩ := stat_lines_head_starts cs l0 ls0 hs
          exact (show c :: l0 <+: c :: cs from ⟨t, by rw [List.cons_append, ht]⟩).isInfix
        · exact (ih l (by rw [hs]; exact List.mem_cons_of_mem _ h)).trans
            (List.suffix_cons c cs).isInfix

theorem first_word_occurs (l : List Char) : first_word l <:+: l :=
  (List.takeWhile_prefix _).isInfix.trans (List.dropWhile_suffix _).isInfix

theorem stat_lines_ne_nil (c : Char) (cs : List Char) : stat_lines (c :: cs) ≠ [] := by
  rw [stat_lines]
  split
  · simp
  · split <;> simp

/-- The lines of two texts put together, the first of which ends at a line boundary. -/
theorem stat_lines_append : ∀ (pre rest : List Char),
    (pre = [] ∨ pre.getLast? = some '\n') →
    stat_lines (pre ++ rest) = stat_lines pre ++ stat_lines rest := by
  intro pre
  induction pre with
  | nil => intro rest _; rfl
  | cons c cs ih =>
    intro rest h
    have hlast : (c :: cs).getLast? = some '\n' := by
      rcases h with h | h
      · exact absurd h (by simp)
      · exact h
    cases cs with
    | nil =>
      simp only [List.getLast?_singleton, Option.some.injEq] at hlast
      subst hlast
      simp [stat_lines]
    | cons d ds =>
      rw [List.getLast?_cons_cons] at hlast
      have ih2 := ih rest (Or.inr hlast)
      show stat_lines (c :: ((d :: ds) ++ rest)) = _
      rw [stat_lines, stat_lines, ih2]
      by_cases hc : c = '\n'
      · rw [if_pos hc, if_pos hc]
        rfl
      · rw [if_neg hc, if_neg hc]
        cases hs : stat_lines (d :: ds) with
        | nil => exact absurd hs (stat_lines_ne_nil d ds)
        | cons l0 ls0 => rfl

theorem cstr_append_clean (a b : List Char) (ha : ∀ c ∈ a, c ≠ NUL) :
    cstr (a ++ b) = a ++ cstr b := by
  unfold cstr
  induction a with
  | nil => rfl
  | cons c cs ih =>
    have hc : (c != NUL) = true := by simpa using ha c (by simp)
    rw [List.cons_append, List.takeWhile_cons, hc]
    simp only [if_true, List.cons_append, List.cons.injEq, true_and]
    exact ih (fun x hx => ha x (by simp [hx]))

theorem cstr_append_cut (a b : List Char) (ha : ∃ c ∈ a, c = NUL) :
    cstr (a ++ b) = cstr a := by
  unfold cstr
  induction a with
  | nil => obtain ⟨c, hc, _⟩ := ha; simp at hc
  | cons c cs ih =>
    rw [List.cons_append, List.takeWhile_cons, List.takeWhile_cons]
    cases hc : (c != NUL) with
    | false => rfl
    | true =>
      simp only [if_true, List.cons.injEq, true_and]
      apply ih
      obtain ⟨x, hx, hxn⟩ := ha
      rcases List.mem_cons.mp hx with rfl | hx
      · rw [hxn] at hc
        exact absurd hc (by decide)
      · exact ⟨x, hx, hxn⟩

/-! ## The stat parser: absent keys and skipped lines -/

/-- C29: for every stat blob, every generation and every earlier content of the
output structure, a counter whose row has no key in the active generation, or whose key
is not the first word of any line of the blob (in particular when the key does not occur
in the blob at all), is 0 after `memcg_parse_memory_stat`; so is `total_rss`, which has no
row; the call returns 0; and the empty blob yields the all-zero structure. -/
theorem memcg_parse_memory_stat_absent (buf : List Char) (old : memory_stat) (v : Nat)
    (m : stat_mapping) (hm : m ∈ stat_mappings) :
    ((∀ k, m.key v = some k → ∀ l ∈ stat_lines (cstr buf), first_word l ≠ k) →
      (memcg_parse_memory_stat buf old v).2.get m.field = 0) ∧
    ((∀ k, m.key v = some k → strstr (cstr buf) k = false) →
      (memcg_parse_memory_stat buf old v).2.get m.field = 0) ∧
    (memcg_parse_memory_stat buf old v).2.total_rss = 0 ∧
    (memcg_parse_memory_stat buf old v).1 = 0 ∧
    memcg_parse_memory_stat [] old v = (0, memory_stat.zero) := by
  have hzero : memory_stat.zero.get m.field = 0 := by
    generalize m.field = f
    cases f <;> rfl
  have key : (∀ k, m.key v = some k → ∀ l ∈ stat_lines (cstr buf), first_word l ≠ k) →
      (memcg_parse_memory_stat buf old v).2.get m.field = 0 := by
    intro h
    rw [memcg_parse_memory_stat_lines]
    simp only []
    rw [foldl_parse_stat_line_get v m hm _ _ h, hzero]
  refine ⟨key, ?_, ?_, rfl, rfl⟩
  · intro h
    apply key
    intro k hk l hl heq
    have hocc : k <:+: cstr buf := by
      rw [← heq]
      exact (first_word_occurs l).trans (stat_lines_mem_occurs _ l hl)
    have := (strstr_iff_occurs k (cstr buf)).mpr hocc
    rw [h k hk] at this
    exact Bool.noConfusion this
  · rw [memcg_parse_memory_stat_lines]
    simp only []
    rw [foldl_parse_stat_line_total_rss]
    rfl

/-- The theorem of C29 on a legacy blob without `total_shmem`, the output structure
holding 7 in every field before the call: `total_shmem` is 0 afterwards. -/
theorem memcg_parse_memory_stat_absent_witness :
    (memcg_parse_memory_stat "total_cache 1048576\ntotal_rss 2097152\n".toList
      ⟨7, 7, 7, 7, 7, 7, 7, 7, 7, 7, 7, 7, 7, 7, 7⟩ CGROUP_TYPE_LEGACY).2.total_shmem = 0 :=
  (memcg_parse_memory_stat_absent "total_cache 1048576\ntotal_rss 2097152\n".toList
    ⟨7, 7, 7, 7, 7, 7, 7, 7, 7, 7, 7, 7, 7, 7, 7⟩ CGROUP_TYPE_LEGACY
    ⟨some "total_shmem".toList, some "shmem".toList, .total_shmem⟩
    (List.mem_cons_of_mem _ (List.mem_cons_of_mem _ (List.mem_cons_self _ _)))).2.1
    (fun k hk => by
      have hk2 : k = "total_shmem".toList := (Option.some.inj hk).symm
      subst hk2
      decide)

/-- Counterexample to C30: the line `total_cache -5` is not a key followed by an unsigned
integer, yet `%lu` converts `-5` (to `2^64 - 5`), so that inserting the line after
`total_cache 1048576` changes the parsed structure. -/
theorem memcg_parse_memory_stat_signed_line :
    key_then_unsigned "total_cache -5".toList = false ∧
    (memcg_parse_memory_stat "total_cache 1048576\n".toList memory_stat.zero
      CGROUP_TYPE_LEGACY).2.total_cache = 1048576 ∧
    (memcg_parse_memory_stat "total_cache 1048576\ntotal_cache -5\n".toList memory_stat.zero
      CGROUP_TYPE_LEGACY).2.total_cache = 2 ^ 64 - 5 ∧
    memcg_parse_memory_stat "total_cache 1048576\ntotal_cache -5\n".toList memory_stat.zero
        CGROUP_TYPE_LEGACY
      ≠ memcg_parse_memory_stat "total_cache 1048576\n".toList memory_stat.zero
        CGROUP_TYPE_LEGACY := by
  decide

/-- C30 (amended): `memcg_parse_memory_stat` returns 0 for every input, and inserting at a
line boundary of a blob a line (without NUL) that is not a key followed by an optionally
signed decimal integer (an empty line, a lone word, `key abc`), or whose first word is not
a key of the active generation (such as `total_rss 2097152` or `anon 2097152`), leaves the
parsed structure unchanged. -/
theorem memcg_parse_memory_stat_skips (pre x post : List Char) (old : memory_stat) (v : Nat)
    (hpre : pre = [] ∨ pre.getLast? = some '\n')
    (hx : ∀ c ∈ x, c ≠ NUL ∧ c ≠ '\n')
    (hskip : key_then_signed x = false ∨ stat_lookup v (first_word x) stat_mappings = none) :
    (∀ buf old2 v2, (memcg_parse_memory_stat buf old2 v2).1 = 0) ∧
    memcg_parse_memory_stat (pre ++ (x ++ '\n' :: post)) old v
      = memcg_parse_memory_stat (pre ++ post) old v := by
  refine ⟨fun _ _ _ => rfl, ?_⟩
  rw [memcg_parse_memory_stat_lines, memcg_parse_memory_stat_lines]
  by_cases hnul : ∀ c ∈ pre, c ≠ NUL
  · have h1 : cstr (pre ++ (x ++ '\n' :: post)) = pre ++ (x ++ '\n' :: cstr post) := by
      rw [cstr_append_clean _ _ hnul, cstr_append_clean _ _ (fun c hc => (hx c hc).1)]
      have : cstr ('\n' :: post) = '\n' :: cstr post :=
        cstr_append_clean ['\n'] post (by decide)
      rw [this]
    have h2 : cstr (pre ++ post) = pre ++ cstr post := cstr_append_clean _ _ hnul
    have hxl : ∀ c ∈ x, (c != '\n') = true := fun c hc => by simpa using (hx c hc).2
    rw [h1, h2, stat_lines_append _ _ hpre, stat_lines_append _ _ hpre,
      stat_lines_line x _ hxl, List.foldl_append, List.foldl_append, List.foldl_cons,
      parse_stat_line_skip v x _ hskip]
  · have hex : ∃ c ∈ pre, c = NUL := by
      by_contra hno
      apply hnul
      intro c hc hcn
      exact hno ⟨c, hc, hcn⟩
    rw [cstr_append_cut _ _ hex, cstr_append_cut _ _ hex]

/-- The theorem of C30 on the lines the claim names, inserted between two lines of a
blob: an empty line, a lone word, `key abc`, `total_rss 2097152` in the legacy generation
and `anon 2097152` in the unified one. -/
theorem memcg_parse_memory_stat_skips_witness :
    memcg_parse_memory_stat "total_cache 1048576\n\ntotal_shmem 524288\n".toList
        memory_stat.zero CGROUP_TYPE_LEGACY
      = memcg_parse_memory_stat "total_cache 1048576\ntotal_shmem 524288\n".toList
        memory_stat.zero CGROUP_TYPE_LEGACY ∧
    memcg_parse_memory_stat "total_cache 1048576\nlonely\ntotal_shmem 524288\n".toList
        memory_stat.zero CGROUP_TYPE_LEGACY
      = memcg_parse_memory_stat "total_cache 1048576\ntotal_shmem 524288\n".toList
        memory_stat.zero CGROUP_TYPE_LEGACY ∧
    memcg_parse_memory_stat "total_cache 1048576\nkey abc\ntotal_shmem 524288\n".toList
        memory_stat.zero CGROUP_TYPE_LEGACY
      = memcg_parse_memory_stat "total_cache 1048576\ntotal_shmem 524288\n".toList
        memory_stat.zero CGROUP_TYPE_LEGACY ∧
    memcg_parse_memory_stat
        "total_cache 1048576\ntotal_rss 2097152\ntotal_shmem 524288\n".toList
        memory_stat.zero CGROUP_TYPE_LEGACY
      = memcg_parse_memory_stat "total_cache 1048576\ntotal_shmem 524288\n".toList
        memory_stat.zero CGROUP_TYPE_LEGACY ∧
    memcg_parse_memory_stat "file 1048576\nanon 2097152\nshmem 524288\n".toList
        memory_stat.zero CGROUP_TYPE_UNIFIED
      = memcg_parse_memory_stat "file 1048576\nshmem 524288\n".toList
        memory_stat.zero CGROUP_TYPE_UNIFIED :=
  ⟨(memcg_parse_memory_stat_skips "total_cache 1048576\n".toList []
      "total_shmem 524288\n".toList memory_stat.zero CGROUP_TYPE_LEGACY
      (Or.inr (by decide)) (by decide) (Or.inl (by decide))).2,
    (memcg_parse_memory_stat_skips "total_cache 1048576\n".toList "lonely".toList
      "total_shmem 524288\n".toList memory_stat.zero CGROUP_TYPE_LEGACY
      (Or.inr (by decide)) (by decide) (Or.inl (by decide))).2,
    (memcg_parse_memory_stat_skips "total_cache 1048576\n".toList "key abc".toList
      "total_shmem 524288\n".toList memory_stat.zero CGROUP_TYPE_LEGACY
      (Or.inr (by decide)) (by decide) (Or.inl (by decide))).2,
    (memcg_parse_memory_stat_skips "total_cache 1048576\n".toList
      "total_rss 2097152".toList "total_shmem 524288\n".toList memory_stat.zero
      CGROUP_TYPE_LEGACY (Or.inr (by decide)) (by decide) (Or.inr (by decide))).2,
    (memcg_parse_memory_stat_skips "file 1048576\n".toList "anon 2097152".toList
      "shmem 524288\n".toList memory_stat.zero CGROUP_TYPE_UNIFIED
      (Or.inr (by decide)) (by decide) (Or.inr (by decide))).2⟩

/-! ## Splitting a list at the first element that fails a test -/

/-- Either every element passes the test, or the list is a run of elements that pass, an
element that fails and the rest. -/
theorem line_cases_of {α : Type} (p : α → Bool) (l : List α) :
    (∀ x ∈ l, p x = true) ∨
    ∃ a x b, l = a ++ x :: b ∧ (∀ y ∈ a, p y = true) ∧ p x = false := by
  induction l with
  | nil => exact Or.inl (by simp)
  | cons c cs ih =>
    cases hc : p c with
    | false => exact Or.inr ⟨[], c, cs, rfl, by simp, hc⟩
    | true =>
      rcases ih with hall | ⟨a, x, b, hl, ha, hx⟩
      · left
        intro y hy
        rcases List.mem_cons.mp hy with rfl | hy
        · exact hc
        · exact hall y hy
      · right
        refine ⟨c :: a, x, b, by rw [hl]; rfl, ?_, hx⟩
        intro y hy
        rcases List.mem_cons.mp hy with rfl | hy
        · exact hc
        · exact ha y hy

/-! ## The call as a whole -/

/-- The call on a system gives what `cgroup_meminfo_read_buf` gives on the outcome of
`memcg_get_memory_info`. -/
theorem cgroup_meminfo_read_buf_env_eq (env : sysenv) (buf : Option (List Char))
    (len : Int) :
    ((cgroup_meminfo_read_buf_env env buf len).1, (cgroup_meminfo_read_buf_env env buf len).2.1)
      = cgroup_meminfo_read_buf env.fs
          ((memcg_get_memory_info env info_zero).1, (memcg_get_memory_info env info_zero).2.1)
          buf len := by
  unfold cgroup_meminfo_read_buf_env cgroup_meminfo_read_buf
  cases buf with
  | none => rfl
  | some old =>
    simp only []
    by_cases hlen : len ≤ 0
    · rw [if_pos hlen, if_pos hlen]
    · rw [if_neg hlen, if_neg hlen]
      by_cases hg : (memcg_get_memory_info env info_zero).1 ≠ 0
      · rw [if_pos hg, if_pos hg]
      · rw [if_neg hg, if_neg hg]
        cases env.fs "/proc/meminfo".toList with
        | error e => rfl
        | ok meminfo => rfl

/-- C31: for every system, `cgroup_meminfo_read_buf` called with a NULL buffer or with
`len <= 0` returns `EINVAL`; the discovery has no event, the outcome is the same on every
system and for every outcome of `memcg_get_memory_info` (no file is read), and the buffer
holds what it held before. -/
theorem cgroup_meminfo_read_buf_invalid (env : sysenv) (buf : Option (List Char))
    (len : Int) (h : buf = none ∨ len ≤ 0) :
    cgroup_meminfo_read_buf_env env buf len = (EINVAL, buf, []) ∧
    (∀ env2, cgroup_meminfo_read_buf_env env2 buf len
      = cgroup_meminfo_read_buf_env env buf len) ∧
    (∀ fs cg, cgroup_meminfo_read_buf fs cg buf len = (EINVAL, buf)) := by
  have h1 : ∀ e, cgroup_meminfo_read_buf_env e buf len = (EINVAL, buf, []) := by
    intro e
    unfold cgroup_meminfo_read_buf_env
    cases buf with
    | none => rfl
    | some old =>
      rcases h with h | h
      · exact Option.noConfusion h
      · simp only []
        rw [if_pos h]
  refine ⟨h1 env, fun e => by rw [h1 e, h1 env], ?_⟩
  intro fs cg
  unfold cgroup_meminfo_read_buf
  cases buf with
  | none => rfl
  | some old =>
    rcases h with h | h
    · exact Option.noConfusion h
    · simp only []
      rw [if_pos h]

/-- The theorem of C31 on a system with a cgroup to discover: a NULL buffer with
`len = 100`, and a buffer with `len = 0`. -/
theorem cgroup_meminfo_read_buf_invalid_witness :
    cgroup_meminfo_read_buf_env (env_legacy true) none 100 = (EINVAL, none, []) ∧
    cgroup_meminfo_read_buf_env (env_legacy true) (some "abc".toList) 0
      = (EINVAL, some "abc".toList, []) :=
  ⟨(cgroup_meminfo_read_buf_invalid (env_legacy true) none 100 (Or.inl rfl)).1,
    (cgroup_meminfo_read_buf_invalid (env_legacy true) (some "abc".toList) 0
      (Or.inr (by decide))).1⟩

/-! ## The path stripper -/

/-- C34: for every non-empty path, `remove_path_layer` returns NULL if and only if the
path is exactly `/`; a path `/comp/rest...`, where `comp` holds no `/`, becomes the part
from the second `/` on; a path `/comp` with a single non-empty component becomes `/`; and
every path beginning with `/` other than `/` itself is of one of these two forms.  So
`/a/b/c` becomes `/b/c` and `/c` becomes `/`. -/
theorem remove_path_layer_first_component (p : List Char) (hne : p ≠ []) :
    (remove_path_layer p = none ↔ p = "/".toList) ∧
    (∀ comp rest, p = '/' :: (comp ++ '/' :: rest) → (∀ c ∈ comp, c ≠ '/') →
      remove_path_layer p = some ('/' :: rest)) ∧
    (∀ comp, p = '/' :: comp → comp ≠ [] → (∀ c ∈ comp, c ≠ '/') →
      remove_path_layer p = some "/".toList) ∧
    (∀ t, p = '/' :: t → t ≠ [] →
      (∃ comp rest, t = comp ++ '/' :: rest ∧ ∀ c ∈ comp, c ≠ '/') ∨ (∀ c ∈ t, c ≠ '/')) ∧
    remove_path_layer "/a/b/c".toList = some "/b/c".toList ∧
    remove_path_layer "/c".toList = some "/".toList := by
  refine ⟨remove_path_layer_none p, ?_, ?_, ?_, by decide, by decide⟩
  · intro comp rest hp hcomp
    subst hp
    unfold remove_path_layer
    have h0 : (('/' :: (comp ++ '/' :: rest)) == "/".toList) = false := by
      apply beq_eq_false_iff_ne.mpr
      intro h
      have := congrArg List.length h
      simp at this
    rw [h0]
    simp only [Bool.false_eq_true, if_false, List.drop_succ_cons, List.drop_zero]
    rw [dropWhile_append_stop (fun c => c != '/') comp rest '/'
      (fun c hc => by simpa using hcomp c hc) (by decide)]
  · intro comp hp hcne hcomp
    subst hp
    unfold remove_path_layer
    have h0 : (('/' :: comp) == "/".toList) = false := by
      apply beq_eq_false_iff_ne.mpr
      intro h
      apply hcne
      have := congrArg List.tail h
      simpa using this
    rw [h0]
    simp only [Bool.false_eq_true, if_false, List.drop_succ_cons, List.drop_zero]
    rw [dropWhile_all (fun c => c != '/') comp (fun c hc => by simpa using hcomp c hc)]
  · intro t _ _
    rcases line_cases_of (fun c => c != '/') t with hall | ⟨comp, x, rest, ht, hcomp, hx⟩
    · right
      intro c hc
      simpa using hall c hc
    · left
      have hx2 : x = '/' := by simpa using hx
      subst hx2
      exact ⟨comp, rest, ht, fun c hc => by simpa using hcomp c hc⟩

/-- The theorem of C34 on the path `/docker/abc`. -/
theorem remove_path_layer_first_component_witness :
    remove_path_layer "/docker/abc".toList = some "/abc".toList :=
  (remove_path_layer_first_component "/docker/abc".toList (by decide)).2.1
    "docker".toList "abc".toList (by decide) (by decide)

/-! ## The walk ends -/

theorem count_dropWhile_slash (t : List Char) :
    (t.dropWhile (fun c => c != '/')).count '/' = t.count '/' := by
  induction t with
  | nil => rfl
  | cons c cs ih =>
    by_cases hc : c = '/'
    · subst hc
      rfl
    · have h1 : (c != '/') = true := by simpa using hc
      have h2 : (c == '/') = false := by simpa using hc
      rw [List.dropWhile_cons, h1, List.count_cons, h2]
      simpa using ih

/-- What `remove_path_layer` makes of a non-empty path: `/`, or a shorter path that begins
with `/` and has the `/` characters of the path after its first character. -/
theorem remove_path_layer_cons (c : Char) (t q : List Char)
    (h : remove_path_layer (c :: t) = some q) :
    q = "/".toList ∨
      (q.head? = some '/' ∧ q.count '/' = t.count '/' ∧ q.length ≤ t.length) := by
  unfold remove_path_layer at h
  by_cases h0 : ((c :: t) == "/".toList) = true
  · rw [if_pos h0] at h
    exact Option.noConfusion h
  · rw [if_neg h0] at h
    simp only [List.drop_succ_cons, List.drop_zero] at h
    cases hd : t.dropWhile (fun c => c != '/') with
    | nil =>
      rw [hd] at h
      exact Or.inl (Option.some.inj h).symm
    | cons x xs =>
      rw [hd] at h
      have hq : q = x :: xs := (Option.some.inj h).symm
      have hx : x = '/' := by
        have := dropWhile_ne_head (fun c => c != '/') t x xs hd
        simpa using this
      right
      refine ⟨by rw [hq, hx]; rfl, ?_, ?_⟩
      · rw [hq, ← hd, count_dropWhile_slash]
      · rw [hq, ← hd]
        exact (List.dropWhile_sublist (l := t) (fun c => c != '/')).length_le

theorem walk_turns_slash (q : List Char) (hq : q.head? = some '/') :
    walk_turns q ≤ q.count '/' + 1 := by
  unfold walk_turns
  split_ifs <;> omega

theorem walk_turns_cons (c : Char) (t : List Char) (h : c :: t ≠ "/".toList) :
    walk_turns (c :: t) = t.count '/' + 2 := by
  unfold walk_turns
  rw [if_neg (by simp), if_neg h]
  by_cases hc : c = '/'
  · subst hc
    simp
  · have h2 : (c == '/') = false := by simpa using hc
    rw [if_neg (by simpa using hc), List.count_cons, h2]
    simp

/-- Each application of `remove_path_layer` brings the bound on the turns down. -/
theorem walk_turns_step (p q : List Char) (hne : p ≠ [])
    (h : remove_path_layer p = some q) : walk_turns q < walk_turns p := by
  cases p with
  | nil => exact absurd rfl hne
  | cons c t =>
    have hp : c :: t ≠ "/".toList := by
      intro hp
      rw [(remove_path_layer_none _).mpr hp] at h
      exact Option.noConfusion h
    rw [walk_turns_cons c t hp]
    rcases remove_path_layer_cons c t q h with hq | ⟨hq, hcount, _⟩
    · rw [hq]
      have : walk_turns "/".toList = 1 := by decide
      omega
    · have := walk_turns_slash q hq
      omega

theorem walk_turns_pos (p : List Char) (hne : p ≠ []) : 1 ≤ walk_turns p := by
  unfold walk_turns
  rw [if_neg hne]
  split_ifs <;> omega

theorem traverse_loop_none (member : List Char → Bool) (fuel : Nat) :
    traverse_loop member fuel none = (none, []) := by
  cases fuel <;> rfl

/-- One more turn of fuel changes nothing once the fuel covers the bound. -/
theorem traverse_loop_fuel_step (member : List Char → Bool) : ∀ (fuel : Nat) (p : List Char),
    walk_turns p ≤ fuel →
    traverse_loop member fuel (some p) = traverse_loop member (fuel + 1) (some p) := by
  intro fuel
  induction fuel with
  | zero =>
    intro p h
    have hp : p = [] := by
      by_contra hne
      have := walk_turns_pos p hne
      omega
    subst hp
    rfl
  | succ fuel ih =>
    intro p h
    rw [traverse_loop, traverse_loop]
    by_cases he : p.isEmpty = true
    · rw [if_pos he, if_pos he]
    · rw [if_neg he, if_neg he]
      by_cases hm : member p = true
      · rw [if_pos hm, if_pos hm]
      · rw [if_neg hm, if_neg hm]
        have hne : p ≠ [] := by
          intro hp
          rw [hp] at he
          exact he rfl
        cases hr : remove_path_layer p with
        | none => rw [traverse_loop_none, traverse_loop_none]
        | some q =>
          have := walk_turns_step p q hne hr
          rw [ih q (by omega)]

theorem traverse_loop_fuel (member : List Char → Bool) (p : List Char) :
    ∀ (f1 f2 : Nat), walk_turns p ≤ f1 → f1 ≤ f2 →
    traverse_loop member f2 (some p) = traverse_loop member f1 (some p) := by
  intro f1 f2 h1 h2
  induction f2, h2 using Nat.le_induction with
  | base => rfl
  | succ n hn ih => rw [← traverse_loop_fuel_step member n p (by omega), ih]

/-- The loop tests no more paths than the bound says. -/
theorem traverse_loop_tested_le (member : List Char → Bool) : ∀ (fuel : Nat) (p : List Char),
    (traverse_loop member fuel (some p)).2.length ≤ walk_turns p := by
  intro fuel
  induction fuel with
  | zero => intro p; simp [traverse_loop]
  | succ fuel ih =>
    intro p
    rw [traverse_loop]
    by_cases he : p.isEmpty = true
    · rw [if_pos he]
      simp
    · rw [if_neg he]
      have hne : p ≠ [] := by
        intro hp
        rw [hp] at he
        exact he rfl
      have hpos := walk_turns_pos p hne
      by_cases hm : member p = true
      · rw [if_pos hm]
        simpa using hpos
      · rw [if_neg hm]
        simp only [List.length_cons]
        cases hr : remove_path_layer p with
        | none =>
          rw [traverse_loop_none]
          simpa using hpos
        | some q =>
          have h1 := walk_turns_step p q hne hr
          have h2 := ih q
          omega

theorem walk_turns_le_count (p : List Char) : walk_turns p ≤ p.count '/' + 2 := by
  unfold walk_turns
  split_ifs <;> omega

theorem walk_turns_le_length (p : List Char) : walk_turns p ≤ p.length + 1 := by
  cases p with
  | nil => decide
  | cons c t =>
    by_cases hp : c :: t = "/".toList
    · rw [hp]
      decide
    · rw [walk_turns_cons c t hp]
      have := List.count_le_length '/' t
      simp only [List.length_cons]
      omega

/-- C35: for every starting path and every membership predicate the walk ends by itself:
each application of `remove_path_layer` to a non-empty path either strictly shortens it or
turns it into `/`; the loop gives the same outcome with any supply of turns from the number
of `/` characters of the path plus 2 on, among them the supply `traverse_cgroup_path`
works with; and the candidates tested are at most that number, so that
`traverse_cgroup_path` has at most that many events after the lookup of the mount. -/
theorem traverse_cgroup_path_terminates (member : List Char → Bool) (path : List Char) :
    (∀ p q, p ≠ [] → remove_path_layer p = some q →
      q.length < p.length ∨ q = "/".toList) ∧
    (∀ fuel, path.count '/' + 2 ≤ fuel →
      traverse_loop member fuel (some path)
        = traverse_loop member (path.count '/' + 2) (some path)) ∧
    traverse_loop member (path.length + 1) (some path)
      = traverse_loop member (path.count '/' + 2) (some path) ∧
    (∀ fuel, (traverse_loop member fuel (some path)).2.length ≤ path.count '/' + 2) ∧
    (∀ env cgroup_type info,
      (traverse_cgroup_path env path cgroup_type info).events.length
        ≤ path.count '/' + 3) := by
  have hcount := walk_turns_le_count path
  have hlen := walk_turns_le_length path
  refine ⟨?_, ?_, ?_, ?_, ?_⟩
  · intro p q hne h
    cases p with
    | nil => exact absurd rfl hne
    | cons c t =>
      rcases remove_path_layer_cons c t q h with hq | ⟨_, _, hl⟩
      · exact Or.inr hq
      · left
        simp only [List.length_cons]
        omega
  · intro fuel hf
    exact traverse_loop_fuel member path _ _ hcount hf
  · rw [traverse_loop_fuel member path (walk_turns path) (path.length + 1) (Nat.le_refl _) hlen,
      traverse_loop_fuel member path (walk_turns path) (path.count '/' + 2) (Nat.le_refl _)
        hcount]
  · intro fuel
    exact Nat.le_trans (traverse_loop_tested_le member fuel path) hcount
  · intro env cgroup_type info
    unfold traverse_cgroup_path
    cases cgroup_mount env.mounts cgroup_type with
    | none => simp
    | some cgmount =>
      simp only []
      have := Nat.le_trans (traverse_loop_tested_le
        (memcg_process_in_cgroup_tasks env cgroup_type cgmount) (path.length + 1) path) hcount
      split <;> (simp only [List.length_cons, List.length_map]; omega)

/-! ## The stat parser: one vocabulary at a time -/

theorem stat_lookup_isLegacy (v w : Nat) (h : isLegacy v = isLegacy w) (k : List Char) :
    ∀ ms : List stat_mapping, stat_lookup v k ms = stat_lookup w k ms := by
  intro ms
  induction ms with
  | nil => rfl
  | cons m ms ih => simp only [stat_lookup, h, ih]

theorem v2_keys_not_legacy : ∀ k ∈ v2_keys,
    stat_lookup CGROUP_TYPE_LEGACY k stat_mappings = none := by
  decide

theorem v1_keys_not_unified : ∀ k ∈ v1_keys,
    stat_lookup CGROUP_TYPE_UNIFIED k stat_mappings = none := by
  decide

theorem foldl_parse_stat_line_skip (v : Nat) : ∀ (ls : List (List Char)) (st : memory_stat),
    (∀ l ∈ ls, stat_lookup v (first_word l) stat_mappings = none) →
    ls.foldl (fun s l => parse_stat_line v l s) st = st := by
  intro ls
  induction ls with
  | nil => intro st _; rfl
  | cons l ls ih =>
    intro st h
    rw [List.foldl_cons, parse_stat_line_skip v l st (Or.inr (h l (by simp)))]
    exact ih st (fun x hx => h x (by simp [hx]))

/-- C33: the two vocabularies are used one at a time.  When the generation has the legacy
bit, a line whose key is a v2 key name changes no counter, and a blob all of whose lines
carry v2 key names parses to the all-zero structure; when it has not, the same holds with
the v1 key names.  No name belongs to both vocabularies. -/
theorem stat_vocabularies_exclusive (v : Nat) (buf : List Char) (old : memory_stat) :
    (isLegacy v = true →
      (∀ l st, first_word l ∈ v2_keys → parse_stat_line v l st = st) ∧
      ((∀ l ∈ stat_lines (cstr buf), first_word l ∈ v2_keys) →
        memcg_parse_memory_stat buf old v = (0, memory_stat.zero))) ∧
    (isLegacy v = false →
      (∀ l st, first_word l ∈ v1_keys → parse_stat_line v l st = st) ∧
      ((∀ l ∈ stat_lines (cstr buf), first_word l ∈ v1_keys) →
        memcg_parse_memory_stat buf old v = (0, memory_stat.zero))) ∧
    (∀ k ∈ v1_keys, k ∉ v2_keys) ∧
    memcg_parse_memory_stat "file 1048576\nshmem 524288\nslab 196608\n".toList old
      CGROUP_TYPE_LEGACY = (0, memory_stat.zero) ∧
    memcg_parse_memory_stat "total_cache 1048576\ntotal_rss_huge 4096\n".toList old
      CGROUP_TYPE_UNIFIED = (0, memory_stat.zero) := by
  have hleg : isLegacy v = true → ∀ k ∈ v2_keys, stat_lookup v k stat_mappings = none := by
    intro hv k hk
    rw [stat_lookup_isLegacy v CGROUP_TYPE_LEGACY (by rw [hv, isLegacy_legacy])]
    exact v2_keys_not_legacy k hk
  have huni : isLegacy v = false → ∀ k ∈ v1_keys, stat_lookup v k stat_mappings = none := by
    intro hv k hk
    rw [stat_lookup_isLegacy v CGROUP_TYPE_UNIFIED (by rw [hv, isLegacy_unified])]
    exact v1_keys_not_unified k hk
  refine ⟨?_, ?_, by decide,
    (by decide : memcg_parse_memory_stat "file 1048576\nshmem 524288\nslab 196608\n".toList
      memory_stat.zero CGROUP_TYPE_LEGACY = (0, memory_stat.zero)),
    (by decide : memcg_parse_memory_stat "total_cache 1048576\ntotal_rss_huge 4096\n".toList
      memory_stat.zero CGROUP_TYPE_UNIFIED = (0, memory_stat.zero))⟩
  · intro hv
    refine ⟨fun l st hl => parse_stat_line_skip v l st (Or.inr (hleg hv _ hl)), ?_⟩
    intro hall
    rw [memcg_parse_memory_stat_lines,
      foldl_parse_stat_line_skip v _ _ (fun l hl => hleg hv _ (hall l hl))]
  · intro hv
    refine ⟨fun l st hl => parse_stat_line_skip v l st (Or.inr (huni hv _ hl)), ?_⟩
    intro hall
    rw [memcg_parse_memory_stat_lines,
      foldl_parse_stat_line_skip v _ _ (fun l hl => huni hv _ (hall l hl))]

/-! ## The rewriter: SwapFree against SwapTotal -/

/-- Counterexample to C36: with `swap_current = 512 KiB <= swap_limit = 1 MiB` and a host
without swap (`SwapTotal: 0 kB`), the `SwapTotal` line shows 0 and the `SwapFree` line
shows `0 - 512` modulo `2^64`, which is above 0. -/
theorem meminfo_swapfree_wraps :
    (524288 : Nat) ≤ 1048576 ∧
    meminfo_rewritten ⟨2147483648, 1048576, 1048576, 524288, memory_stat.zero⟩
        "SwapTotal:             0 kB\nSwapFree:              0 kB\n".toList
      = ["SwapTotal:             0 kB\n".toList,
         "SwapFree:       18446744073709551104 kB\n".toList] ∧
    ¬ ((18446744073709551104 : Nat) ≤ 0) := by
  decide

/-- C36 (amended): for every snapshot with `swap_current <= swap_limit` and every host
report in which the only `SwapTotal:` line before a `SwapFree:` line carries a host value
of at least `swap_current div 1024`, the value on the `SwapFree:` line is the value on the
`SwapTotal:` line minus `swap_current div 1024` without wrap, hence at most the value on
the `SwapTotal:` line. -/
theorem meminfo_swapfree_le_swaptotal (data : memcg_data) (meminfo : List Char) (i j : Nat)
    (line_i line_j : List Char) (hij : i < j)
    (hi : (getlines meminfo)[i]? = some line_i) (hj : (getlines meminfo)[j]? = some line_j)
    (hti : startswith line_i "SwapTotal:" = true)
    (hfj : startswith line_j "SwapFree:" = true)
    (honly : ∀ k l, k < j → k ≠ i → (getlines meminfo)[k]? = some l →
      startswith l "SwapTotal:" = false)
    (hdata : data.swap_current ≤ data.swap_limit)
    (hhost : data.swap_current / 1024 ≤ sscanf_lu_or_zero line_i 10) :
    ∃ total free,
      (meminfo_rewritten data meminfo)[i]? = some (snprintf_kb "SwapTotal:      " total) ∧
      (meminfo_rewritten data meminfo)[j]? = some (snprintf_kb "SwapFree:       " free) ∧
      free = total - data.swap_current / 1024 ∧ data.swap_current / 1024 ≤ total ∧
      free ≤ total := by
  have hbefore : ∀ l ∈ (getlines meminfo).take i, startswith l "SwapTotal:" = false := by
    intro l hl
    obtain ⟨k, hk, hkl⟩ := mem_take_lt _ i l hl
    exact honly k l (by omega) (by omega) hkl
  have hbetween : ∀ k l, i < k → k < j → (getlines meminfo)[k]? = some l →
      startswith l "SwapTotal:" = false :=
    fun k l h1 h2 h3 => honly k l h2 (by omega) h3
  have hinit : (rewrite_init data).swtotal = data.swap_limit / 1024 := rfl
  have hdiv : data.swap_current / 1024 ≤ data.swap_limit / 1024 :=
    Nat.div_le_div_right hdata
  have hlt := sscanf_lu_or_zero_lt line_i 10
  unfold meminfo_rewritten
  rw [rewrite_lines_getElem? data _ _ i line_i hi, rewrite_lines_getElem? data _ _ j line_j hj,
    rewrite_line_swapfree data _ line_j hfj,
    swtotal_after_swaptotal data _ _ i j line_i hij hi hbetween,
    rewrite_line_swaptotal data _ line_i hti,
    rewrite_vars_after_swtotal data _ _ hbefore, hinit]
  generalize sscanf_lu_or_zero line_i 10 = host at hhost hlt
  generalize data.swap_limit / 1024 = lim at hdiv
  have hsu : data.swap_current / BYTES_TO_KB = data.swap_current / 1024 := rfl
  rw [hsu]
  generalize data.swap_current / 1024 = su at hhost hdiv
  have hv : su ≤ (if host < lim then host else lim) := by split_ifs <;> omega
  have hv2 : (if host < lim then host else lim) < 2 ^ 64 := by split_ifs <;> omega
  refine ⟨if host < lim then host else lim, ul_sub (if host < lim then host else lim) su,
    rfl, rfl, ul_sub_small _ _ hv2 hv, hv, ?_⟩
  rw [ul_sub_small _ _ hv2 hv]
  exact Nat.sub_le _ _

/-- The theorem of C36 on a host with 2048 kB of swap: `SwapTotal` shows 1024 and `SwapFree`
1024 - 512 = 512. -/
theorem meminfo_swapfree_le_swaptotal_witness :
    ∃ total free,
      (meminfo_rewritten ⟨2147483648, 1048576, 1048576, 524288, memory_stat.zero⟩
        "SwapTotal:        2048 kB\nSwapFree:         2000 kB\n".toList)[0]?
        = some (snprintf_kb "SwapTotal:      " total) ∧
      (meminfo_rewritten ⟨2147483648, 1048576, 1048576, 524288, memory_stat.zero⟩
        "SwapTotal:        2048 kB\nSwapFree:         2000 kB\n".toList)[1]?
        = some (snprintf_kb "SwapFree:       " free) ∧
      free = total - (524288 : Nat) / 1024 ∧ (524288 : Nat) / 1024 ≤ total ∧ free ≤ total :=
  meminfo_swapfree_le_swaptotal ⟨2147483648, 1048576, 1048576, 524288, memory_stat.zero⟩
    "SwapTotal:        2048 kB\nSwapFree:         2000 kB\n".toList 0 1
    "SwapTotal:        2048 kB\n".toList "SwapFree:         2000 kB\n".toList
    (by decide) (by decide) (by decide) (by decide) (by decide)
    (fun k l h1 h2 _ => absurd h1 (by omega)) (by decide) (by decide)

/-! ## The rewriter: the line buffer -/

/-- C39: for every recognised label and every value below `2^64`, the formatted line has at
most 40 characters, so the 100 bytes of `lbuf` hold it whole; 40 is reached by
`2^64 - 1`. -/
theorem snprintf_kb_at_most_40 (lab head : String) (v : Nat) (hhead : (lab, head) ∈ kb_heads)
    (hv : v < 2 ^ 64) :
    lab ∈ recognised_labels ∧
    (head.toList ++ fmt_lu8 v ++ " kB\n".toList).length ≤ 40 ∧
    snprintf_kb head v = head.toList ++ fmt_lu8 v ++ " kB\n".toList ∧
    (snprintf_kb "MemTotal:       " (2 ^ 64 - 1)).length = 40 ∧
    (∀ l ∈ recognised_labels, l ∈ kb_heads.map Prod.fst) := by
  have hk := kb_heads_layout (lab, head) hhead
  refine ⟨hk.1, ?_, snprintf_kb_fits head v hk.2.2 hv, by decide, by decide⟩
  have h1 := toDigits_length_le v hv
  have h2 : head.toList.length = 16 := hk.2.2
  have h3 : " kB\n".toList.length = 4 := rfl
  rw [List.length_append, List.length_append, h2, h3]
  unfold fmt_lu8
  rw [List.length_append, List.length_replicate]
  omega

/-- The theorem of C39 on the `SwapFree:` line with the value `2^64 - 512`. -/
theorem snprintf_kb_at_most_40_witness :
    (snprintf_kb "SwapFree:       " 18446744073709551104).length ≤ 40 := by
  have h := snprintf_kb_at_most_40 "SwapFree:" "SwapFree:       " 18446744073709551104
    (by decide) (by decide)
  rw [h.2.2.1]
  exact h.2.1

/-! ## `stzncpy` -/

theorem cstr_cons_nul (s : List Char) : cstr (NUL :: s) = [] := by
  unfold cstr
  rw [List.takeWhile_cons]
  rfl

theorem cstr_cons_ne (c : Char) (s : List Char) (hc : c ≠ NUL) :
    cstr (c :: s) = c :: cstr s := by
  unfold cstr
  rw [List.takeWhile_cons]
  have : (c != NUL) = true := by simpa using hc
  rw [this]
  rfl

theorem drop_past_append {α : Type} (a : List α) (x : α) (b : List α) (n : Nat)
    (h : a.length = n) : (a ++ x :: b).drop (n + 1) = b := by
  subst h
  simp

theorem stzncpy_loop_cons (src_end p : Nat) (c : Char) (s dest : List Char) :
    stzncpy_loop src_end p (c :: s) dest
      = if p < src_end ∧ c ≠ NUL then
          match dest with
          | [] => none
          | _ :: d => (stzncpy_loop src_end (p + 1) s d).map (fun r => (c :: r.1, r.2 + 1))
        else (poke dest NUL).map (fun d => (d, 0)) := by
  rw [stzncpy_loop.eq_def]

theorem stzncpy_loop_eq (src_end : Nat) : ∀ (src : List Char) (p : Nat) (dest : List Char)
    (len : Nat), p + len = src_end →
    (NUL ∈ src ∨ len ≤ src.length) → min len (cstr src).length < dest.length →
    stzncpy_loop src_end p src dest
      = some (src.take (min len (cstr src).length)
          ++ NUL :: dest.drop (min len (cstr src).length + 1), min len (cstr src).length) := by
  intro src
  induction src with
  | nil =>
    intro p dest len hend hsrc hdest
    have hlen : len = 0 := by
      rcases hsrc with h | h
      · simp at h
      · simpa using h
    subst hlen
    cases dest with
    | nil => simp at hdest
    | cons d0 d =>
      have hp : ¬ p < src_end := by omega
      simp [stzncpy_loop, hp, poke]
  | cons c s ih =>
    intro p dest len hend hsrc hdest
    rw [stzncpy_loop_cons]
    by_cases hc : c = NUL
    · subst hc
      rw [cstr_cons_nul] at hdest ⊢
      rw [if_neg (fun h => h.2 rfl)]
      cases dest with
      | nil => simp at hdest
      | cons d0 d => simp [poke]
    · cases len with
      | zero =>
        rw [if_neg (fun h => by omega)]
        cases dest with
        | nil => simp at hdest
        | cons d0 d => simp [poke]
      | succ len =>
        rw [cstr_cons_ne c s hc] at hdest ⊢
        have hmin : min (len + 1) (c :: cstr s).length = min len (cstr s).length + 1 := by
          simp only [List.length_cons]
          omega
        rw [hmin] at hdest ⊢
        rw [if_pos ⟨by omega, hc⟩]
        cases dest with
        | nil => simp at hdest
        | cons d0 d =>
          have hsrc2 : NUL ∈ s ∨ len ≤ s.length := by
            rcases hsrc with h | h
            · rcases List.mem_cons.mp h with h | h
              · exact absurd h.symm hc
              · exact Or.inl h
            · right
              simp only [List.length_cons] at h
              omega
          have hdest2 : min len (cstr s).length < d.length := by
            simp only [List.length_cons] at hdest
            omega
          simp only []
          rw [ih (p + 1) d len (by omega) hsrc2 hdest2]
          rfl

/-- Counterexample to C32: with `src` at address 4096 and `len = 2^64 - 1` the sum
`src + len` wraps around to 4095, the test `src < src_end` fails at once, and `stzncpy`
writes the NUL at `dest[0]` and returns `dest`, although `min(len, strlen(src))` is 5. -/
theorem stzncpy_wraps :
    stzncpy "XXXXXXXX".toList 4096 ("hello".toList ++ [NUL]) (2 ^ 64 - 1)
      = some (NUL :: "XXXXXXX".toList, 0) ∧
    min (2 ^ 64 - 1) (cstr ("hello".toList ++ [NUL])).length = 5 ∧
    stzncpy "XXXXXXXX".toList 4096 ("hello".toList ++ [NUL]) (2 ^ 64 - 1)
      ≠ some ("hello".toList ++ NUL :: "XX".toList, 5) := by
  decide

/-- C32 (amended): for every source string `src` (or source of at least `len` bytes) at an
address `src_addr`, every `len` with `src_addr + len < 2^64` (the sum `src + len` does not
wrap around) and every destination of more than `n = min(len, strlen(src))` bytes,
`stzncpy(dest, src, len)` leaves in `dest` the first `n` bytes of `src`, then one NUL,
then what `dest` held before from byte `n + 1` on (nothing is padded), and returns
`dest + n`; when `strlen(src)` is at least `len` the NUL is at `dest[len]`. -/
theorem stzncpy_writes (dest : List Char) (src_addr : Nat) (src : List Char) (len : Nat)
    (hwrap : src_addr + len < 2 ^ 64)
    (hsrc : NUL ∈ src ∨ len ≤ src.length)
    (hdest : min len (cstr src).length < dest.length) :
    stzncpy dest src_addr src len
      = some (src.take (min len (cstr src).length)
          ++ NUL :: dest.drop (min len (cstr src).length + 1), min len (cstr src).length) ∧
    src.take (min len (cstr src).length) = (cstr src).take len ∧
    (len ≤ (cstr src).length →
      ∃ out, stzncpy dest src_addr src len = some (out, len) ∧ out[len]? = some NUL ∧
        out.take len = src.take len ∧ out.drop (len + 1) = dest.drop (len + 1)) := by
  have hend : (src_addr + len % 2 ^ 64) % 2 ^ 64 = src_addr + len := by
    rw [Nat.mod_eq_of_lt (by omega : len < 2 ^ 64), Nat.mod_eq_of_lt hwrap]
  have h1 : stzncpy dest src_addr src len
      = some (src.take (min len (cstr src).length)
          ++ NUL :: dest.drop (min len (cstr src).length + 1), min len (cstr src).length) := by
    unfold stzncpy
    rw [hend]
    exact stzncpy_loop_eq (src_addr + len) src src_addr dest len rfl hsrc hdest
  have hpre : cstr src <+: src := List.takeWhile_prefix _
  have h2 : src.take (min len (cstr src).length) = (cstr src).take len := by
    obtain ⟨t, ht⟩ := hpre
    have e1 : (cstr src ++ t).take (min len (cstr src).length)
        = (cstr src).take (min len (cstr src).length) :=
      List.take_append_of_le_length (Nat.min_le_right len (cstr src).length)
    rw [ht] at e1
    rw [e1]
    by_cases hl : len ≤ (cstr src).length
    · rw [Nat.min_eq_left hl]
    · rw [Nat.min_eq_right (by omega), List.take_length, List.take_of_length_le (by omega)]
  refine ⟨h1, h2, ?_⟩
  intro hl
  have hmin : min len (cstr src).length = len := Nat.min_eq_left hl
  rw [hmin] at h1 hdest
  have hlen : (src.take len).length = len := by
    rw [List.length_take]
    have := hpre.length_le
    omega
  refine ⟨_, h1, ?_, ?_, ?_⟩
  · rw [List.getElem?_append_right (by omega), hlen]
    simp
  · rw [List.take_append_of_le_length (by omega), List.take_of_length_le (by omega)]
  · exact drop_past_append _ _ _ _ hlen

/-- The theorem of C32 on a source of five characters at address 4096: with `len = 3`
three characters and the NUL arrive, with `len = 10` all five; the bytes after the NUL
stay. -/
theorem stzncpy_writes_witness :
    stzncpy "XXXXXXXX".toList 4096 ("hello".toList ++ [NUL]) 3
      = some ("hel".toList ++ NUL :: "XXXX".toList, 3) ∧
    stzncpy "XXXXXXXX".toList 4096 ("hello".toList ++ [NUL]) 10
      = some ("hello".toList ++ NUL :: "XX".toList, 5) :=
  ⟨(stzncpy_writes "XXXXXXXX".toList 4096 ("hello".toList ++ [NUL]) 3 (by decide)
      (Or.inl (by decide)) (by decide)).1.trans (by decide),
    (stzncpy_writes "XXXXXXXX".toList 4096 ("hello".toList ++ [NUL]) 10 (by decide)
      (Or.inl (by decide)) (by decide)).1.trans (by decide)⟩

/-! ## `scale_size` -/

theorem llong_of_small (n : Nat) (h : n < 2 ^ 63) : llong_of n = (n : Int) := by
  unfold llong_of
  have h1 : n % 2 ^ 64 = n := Nat.mod_eq_of_lt (by omega)
  rw [h1, if_pos h]

theorem fmt_ld_natCast (n : Nat) : fmt_ld (n : Int) = Nat.toDigits 10 n := by
  unfold fmt_ld
  rw [if_neg (by omega), Int.natAbs_cast]

/-- Counterexample to C40: for `size = 2^53` the product `size * 1024` is `2^63`, which
as `long long` is `-2^63`; both functions print `-9007199254740992` for exponent 0 with
base 1024, not `size`, and `-9223372036854775808` for exponent 1, not `size * 1024`. -/
theorem scale_size_overflow :
    units_scale_size (2 ^ 53) 0 0 0 = some "-9007199254740992".toList ∧
    free_scale_size (2 ^ 53) 0 0 = some "-9007199254740992".toList ∧
    units_scale_size (2 ^ 53) 0 0 0 ≠ some (Nat.toDigits 10 (2 ^ 53)) ∧
    units_scale_size (2 ^ 53) 1 0 0 = some "-9223372036854775808".toList ∧
    free_scale_size (2 ^ 53) 0 1 = some "-9223372036854775808".toList ∧
    units_scale_size (2 ^ 53) 1 0 0 ≠ some (Nat.toDigits 10 (2 ^ 53 * 1024)) := by
  decide

/-- C40 (amended): for output that is not human readable and exponent 0 or 1, the
`scale_size` of units.c and the `scale_size` of free.c produce the same string for every
size and either base; for a size below `2^53` (so that `size * 1024` fits a `long long`)
the string is the decimal of `size * 1024` divided by the base for exponent 0, hence of
`size` for base 1024, and of `size * 1024` for exponent 1. -/
theorem scale_size_agree (size exponent : Nat) (si : Int) (flags : Nat)
    (hexp : exponent = 0 ∨ exponent = 1)
    (hsi : si ≠ 0 ↔ Nat.land flags FREE_SI ≠ 0)
    (hhum : Nat.land flags FREE_HUMANREADABLE = 0) :
    units_scale_size size exponent si 0 = free_scale_size size flags exponent ∧
    (units_scale_size size exponent si 0).isSome = true ∧
    (size < 2 ^ 53 →
      units_scale_size size 0 si 0
        = some (Nat.toDigits 10 (size * 1024 / (if si ≠ 0 then 1000 else 1024))) ∧
      units_scale_size size 0 0 0 = some (Nat.toDigits 10 size) ∧
      units_scale_size size 1 si 0 = some (Nat.toDigits 10 (size * 1024))) := by
  have hbase : (if si ≠ 0 then (1000 : Nat) else 1024)
      = (if Nat.land flags FREE_SI ≠ 0 then (1000 : Nat) else 1024) := by
    by_cases h : si ≠ 0
    · rw [if_pos h, if_pos (hsi.mp h)]
    · rw [if_neg h, if_neg (fun h2 => h (hsi.mpr h2))]
  refine ⟨?_, ?_, ?_⟩
  · unfold units_scale_size free_scale_size
    simp only [hbase, hhum, if_true]
    rcases hexp with rfl | rfl
    · rfl
    · rfl
  · unfold units_scale_size
    rcases hexp with rfl | rfl <;> rfl
  · intro hsize
    have hmod : size % 2 ^ 64 = size := Nat.mod_eq_of_lt (by omega)
    have hll : llong_of (size % 2 ^ 64 * 1024) = ((size * 1024 : Nat) : Int) := by
      rw [hmod]
      exact llong_of_small _ (by omega)
    refine ⟨?_, ?_, ?_⟩
    · unfold units_scale_size
      simp only [if_true, hll]
      rw [← Int.ofNat_tdiv, fmt_ld_natCast]
    · unfold units_scale_size
      simp only [if_true, hll]
      have : ¬ ((0 : Int) ≠ 0) := fun h => h rfl
      rw [if_neg this, ← Int.ofNat_tdiv, fmt_ld_natCast, Nat.mul_div_cancel _ (by decide)]
    · unfold units_scale_size
      simp only [if_true, hll]
      rw [fmt_ld_natCast]

/-- The theorem of C40 on 16384000 KiB in SI units: both functions print 16777216. -/
theorem scale_size_agree_witness :
    units_scale_size 16384000 0 1 0 = free_scale_size 16384000 FREE_SI 0 ∧
    units_scale_size 16384000 0 1 0 = some "16777216".toList := by
  have h := scale_size_agree 16384000 0 1 FREE_SI (Or.inl rfl) (by decide) (by decide)
  exact ⟨h.1, ((h.2.2 (by decide)).1).trans (by decide)⟩

/-! ## Lines of a text and back -/

theorem getlines_line (body rest : List Char) (hbody : ∀ c ∈ body, c ≠ '\n') :
    getlines (body ++ '\n' :: rest) = (body ++ ['\n']) :: getlines rest := by
  induction body with
  | nil => simp [getlines]
  | cons c b ih =>
    have hc : c ≠ '\n' := hbody c (by simp)
    show getlines (c :: (b ++ '\n' :: rest)) = _
    rw [getlines, if_neg hc, ih (fun x hx => hbody x (by simp [hx]))]
    rfl

/-- Lines put one after the other are found again by `getline`. -/
theorem getlines_flatten : ∀ ls : List (List Char), (∀ l ∈ ls, is_text_line l) →
    getlines ls.flatten = ls := by
  intro ls
  induction ls with
  | nil => intro _; rfl
  | cons l ls ih =>
    intro h
    obtain ⟨body, hl, hbody⟩ := h l (by simp)
    rw [List.flatten_cons, hl, List.append_assoc]
    show getlines (body ++ '\n' :: ls.flatten) = _
    rw [getlines_line body _ hbody, ih (fun x hx => h x (by simp [hx]))]

theorem flatten_getlines : ∀ t : List Char, (getlines t).flatten = t := by
  intro t
  induction t with
  | nil => rfl
  | cons c cs ih =>
    rw [getlines]
    by_cases hc : c = '\n'
    · rw [if_pos hc, List.flatten_cons, ih]
      rfl
    · rw [if_neg hc]
      cases hg : getlines cs with
      | nil =>
        rw [hg] at ih
        rw [← ih]
        rfl
      | cons l ls =>
        rw [hg] at ih
        simp only [List.flatten_cons] at ih ⊢
        rw [List.cons_append, ih]

theorem getlines_mem_sub (t l : List Char) (hl : l ∈ getlines t) : ∀ c ∈ l, c ∈ t := by
  intro c hc
  rw [← flatten_getlines t]
  exact List.mem_flatten.mpr ⟨l, hl, hc⟩

/-- The lines `getline` delivers from a text that ends with a newline are lines. -/
theorem getlines_text_lines : ∀ (n : Nat) (t : List Char), t.length ≤ n →
    (t = [] ∨ t.getLast? = some '\n') → ∀ l ∈ getlines t, is_text_line l := by
  intro n
  induction n with
  | zero =>
    intro t hn _ l hl
    have ht : t = [] := List.length_eq_zero.mp (Nat.le_zero.mp hn)
    subst ht
    simp [getlines] at hl
  | succ n ih =>
    intro t hn hlast l hl
    rcases hlast with ht | hlast
    · subst ht
      simp [getlines] at hl
    · rcases line_cases_of (fun c => c != '\n') t with hall | ⟨a, x, b, ht, ha, hx⟩
      · exfalso
        have hmem : '\n' ∈ t := List.mem_of_mem_getLast? hlast
        have := hall _ hmem
        exact absurd this (by decide)
      · have hx2 : x = '\n' := by simpa using hx
        subst hx2
        have ha2 : ∀ c ∈ a, c ≠ '\n' := fun c hc => by simpa using ha c hc
        rw [ht, getlines_line a b ha2] at hl
        rcases List.mem_cons.mp hl with rfl | hl
        · exact ⟨a, rfl, ha2⟩
        · have hb : b = [] ∨ b.getLast? = some '\n' := by
            cases b with
            | nil => exact Or.inl rfl
            | cons y ys =>
              right
              rw [ht, List.getLast?_append] at hlast
              rw [List.getLast?_cons_cons] at hlast
              simpa using hlast
          have hlen : b.length ≤ n := by
            rw [ht] at hn
            simp only [List.length_append, List.length_cons] at hn
            omega
          exact ih b hlen hb l hl

/-! ## A formatted line read again -/

/-- The conversion `%lu` reads back a printed `unsigned long` that stands after white space
and before a character that is no digit. -/
theorem scan_lu_spaces_toDigits (ws : List Char) (n : Nat) (c : Char) (rest : List Char)
    (hws : ∀ x ∈ ws, isspace x = true) (hn : n < 2 ^ 64) (hc : isdigit c = false) :
    scan_lu (ws ++ (Nat.toDigits 10 n ++ c :: rest)) = some (n, c :: rest) := by
  have hall := toDigits_all_digit n
  have hne := toDigits_ne_nil n
  have hval := digitsVal_toDigits n
  generalize Nat.toDigits 10 n = ds at hall hne hval
  have htake : List.takeWhile isdigit (ds ++ c :: rest) = ds :=
    takeWhile_append_stop _ _ _ _ hall hc
  have hdrop : List.dropWhile isdigit (ds ++ c :: rest) = c :: rest :=
    dropWhile_append_stop _ _ _ _ hall hc
  cases ds with
  | nil => exact absurd rfl hne
  | cons d ds =>
    have hd : isdigit d = true := hall d (by simp)
    have hsp : isspace d = false := isdigit_not_isspace d hd
    obtain ⟨hm, hp, _⟩ := isdigit_not_sign d hd
    have h1 : List.dropWhile isspace (ws ++ ((d :: ds) ++ c :: rest))
        = (d :: ds) ++ c :: rest :=
      dropWhile_append_stop isspace ws (ds ++ c :: rest) d hws hsp
    have hm' : (some d == some '-') = false := by simp [hm]
    have hp' : (some d == some '+') = false := by simp [hp]
    have hhead : ((d :: ds) ++ c :: rest).head? = some d := rfl
    unfold scan_lu
    simp only [h1, hhead, hm', hp', Bool.or_false, Bool.false_eq_true, if_false]
    rw [htake, hdrop, hval]
    have h2 : ¬ (ULONG_MAX < n) := by unfold ULONG_MAX; omega
    simp [h2]

theorem fmt_lu8_chars (v : Nat) : ∀ c ∈ fmt_lu8 v, c = ' ' ∨ isdigit c = true := by
  intro c hc
  unfold fmt_lu8 at hc
  rcases List.mem_append.mp hc with h | h
  · exact Or.inl (List.eq_of_mem_replicate h)
  · exact Or.inr (toDigits_all_digit v c h)

theorem kb_heads_chars : ∀ e ∈ kb_heads, ∀ c ∈ e.2.toList, c ≠ NUL ∧ c ≠ '\n' := by
  decide

/-- No character of a formatted line is NUL, and only its last one is a newline. -/
theorem snprintf_kb_text_line (lab head : String) (v : Nat) (hhead : (lab, head) ∈ kb_heads)
    (hv : v < 2 ^ 64) :
    is_text_line (snprintf_kb head v) ∧ ∀ c ∈ snprintf_kb head v, c ≠ NUL := by
  have hk := kb_heads_layout (lab, head) hhead
  have hch := kb_heads_chars (lab, head) hhead
  have hfmt : ∀ c ∈ fmt_lu8 v, c ≠ NUL ∧ c ≠ '\n' := by
    intro c hc
    rcases fmt_lu8_chars v c hc with h | h
    · rw [h]
      decide
    · refine ⟨(isdigit_not_sign c h).2.2, ?_⟩
      intro hn
      rw [hn] at h
      exact absurd h (by decide)
  rw [snprintf_kb_fits head v hk.2.2 hv]
  constructor
  · refine ⟨head.toList ++ fmt_lu8 v ++ " kB".toList, ?_, ?_⟩
    · show _ = head.toList ++ fmt_lu8 v ++ " kB".toList ++ ['\n']
      simp only [List.append_assoc]
      rfl
    · intro c hc
      rcases List.mem_append.mp hc with h | h
      · rcases List.mem_append.mp h with h | h
        · exact (hch c h).2
        · exact (hfmt c h).2
      · exact (by decide : ∀ x ∈ " kB".toList, x ≠ '\n') c h
  · intro c hc
    rcases List.mem_append.mp hc with h | h
    · rcases List.mem_append.mp h with h | h
      · exact (hch c h).1
      · exact (hfmt c h).1
    · exact (by decide : ∀ x ∈ " kB\n".toList, x ≠ NUL) c h

theorem kb_heads_label_clean : ∀ e ∈ kb_heads, ∀ c ∈ e.1.toList, c ≠ NUL := by
  decide

/-- A formatted line begins with its label. -/
theorem startswith_snprintf_kb (lab head : String) (v : Nat)
    (hhead : (lab, head) ∈ kb_heads) (hv : v < 2 ^ 64) :
    startswith (snprintf_kb head v) lab = true := by
  have hk := kb_heads_layout (lab, head) hhead
  rw [startswith_iff, snprintf_kb_fits head v hk.2.2 hv, hk.2.1]
  simp only [List.append_assoc]
  rw [cstr_append_clean _ _ (kb_heads_label_clean (lab, head) hhead)]
  exact List.prefix_append _ _

/-- The number of a formatted line is read back from after the label, when the head is
blank from there on. -/
theorem sscanf_snprintf_kb (lab head : String) (v skip : Nat)
    (hhead : (lab, head) ∈ kb_heads) (hv : v < 2 ^ 64)
    (hblank : ∀ c ∈ head.toList.drop skip, isspace c = true) (hskip : skip ≤ 16) :
    sscanf_lu_or_zero (snprintf_kb head v) skip = v := by
  have hk := kb_heads_layout (lab, head) hhead
  have hclean := (snprintf_kb_text_line lab head v hhead hv).2
  have hlen : head.toList.length = 16 := hk.2.2
  unfold sscanf_lu_or_zero
  have hc : cstr (snprintf_kb head v) = snprintf_kb head v :=
    takeWhile_all _ _ (fun c hc => by simpa using hclean c hc)
  rw [hc, snprintf_kb_fits head v hk.2.2 hv]
  have hdrop : (head.toList ++ fmt_lu8 v ++ " kB\n".toList).drop skip
      = (head.toList.drop skip ++ List.replicate (8 - (Nat.toDigits 10 v).length) ' ')
          ++ (Nat.toDigits 10 v ++ ' ' :: "kB\n".toList) := by
    rw [List.append_assoc, List.drop_append_of_le_length (by omega)]
    unfold fmt_lu8
    simp only [List.append_assoc]
    rfl
  rw [hdrop, scan_lu_spaces_toDigits _ v ' ' _ _ hv (by decide)]
  intro x hx
  rcases List.mem_append.mp hx with h | h
  · exact hblank x h
  · rw [List.eq_of_mem_replicate h]
    decide

/-! ## The rewriter applied to its own lines -/

theorem cstr_clean (l : List Char) (h : NUL ∉ l) : cstr l = l :=
  takeWhile_all _ _ (fun c hc => by
    simp only [bne_iff_ne, ne_eq]
    intro hn
    exact h (hn ▸ hc))

theorem memtotal_cap_stable (m host : Nat) :
    (if (if host < (if m = 0 then host else m) then host else (if m = 0 then host else m))
        < (if m = 0 then
            (if host < (if m = 0 then host else m) then host else (if m = 0 then host else m))
           else m)
     then (if host < (if m = 0 then host else m) then host else (if m = 0 then host else m))
     else (if m = 0 then
            (if host < (if m = 0 then host else m) then host else (if m = 0 then host else m))
           else m))
      = (if host < (if m = 0 then host else m) then host else (if m = 0 then host else m)) ∧
    (if host < (if m = 0 then host else m) then host else (if m = 0 then host else m))
      ≤ host := by
  constructor <;> split_ifs <;> omega

theorem swaptotal_cap_stable (m host : Nat) :
    (if (if host < m then host else m) < m then (if host < m then host else m) else m)
      = (if host < m then host else m) ∧
    (if host < m then host else m) ≤ host := by
  constructor <;> split_ifs <;> omega

/-- A rewritten line is left as it is, with the same locals, when it is rewritten again
from the locals it was made with. -/
theorem rewrite_line_again (data : memcg_data) (vars : rewrite_vars) (l : List Char)
    (hd : data.is_ulong) (hnul : NUL ∉ l) :
    rewrite_line data vars (rewrite_line data vars l).2 = rewrite_line data vars l := by
  by_cases hrec : ∃ lab ∈ recognised_labels, startswith l lab = true
  · obtain ⟨lab, hlab, h⟩ := hrec
    rcases recognised_labels_cases lab hlab with rfl | rfl | rfl | rfl | rfl | rfl
      | ⟨e, he, rfl⟩ | ⟨e, he, rfl⟩
    · rw [rewrite_line_memtotal data vars l h]
      have hst := memtotal_cap_stable vars.memlimit (sscanf_lu_or_zero l 9)
      have hhost := sscanf_lu_or_zero_lt l 9
      generalize (if sscanf_lu_or_zero l 9
          < (if vars.memlimit = 0 then sscanf_lu_or_zero l 9 else vars.memlimit)
        then sscanf_lu_or_zero l 9
        else (if vars.memlimit = 0 then sscanf_lu_or_zero l 9 else vars.memlimit)) = V at hst ⊢
      have hV : V < 2 ^ 64 := by omega
      simp only []
      rw [rewrite_line_memtotal data vars _
          (startswith_snprintf_kb "MemTotal:" "MemTotal:       " V (by decide) hV),
        sscanf_snprintf_kb "MemTotal:" "MemTotal:       " V 9 (by decide) hV (by decide)
          (by decide),
        hst.1]
    · rw [rewrite_line_memfree data vars l h]
      exact rewrite_line_memfree data vars _
        (startswith_snprintf_kb "MemFree:" "MemFree:        " _ (by decide) (ul_sub_lt _ _))
    · rw [rewrite_line_memavailable data vars l h]
      exact rewrite_line_memavailable data vars _
        (startswith_snprintf_kb "MemAvailable:" "MemAvailable:   " _ (by decide)
          (ul_add_lt _ _))
    · rw [rewrite_line_swaptotal data vars l h]
      have hst := swaptotal_cap_stable vars.swtotal (sscanf_lu_or_zero l 10)
      have hhost := sscanf_lu_or_zero_lt l 10
      generalize (if sscanf_lu_or_zero l 10 < vars.swtotal then sscanf_lu_or_zero l 10
        else vars.swtotal) = V at hst ⊢
      have hV : V < 2 ^ 64 := by omega
      simp only []
      rw [rewrite_line_swaptotal data vars _
          (startswith_snprintf_kb "SwapTotal:" "SwapTotal:      " V (by decide) hV),
        sscanf_snprintf_kb "SwapTotal:" "SwapTotal:      " V 10 (by decide) hV (by decide)
          (by decide),
        hst.1]
    · rw [rewrite_line_swapfree data vars l h]
      exact rewrite_line_swapfree data vars _
        (startswith_snprintf_kb "SwapFree:" "SwapFree:       " _ (by decide) (ul_sub_lt _ _))
    · rw [rewrite_line_anonpages data vars l h]
      exact rewrite_line_anonpages data vars _
        (startswith_snprintf_kb "AnonPages:" "AnonPages:      " _ (by decide)
          (lt_of_le_of_lt (Nat.div_le_self _ _) (ul_sub_lt _ _)))
    · rw [rewrite_line_zero data vars l e he h]
      exact rewrite_line_zero data vars _ e he
        (startswith_snprintf_kb e.1 e.2 0
          (List.mem_append.mpr (Or.inl (List.mem_append.mpr (Or.inr he)))) (by norm_num))
    · rw [rewrite_line_counter data vars l e he h]
      exact rewrite_line_counter data vars _ e he
        (startswith_snprintf_kb e.1 e.2.1 _
          (List.mem_append.mpr (Or.inr (List.mem_map.mpr ⟨e, he, rfl⟩)))
          (lt_of_le_of_lt (Nat.div_le_self _ _) (counter_lines_lt _ hd.2.2 e he)))
  · have hun : ∀ lab ∈ recognised_labels, startswith l lab = false := by
      intro lab hlab
      cases hs : startswith l lab with
      | false => rfl
      | true => exact absurd ⟨lab, hlab, hs⟩ hrec
    rw [rewrite_line_unrecognised data vars l hun, cstr_clean l hnul]
    simp only []
    rw [rewrite_line_unrecognised data vars l hun, cstr_clean l hnul]

theorem rewrite_lines_again (data : memcg_data) (hd : data.is_ulong) :
    ∀ (ls : List (List Char)) (vars : rewrite_vars), (∀ l ∈ ls, NUL ∉ l) →
    rewrite_lines data vars (rewrite_lines data vars ls) = rewrite_lines data vars ls := by
  intro ls
  induction ls with
  | nil => intro vars _; rfl
  | cons l ls ih =>
    intro vars h
    simp only [rewrite_lines]
    rw [rewrite_line_again data vars l hd (h l (by simp)),
      ih _ (fun x hx => h x (by simp [hx]))]

/-- A line of a text without NUL is rewritten to a line that begins with the same
recognised label, or with none if it began with none, and is again a line. -/
theorem rewrite_line_kept (data : memcg_data) (vars : rewrite_vars) (l : List Char)
    (hd : data.is_ulong) (hm : vars.memlimit < 2 ^ 64) (hs : vars.swtotal < 2 ^ 64)
    (hnul : NUL ∉ l) :
    (is_text_line l → is_text_line (rewrite_line data vars l).2) ∧
    (∀ lab ∈ recognised_labels,
      startswith (rewrite_line data vars l).2 lab = startswith l lab) ∧
    ((∀ lab ∈ recognised_labels, startswith l lab = false) →
      (rewrite_line data vars l).2 = l) := by
  by_cases hrec : ∃ lab ∈ recognised_labels, startswith l lab = true
  · obtain ⟨lab0, hlab0, h0⟩ := hrec
    obtain ⟨head, v, hmem, hv, hout⟩ := rewrite_line_layout data vars l lab0 hlab0 h0 hd hm hs
    have hstart := startswith_snprintf_kb lab0 head v hmem hv
    rw [hout]
    refine ⟨fun _ => (snprintf_kb_text_line lab0 head v hmem hv).1, ?_, ?_⟩
    · intro lab hlab
      by_cases hl : lab = lab0
      · rw [hl, hstart, h0]
      · have h1 := startswith_other l lab0 hlab0 h0 lab hlab hl
        have h2 := startswith_other _ lab0 hlab0 hstart lab hlab hl
        have e1 : startswith l lab = false := by simpa using h1
        have e2 : startswith (snprintf_kb head v) lab = false := by simpa using h2
        rw [e1, e2]
    · intro hun
      rw [hun lab0 hlab0] at h0
      exact Bool.noConfusion h0
  · have hun : ∀ lab ∈ recognised_labels, startswith l lab = false := by
      intro lab hlab
      cases hs : startswith l lab with
      | false => rfl
      | true => exact absurd ⟨lab, hlab, hs⟩ hrec
    rw [rewrite_line_unrecognised data vars l hun, cstr_clean l hnul]
    exact ⟨fun h => h, fun _ _ => rfl, fun _ => rfl⟩

theorem rewrite_lines_text_lines (data : memcg_data) (hd : data.is_ulong) :
    ∀ (ls : List (List Char)) (vars : rewrite_vars),
    vars.memlimit < 2 ^ 64 → vars.swtotal < 2 ^ 64 →
    (∀ l ∈ ls, is_text_line l ∧ NUL ∉ l) →
    ∀ o ∈ rewrite_lines data vars ls, is_text_line o := by
  intro ls
  induction ls with
  | nil => intro vars _ _ _ o ho; simp [rewrite_lines] at ho
  | cons l ls ih =>
    intro vars hm hs h o ho
    simp only [rewrite_lines] at ho
    have hl := h l (by simp)
    rcases List.mem_cons.mp ho with rfl | ho
    · exact (rewrite_line_kept data vars l hd hm hs hl.2).1 hl.1
    · have hv := rewrite_line_vars_lt data vars l hm hs
      exact ih _ hv.1 hv.2 (fun x hx => h x (by simp [hx])) o ho

theorem rewrite_init_lt (data : memcg_data) (hd : data.is_ulong) :
    (rewrite_init data).memlimit < 2 ^ 64 ∧ (rewrite_init data).swtotal < 2 ^ 64 :=
  ⟨lt_of_le_of_lt (Nat.div_le_self _ _) hd.1, lt_of_le_of_lt (Nat.div_le_self _ _) hd.2.1⟩

/-- The lines of the rewritten report, put one after the other and cut again at the
newlines, are the rewritten lines. -/
theorem getlines_meminfo_rewritten (data : memcg_data) (meminfo : List Char)
    (hd : data.is_ulong) (hnul : NUL ∉ meminfo)
    (hnl : meminfo = [] ∨ meminfo.getLast? = some '\n') :
    getlines (meminfo_rewritten data meminfo).flatten = meminfo_rewritten data meminfo := by
  apply getlines_flatten
  have hinit := rewrite_init_lt data hd
  exact rewrite_lines_text_lines data hd _ _ hinit.1 hinit.2 (fun l hl =>
    ⟨getlines_text_lines _ meminfo (Nat.le_refl _) hnl l hl,
      fun h => hnul (getlines_mem_sub meminfo l hl NUL h)⟩)

/-- The call returns 0 exactly when the rewritten lines leave room for the NUL, and the
buffer then holds them. -/
theorem cgroup_meminfo_read_buf_zero_iff (fs : FileSystem) (cg : Nat × memcg_meminfo)
    (old : List Char) (len : Int) (meminfo out : List Char) (hcg : cg.1 = 0)
    (hfile : fs "/proc/meminfo".toList = .ok meminfo) :
    cgroup_meminfo_read_buf fs cg (some old) len = (0, some out) ↔
      ((meminfo_rewritten cg.2.cgmem_data meminfo).flatten.length : Int) < len ∧
      out = (meminfo_rewritten cg.2.cgmem_data meminfo).flatten := by
  by_cases hlen : len ≤ 0
  · constructor
    · intro h
      unfold cgroup_meminfo_read_buf at h
      simp only [] at h
      rw [if_pos hlen] at h
      simp [EINVAL] at h
    · intro h
      omega
  · obtain ⟨n, rfl⟩ := Int.eq_ofNat_of_zero_le (by omega : 0 ≤ len)
    have hn : 0 < n := by omega
    have hrun : cgroup_meminfo_read_buf fs cg (some old) (n : Int)
        = ((read_buf_loop cg.2.cgmem_data n (getlines meminfo)
              (rewrite_init cg.2.cgmem_data) []).1,
            some (read_buf_loop cg.2.cgmem_data n (getlines meminfo)
              (rewrite_init cg.2.cgmem_data) []).2) := by
      unfold cgroup_meminfo_read_buf
      simp only []
      rw [if_neg hlen, if_neg (by rw [hcg]; exact fun h => h rfl), hfile]
      rfl
    have hloop := read_buf_loop_total cg.2.cgmem_data n (getlines meminfo)
      (rewrite_init cg.2.cgmem_data) [] hn
    simp only [List.length_nil, Nat.zero_add, List.nil_append] at hloop
    have hflat : rewrite_lines cg.2.cgmem_data (rewrite_init cg.2.cgmem_data)
        (getlines meminfo) = meminfo_rewritten cg.2.cgmem_data meminfo := rfl
    rw [hflat] at hloop
    rw [hrun]
    constructor
    · intro h
      simp only [Prod.mk.injEq, Option.some.injEq] at h
      by_cases hL : n ≤ (meminfo_rewritten cg.2.cgmem_data meminfo).flatten.length
      · have := hloop.1 hL
        rw [h.1] at this
        exact absurd this (by decide)
      · have h2 := hloop.2 (by omega)
        rw [h2] at h
        exact ⟨by omega, h.2.symm⟩
    · intro h
      rw [hloop.2 (by omega), h.2]

/-! ## The rewriter: idempotence and the sequence of lines -/

/-- C37: for every snapshot of `unsigned long` numbers and every host report that is a
text without NUL ending with a newline, rewriting the rewritten report with the same
snapshot yields it again, line for line and hence byte for byte; and when
`cgroup_meminfo_read_buf` returned 0 with the buffer holding `out`, a second call with the
same snapshot and buffer length on a system whose report is `out` returns 0 with `out` in
the buffer again. -/
theorem meminfo_rewrite_idempotent (data : memcg_data) (meminfo : List Char)
    (hd : data.is_ulong) (hnul : NUL ∉ meminfo)
    (hnl : meminfo = [] ∨ meminfo.getLast? = some '\n') :
    meminfo_rewritten data (meminfo_rewritten data meminfo).flatten
      = meminfo_rewritten data meminfo ∧
    (∀ (fs fs2 : FileSystem) (cg : Nat × memcg_meminfo) (old old2 : List Char) (len : Int)
        (out : List Char),
      cg.1 = 0 → cg.2.cgmem_data = data → fs "/proc/meminfo".toList = .ok meminfo →
      cgroup_meminfo_read_buf fs cg (some old) len = (0, some out) →
      fs2 "/proc/meminfo".toList = .ok out →
      cgroup_meminfo_read_buf fs2 cg (some old2) len = (0, some out)) := by
  have hlines : ∀ l ∈ getlines meminfo, NUL ∉ l :=
    fun l hl h => hnul (getlines_mem_sub meminfo l hl NUL h)
  have h1 : meminfo_rewritten data (meminfo_rewritten data meminfo).flatten
      = meminfo_rewritten data meminfo := by
    show rewrite_lines data (rewrite_init data)
        (getlines (meminfo_rewritten data meminfo).flatten) = _
    rw [getlines_meminfo_rewritten data meminfo hd hnul hnl]
    exact rewrite_lines_again data hd _ _ hlines
  refine ⟨h1, ?_⟩
  intro fs fs2 cg old old2 len out hcg hdata hfile hcall hfile2
  have hfirst := (cgroup_meminfo_read_buf_zero_iff fs cg old len meminfo out hcg hfile).mp hcall
  rw [hdata] at hfirst
  apply (cgroup_meminfo_read_buf_zero_iff fs2 cg old2 len out out hcg hfile2).mpr
  rw [hdata, hfirst.2, h1]
  exact ⟨hfirst.1, rfl⟩

/-- The theorem of C37 on the example report. -/
theorem meminfo_rewrite_idempotent_witness :
    meminfo_rewritten example_data (meminfo_rewritten example_data example_meminfo.toList).flatten
      = meminfo_rewritten example_data example_meminfo.toList :=
  (meminfo_rewrite_idempotent example_data example_meminfo.toList
    ⟨by decide, by decide, fun f => by cases f <;> decide⟩ (by decide)
    (Or.inr (by decide))).1

/-- C38: for every snapshot of `unsigned long` numbers and every host report that is a
text without NUL ending with a newline, the rewritten report cut at its newlines has as
many lines as the host report; its k-th line begins with a recognised label exactly when
the k-th host line begins with it, and is the k-th host line when that begins with none;
and when `cgroup_meminfo_read_buf` returns 0 the buffer holds that rewritten report. -/
theorem meminfo_lines_kept (data : memcg_data) (meminfo : List Char)
    (hd : data.is_ulong) (hnul : NUL ∉ meminfo)
    (hnl : meminfo = [] ∨ meminfo.getLast? = some '\n') :
    (getlines (meminfo_rewritten data meminfo).flatten).length = (getlines meminfo).length ∧
    (∀ (k : Nat) (l : List Char), (getlines meminfo)[k]? = some l →
      ∃ o, (getlines (meminfo_rewritten data meminfo).flatten)[k]? = some o ∧
        (∀ lab ∈ recognised_labels, startswith o lab = startswith l lab) ∧
        ((∀ lab ∈ recognised_labels, startswith l lab = false) → o = l)) ∧
    (∀ fs cg buf len out, cg.2.cgmem_data = data → fs "/proc/meminfo".toList = .ok meminfo →
      cgroup_meminfo_read_buf fs cg buf len = (0, some out) →
      out = (meminfo_rewritten data meminfo).flatten) := by
  rw [getlines_meminfo_rewritten data meminfo hd hnul hnl]
  refine ⟨rewrite_lines_length data _ _, ?_, ?_⟩
  · intro k l hl
    have hinit := rewrite_init_lt data hd
    have hvars := rewrite_vars_after_lt data ((getlines meminfo).take k) (rewrite_init data)
      hinit.1 hinit.2
    have hmem : l ∈ getlines meminfo := List.getElem?_mem hl
    have hl0 : NUL ∉ l := fun h => hnul (getlines_mem_sub meminfo l hmem NUL h)
    have hkept := rewrite_line_kept data _ l hd hvars.1 hvars.2 hl0
    refine ⟨_, ?_, hkept.2.1, hkept.2.2⟩
    unfold meminfo_rewritten
    exact rewrite_lines_getElem? data _ _ k l hl
  · intro fs cg buf len out hdata hf h
    rw [← hdata]
    exact cgroup_meminfo_read_buf_ok fs cg buf len meminfo out hf h

/-- The theorem of C38 on the example report: ten lines in, ten lines out. -/
theorem meminfo_lines_kept_witness :
    (getlines (meminfo_rewritten example_data example_meminfo.toList).flatten).length = 10 :=
  (meminfo_lines_kept example_data example_meminfo.toList
    ⟨by decide, by decide, fun f => by cases f <;> decide⟩ (by decide)
    (Or.inr (by decide))).1.trans (by decide)

end Procps
